import Mathlib

/-! ACME client protocol plugin (`plugins/acme-client/protocol_lws_acme_client.c`)

A shallow embedding of the plugin's single callback `callback_acme_client` and of the
JSON callbacks `cb_dir`, `cb_authz`, `cb_chac`.

* C strings are `List Char` holding the text before the terminating NUL.
* Raw bytes (the DER certificate, the signed packet) are `List Nat`.
* Everything the callback obtains from a collaborator (transport, JSON parser, crypto,
  operating system) is an input: a field of `Ext` when it is a function of its
  arguments, a field of the event when it is the outcome of one call.
* The callback returns `none` where the C code would dereference a null pointer (no
  session, no parser context, no directory slot); the only other `none`, the line loop
  of the installer running out of rounds, is shown never to occur.
-/

namespace AcmeClient

/-! ## Data model -/

/-- States of one issuance attempt, `lws_acme_state`. -/
inductive lws_acme_state where
  | ACME_STATE_DIRECTORY
  | ACME_STATE_NEW_REG
  | ACME_STATE_NEW_AUTH
  | ACME_STATE_ACCEPT_CHALL
  | ACME_STATE_POLLING
  | ACME_STATE_POLLING_CSR
  | ACME_STATE_FINISHED
  deriving DecidableEq

open lws_acme_state

/-- Which JSON callback the session's parser context `jctx` was last constructed with. -/
inductive lejp_user where
  | dir
  | authz
  | chac
  deriving DecidableEq

/-- The session, `struct acme_connection`. -/
structure acme_connection where
  buf : List Nat
  replay_nonce : List Char
  chall_token : List Char
  challenge_uri : List Char
  status : List Char
  san_a : List Char
  san_b : List Char
  urls : List (List Char)
  state : lws_acme_state
  jctx : Option lejp_user
  vhost : Option Nat
  real_vh_name : List Char
  real_vh_iface : List Char
  alloc_privkey_pem : Option (List Char)
  pos : Int
  len : Int
  resp : Int
  cpos : Nat
  real_vh_port : Int
  goes_around : Int
  len_privkey_pem : Nat
  yes : Nat
  use : Bool
  is_sni_02 : Bool
  deriving DecidableEq

/-- An open write-only descriptor: the bytes of the file and the current offset. -/
structure File where
  data : List Char
  off : Nat
  deriving DecidableEq

/-- The per-site data, `struct per_vhost_data__lws_acme_client`.  `jwk` is the account
key (`none` once `lws_jwk_destroy` ran), `dest` is the index of the directory slot the
C pointer `dest` points into. -/
structure per_vhost_data__lws_acme_client where
  vhost : Nat
  ac : Option acme_connection
  jwk : Option (List Nat)
  pvop : List (Option (List Char))
  dest : Option Nat
  pos : Nat
  len : Nat
  fd_updated_cert : File
  fd_updated_key : File
  deriving DecidableEq

/-- What the callback asks of its collaborators, in call order. -/
inductive Effect where
  | client_connect (url : List Char) (method : List Char)
  | vhost_destroy (vh : Nat)
  | create_vhost (vhost_name : List Char) (iface : List Char) (port : Int)
  | genrsa_destroy
  | jwk_destroy
  | jws_create_packet (payload : List Char) (nonce : List Char)
  | add_http_header (name : List Char) (value : List Char)
  | http_body_pending (pending : Bool)
  | callback_on_writable
  | lws_write (body : List Nat)
  | fsync_updated_cert
  | fsync_updated_key
  | tls_cert_updated (cert : List Nat) (key : List Char)
  | acme_sni_cert_create (san_a : List Char) (san_b : List Char)
  deriving DecidableEq

/-- Outcome of one call of the callback. -/
structure Result where
  vhd : per_vhost_data__lws_acme_client
  ret : Int
  eff : List Effect
  deriving DecidableEq

/-! ## Collaborators -/

/-- The functions the plugin takes from the library: the buffer pre-padding `LWS_PRE`,
the account-key fingerprint, the URL-safe base64 of the signing code (`none` for a
negative return), SHA-256 and the signed-packet builder (`none` for a negative return). -/
structure Ext where
  LWS_PRE : Nat
  lws_jwk_rfc7638_fingerprint : Option (List Nat) → List Nat
  lws_jws_base64_enc : List Nat → Option (List Char)
  sha256 : List Char → List Nat
  lws_jws_create_packet : Option (List Nat) → List Char → List Char → Nat → Option (List Nat)

/-- Modelled from the spec: the reasons the JSON parser calls back with (the enumeration
`lejp_callbacks` is declared in the library, not among the sources). -/
inductive lejp_callbacks where
  | LEJPCB_CONSTRUCTED
  | LEJPCB_DESTRUCTED
  | LEJPCB_START
  | LEJPCB_COMPLETE
  | LEJPCB_FAILED
  | LEJPCB_PAIR_NAME
  | LEJPCB_VAL_TRUE
  | LEJPCB_VAL_FALSE
  | LEJPCB_VAL_NULL
  | LEJPCB_VAL_NUM_INT
  | LEJPCB_VAL_NUM_FLOAT
  | LEJPCB_VAL_STR_START
  | LEJPCB_VAL_STR_CHUNK
  | LEJPCB_VAL_STR_END
  | LEJPCB_ARRAY_START
  | LEJPCB_ARRAY_END
  | LEJPCB_OBJECT_START
  | LEJPCB_OBJECT_END
  deriving DecidableEq

open lejp_callbacks

/-- Modelled from the spec: the bit `LEJP_FLAG_CB_IS_VALUE` of the library, set on the
reasons that deliver a value; the start of a string is reported without it. -/
def LEJP_FLAG_CB_IS_VALUE : lejp_callbacks → Bool
  | LEJPCB_VAL_TRUE => true
  | LEJPCB_VAL_FALSE => true
  | LEJPCB_VAL_NULL => true
  | LEJPCB_VAL_NUM_INT => true
  | LEJPCB_VAL_NUM_FLOAT => true
  | LEJPCB_VAL_STR_CHUNK => true
  | LEJPCB_VAL_STR_END => true
  | _ => false

/-- Modelled from the spec: the part of the library's `struct lejp_ctx` the callbacks
read: the 1-based index of the matched path (0: no match) and the NUL-free text of the
current chunk; `npos` is its length. -/
structure lejp_ctx where
  path_match : Nat
  buf : List Char
  deriving DecidableEq

/-- Length of the current chunk. -/
def lejp_ctx.npos (ctx : lejp_ctx) : Nat := ctx.buf.length

/-- One call the parser makes to its callback. -/
structure lejp_event where
  reason : lejp_callbacks
  ctx : lejp_ctx
  deriving DecidableEq

/-- Modelled from the spec: the parse result of the library meaning that more input is
needed. -/
def LEJP_CONTINUE : Int := -1

/-- Modelled from the spec: the parse result of the library after a callback returned
nonzero; the plugin only looks at its being negative and different from
`LEJP_CONTINUE`. -/
def LEJP_REJECT_CALLBACK : Int := -14

/-! ## C library helpers -/

/-- The text `strncpy(dst, src, n)` leaves in a zeroed field of `n + 1` bytes. -/
def strncpy (src : List Char) (n : Nat) : List Char := src.take n

/-- Modelled from the spec: the text the library's `lws_snprintf(p, size, ...)` stores
for the formatted text `s`: at most `size - 1` characters. -/
def lws_snprintf (size : Nat) (s : List Char) : List Char := s.take (size - 1)

/-- The bytes of a buffer after `memcpy(buf + off, src, src.length)`. -/
def memcpy_at (buf : List Nat) (off : Nat) (src : List Nat) : List Nat :=
  buf.take off ++ src ++ buf.drop (off + src.length)

/-- One lowercase hexadecimal digit. -/
def hexdigit (n : Nat) : Char := "0123456789abcdef".toList.getD n '0'

/-- The two characters of `"%02x"` applied to `b & 0xff`. -/
def hex2 (b : Nat) : List Char := [hexdigit (b % 256 / 16), hexdigit (b % 16)]

/-- Hexadecimal rendering of the digest bytes `from .. from + 15`. -/
def hex16 (digest : List Nat) (start : Nat) : List Char :=
  ((List.range 16).map fun n => hex2 (digest.getD (start + n) 0)).flatten

/-- Modelled from the spec: the transport's header read `lws_hdr_copy`, which is not
among the sources: a header of `len` bytes or more is refused with -1, an absent header
returns 0 and leaves the field alone, otherwise the value is stored and its length
returned. -/
def lws_hdr_copy (dst : List Char) (len : Nat) (hdr : Option (List Char)) : Int × List Char :=
  match hdr with
  | none => (0, dst)
  | some h => if h.length ≥ len then (-1, dst) else (h.length, h)

/-- Modelled from the spec: the transport's `lws_hdr_total_length`, the length of a
header, 0 when absent. -/
def lws_hdr_total_length (hdr : Option (List Char)) : Nat :=
  match hdr with
  | none => 0
  | some h => h.length

/-! ## Base64 and files -/

/-- The base64 alphabet. -/
def b64_alphabet : List Char :=
  "ABCDEFGHIJKLMNOPQRSTUVWXYZabcdefghijklmnopqrstuvwxyz0123456789+/".toList

/-- Character of a 6-bit value. -/
def b64_char (i : Nat) : Char := b64_alphabet.getD i 'A'

/-- Modelled from the spec: the base64 text of a byte string (the encoder
`lws_b64_encode_string` is not among the sources): three bytes give four characters,
a short last group is padded with the equals sign. -/
def b64_encode : List Nat → List Char
  | [] => []
  | [a] => [b64_char (a / 4), b64_char (a % 4 * 16), '=', '=']
  | [a, b] => [b64_char (a / 4), b64_char (a % 4 * 16 + b / 16), b64_char (b % 16 * 4), '=']
  | a :: b :: c :: rest =>
    b64_char (a / 4) :: b64_char (a % 4 * 16 + b / 16) :: b64_char (b % 16 * 4 + c / 64) ::
      b64_char (c % 64) :: b64_encode rest

/-- Modelled from the spec: `lws_b64_encode_string(in, in_len, out, out_size)`, not among
the sources: the base64 text, or `none` (a negative return) when the text and its
terminating NUL do not fit below `out_size`. -/
def lws_b64_encode_string (inp : List Nat) (out_size : Nat) : Option (List Char) :=
  if (b64_encode inp).length + 1 ≥ out_size then none else some (b64_encode inp)

/-- The system call `write(fd, bs, count)`: `o` is what the operating system decides,
`none` for a complete write, `some r` for the return value `r` (a short count or an
error).  Gives the file afterwards and the value returned. -/
def sys_write (f : File) (bs : List Char) (count : Nat) (o : Option Int) : File × Int :=
  let r : Int := o.getD count
  let w := (bs.take count).take r.toNat
  ({ data := f.data.take f.off ++ w ++ f.data.drop (f.off + w.length),
     off := f.off + w.length }, r)

/-- The system call `lseek(fd, 0, SEEK_SET)`. -/
def lseek0 (f : File) : File := { f with off := 0 }

/-! ## JSON callbacks -/

/-- Index of the key-change URL in the directory, `enum enum_jhdr_tok`. -/
abbrev JAD_KEY_CHANGE_URL : Nat := 0

/-- Index of the terms-of-service URL. -/
abbrev JAD_TOS_URL : Nat := 1

/-- Index of the new-authz URL. -/
abbrev JAD_NEW_AUTHZ_URL : Nat := 2

/-- Index of the new-cert URL. -/
abbrev JAD_NEW_CERT_URL : Nat := 3

/-- Index of the new-reg URL. -/
abbrev JAD_NEW_REG_URL : Nat := 4

/-- Index of the revoke-cert URL. -/
abbrev JAD_REVOKE_CERT_URL : Nat := 5

/-- Directory callback `cb_dir`; its user data is the per-site data.  Gives the data
afterwards and the value returned. -/
def cb_dir (s : per_vhost_data__lws_acme_client) (reason : lejp_callbacks) (ctx : lejp_ctx) :
    Option (per_vhost_data__lws_acme_client × Int) :=
  if reason = LEJPCB_VAL_STR_START ∧ ctx.path_match ≠ 0 then
    match s.ac with
    | none => none
    | some _ => some ({ s with pos := 0, len := 100 - 1, dest := some (ctx.path_match - 1) }, 0)
  else if LEJP_FLAG_CB_IS_VALUE reason = false ∨ ctx.path_match = 0 then some (s, 0)
  else if s.pos + ctx.npos > s.len then some (s, -1)
  else
    match s.dest, s.ac with
    | some d, some ac =>
      let slot := ac.urls.getD d []
      let slot1 := if s.pos ≤ slot.length then slot.take s.pos ++ ctx.buf else slot
      some ({ s with ac := some { ac with urls := ac.urls.set d slot1 },
                     pos := s.pos + ctx.npos }, 0)
    | _, _ => none

/-- Authorization callback `cb_authz`; its user data is the session. -/
def cb_authz (s0 : acme_connection) (reason : lejp_callbacks) (ctx : lejp_ctx) :
    acme_connection × Int :=
  let s := if reason = LEJPCB_CONSTRUCTED then
      { s0 with yes := 0, use := false, chall_token := [], is_sni_02 := false }
    else s0
  if LEJP_FLAG_CB_IS_VALUE reason = false ∨ ctx.path_match = 0 then (s, 0)
  else
    match ctx.path_match - 1 with
    | 4 =>
      if s.is_sni_02 then (s, 0)
      else
        ({ s with use := decide (ctx.buf = "tls-sni-01".toList) || decide (ctx.buf = "tls-sni-02".toList),
                  is_sni_02 := decide (ctx.buf = "tls-sni-02".toList) }, 0)
    | 5 => ({ s with status := strncpy ctx.buf (16 - 1) }, 0)
    | 6 =>
      if s.use then
        ({ s with challenge_uri := strncpy ctx.buf (256 - 1), yes := (s.yes ||| 2) % 4 }, 0)
      else (s, 0)
    | 7 =>
      if s.use then
        ({ s with chall_token := strncpy ctx.buf (64 - 1), yes := (s.yes ||| 1) % 4 }, 0)
      else (s, 0)
    | _ => (s, 0)

/-- Challenge callback `cb_chac`; its user data is the session. -/
def cb_chac (s0 : acme_connection) (reason : lejp_callbacks) (ctx : lejp_ctx) :
    acme_connection × Int :=
  let s := if reason = LEJPCB_CONSTRUCTED then { s0 with yes := 0, use := false } else s0
  if LEJP_FLAG_CB_IS_VALUE reason = false ∨ ctx.path_match = 0 then (s, 0)
  else
    match ctx.path_match - 1 with
    | 0 =>
      if ctx.buf ≠ "tls-sni-01".toList ∧ ctx.buf ≠ "tls-sni-02".toList then (s, 1) else (s, 0)
    | 1 => ({ s with status := strncpy ctx.buf (16 - 1) }, 0)
    | 2 => ({ s with yes := (s.yes ||| 2) % 4 }, 0)
    | 3 => ({ s with chall_token := strncpy ctx.buf (64 - 1), yes := (s.yes ||| 1) % 4 }, 0)
    | _ => (s, 0)

/-- One callback of the parser, dispatched to the callback the context was constructed
with. -/
def lejp_callback (u : lejp_user) (vhd : per_vhost_data__lws_acme_client) (e : lejp_event) :
    Option (per_vhost_data__lws_acme_client × Int) :=
  match u with
  | lejp_user.dir => cb_dir vhd e.reason e.ctx
  | lejp_user.authz =>
    match vhd.ac with
    | none => none
    | some ac => some ({ vhd with ac := some (cb_authz ac e.reason e.ctx).1 },
                       (cb_authz ac e.reason e.ctx).2)
  | lejp_user.chac =>
    match vhd.ac with
    | none => none
    | some ac => some ({ vhd with ac := some (cb_chac ac e.reason e.ctx).1 },
                       (cb_chac ac e.reason e.ctx).2)

/-- Modelled from the spec: the streaming parser `lejp_parse`, not among the sources, as
the stream of callbacks it makes for one piece of input: `pret` is its result when no
callback objects, a callback that returns nonzero ends the parse with
`LEJP_REJECT_CALLBACK`. -/
def lejp_parse (u : lejp_user) :
    per_vhost_data__lws_acme_client → List lejp_event → Int →
      Option (per_vhost_data__lws_acme_client × Int)
  | vhd, [], pret => some (vhd, pret)
  | vhd, e :: es, pret =>
    match lejp_callback u vhd e with
    | none => none
    | some (vhd1, r) => if r ≠ 0 then some (vhd1, LEJP_REJECT_CALLBACK) else lejp_parse u vhd1 es pret

/-- The cast `(int)(signed char)` applied to a parse result. -/
def signed_char (m : Int) : Int := (m + 128) % 256 - 128

/-! ## Session teardown and transport -/

/-- Session teardown `lws_acme_finished`. -/
def lws_acme_finished (vhd : per_vhost_data__lws_acme_client) :
    per_vhost_data__lws_acme_client × List Effect :=
  match vhd.ac with
  | none => (vhd, [])
  | some ac =>
    ({ vhd with ac := none, jwk := none },
     (match ac.vhost with
      | some vh => [Effect.vhost_destroy vh]
      | none => []) ++ [Effect.genrsa_destroy, Effect.jwk_destroy])

/-- The exit `failed:` of the callback: tear the session down and return -1; `eff` is
what the callback had already asked of its collaborators. -/
def failed (vhd : per_vhost_data__lws_acme_client) (eff : List Effect) : Result :=
  { vhd := (lws_acme_finished vhd).1, ret := -1, eff := eff ++ (lws_acme_finished vhd).2 }

/-- A normal return of the callback. -/
def done (vhd : per_vhost_data__lws_acme_client) (ret : Int) (eff : List Effect) : Result :=
  { vhd := vhd, ret := ret, eff := eff }

/-- The request `lws_acme_client_connect(..., url, method)`. -/
def lws_acme_client_connect (url : List Char) (method : String) : Effect :=
  Effect.client_connect url method.toList

/-! ## Completion of an exchange -/

/-- What the collaborators answer during one `LWS_CALLBACK_COMPLETED_CLIENT_HTTP`:
whether the connect call gives a connection, the return codes of the three hashing
calls, the handle of the created temporary vhost, whether `malloc` succeeds, the
outcome of each `write` in call order (see `sys_write`; a missing entry is a complete
write) and the return code of `lws_tls_cert_updated`. -/
structure Completion where
  cwsi : Bool
  genhash_init : Int
  genhash_update : Int
  genhash_destroy : Int
  create_vhost : Option Nat
  malloc_ok : Bool
  wr : List (Option Int)
  cert_updated : Int
  deriving DecidableEq

/-- The code at the label `poll_again:`. -/
def poll_again (vhd : per_vhost_data__lws_acme_client) (ac : acme_connection)
    (o : Completion) : Result :=
  let ac1 := { ac with state := ACME_STATE_POLLING, goes_around := ac.goes_around + 1 }
  if ac.goes_around = 10 then failed { vhd with ac := some ac1 } []
  else if o.cwsi then
    done { vhd with ac := some ac1 } 0 [lws_acme_client_connect ac.challenge_uri "GET"]
  else failed { vhd with ac := some ac1 } [lws_acme_client_connect ac.challenge_uri "GET"]

/-- State of the loop that writes the base64 text in lines: the file, the number of
`write` calls made so far, and whether every write was complete. -/
structure pem_loop_result where
  f : File
  idx : Nat
  ok : Bool
  deriving DecidableEq

/-- The loop `while (n) ...` over the base64 text `p`, at most `fuel` rounds; `none`
when the rounds run out before the text does. -/
def pem_loop (wr : List (Option Int)) : Nat → File → Nat → List Char → Option pem_loop_result
  | 0, f, i, p => if p.length = 0 then some ⟨f, i, true⟩ else none
  | fuel + 1, f, i, p =>
    if p.length = 0 then some ⟨f, i, true⟩
    else
      let m := if p.length < 65 then p.length else 65
      let w := sys_write f p m (wr.getD i none)
      if w.2 ≠ m then some ⟨w.1, i + 1, false⟩
      else if (p.drop m).length ≠ 0 then
        let w2 := sys_write w.1 [Char.ofNat 10] 1 (wr.getD (i + 1) none)
        if w2.2 ≠ 1 then some ⟨w2.1, i + 2, false⟩
        else pem_loop wr fuel w2.1 (i + 2) (p.drop m)
      else pem_loop wr fuel w.1 (i + 1) (p.drop m)

/-- First line of the certificate file. -/
def pem_begin : List Char := "-----BEGIN CERTIFICATE-----\n".toList

/-- Last line of the certificate file, with the line break that ends the base64 text. -/
def pem_end : List Char := "\n-----END CERTIFICATE-----\n".toList

/-- The branch `ac->resp == 200` of the state `ACME_STATE_POLLING_CSR`: write the
certificate and the key, tell the host, end the session. -/
def install_cert (vhd : per_vhost_data__lws_acme_client) (ac : acme_connection)
    (o : Completion) : Option Result :=
  let n := ac.cpos * 4 / 3 + 16
  let w0 := sys_write vhd.fd_updated_cert pem_begin 28 (o.wr.getD 0 none)
  if w0.2 ≠ 28 then some (failed { vhd with fd_updated_cert := w0.1 } [])
  else if o.malloc_ok = false then some (failed { vhd with fd_updated_cert := w0.1 } [])
  else
    match lws_b64_encode_string (ac.buf.take ac.cpos) n with
    | none => some (failed { vhd with fd_updated_cert := w0.1 } [])
    | some p =>
      match pem_loop o.wr p.length w0.1 1 p with
      | none => none
      | some l =>
        if l.ok = false then some (failed { vhd with fd_updated_cert := l.f } [])
        else
          let w2 := sys_write l.f pem_end 27 (o.wr.getD l.idx none)
          if w2.2 ≠ 27 then some (failed { vhd with fd_updated_cert := w2.1 } [])
          else
            let w3 := sys_write vhd.fd_updated_key (ac.alloc_privkey_pem.getD [])
              ac.len_privkey_pem (o.wr.getD (l.idx + 1) none)
            if w3.2 ≠ (ac.len_privkey_pem : Int) then
              some (failed { vhd with fd_updated_cert := lseek0 w2.1, fd_updated_key := w3.1 }
                [Effect.fsync_updated_cert])
            else
              let vhd3 := { vhd with fd_updated_cert := lseek0 (lseek0 w2.1), fd_updated_key := w3.1 }
              some (done (lws_acme_finished vhd3).1 0
                (Effect.fsync_updated_cert :: Effect.fsync_updated_key ::
                  Effect.tls_cert_updated (ac.buf.take ac.cpos) (ac.alloc_privkey_pem.getD []) ::
                  (lws_acme_finished vhd3).2))

/-- The two names of the challenge certificate, computed in the state
`ACME_STATE_NEW_AUTH` from the key authorization `ka` (the token, a dot and the URL-safe
base64 of the account-key fingerprint). -/
def challenge_sans (X : Ext) (vhd : per_vhost_data__lws_acme_client) (ac : acme_connection)
    (ka : List Char) : acme_connection :=
  let digest := X.sha256 ka
  if ac.is_sni_02 then
    let digest2 := X.lws_jwk_rfc7638_fingerprint vhd.jwk
    { ac with
      san_a := lws_snprintf 100
        (hex16 digest 0 ++ ['.'] ++ hex16 digest 16 ++ ".token.acme.invalid".toList),
      san_b := lws_snprintf 100
        (hex16 digest2 0 ++ ['.'] ++ hex16 digest2 16 ++ ".ka.acme.invalid".toList) }
  else
    { ac with
      san_a := lws_snprintf 100
        (hex16 digest 0 ++ ['.'] ++ hex16 digest 16 ++ ".acme.invalid".toList),
      san_b := [] }

/-- The state `ACME_STATE_NEW_AUTH` of the completion: build the two names of the
challenge certificate, create the temporary vhost, accept the challenge. -/
def completed_new_auth (X : Ext) (vhd : per_vhost_data__lws_acme_client)
    (ac : acme_connection) (o : Completion) : Option Result :=
  if ac.jctx = none then none
  else
    match X.lws_jws_base64_enc (X.lws_jwk_rfc7638_fingerprint vhd.jwk) with
    | none => some (failed vhd [])
    | some b =>
      if o.genhash_init ≠ 0 then some (done vhd (-1) [])
      else if o.genhash_update ≠ 0 then some (done vhd (-1) [])
      else if o.genhash_destroy ≠ 0 then some (done vhd (-1) [])
      else
        let ac1 := challenge_sans X vhd ac (lws_snprintf 2535 (ac.chall_token ++ ['.']) ++ b)
        let eff := [Effect.create_vhost ac1.san_a ac1.real_vh_iface ac1.real_vh_port]
        match o.create_vhost with
        | none => some (failed { vhd with ac := some { ac1 with vhost := none } } eff)
        | some vh =>
          let ac2 := { ac1 with vhost := some vh, state := ACME_STATE_ACCEPT_CHALL, goes_around := 0 }
          let eff2 := eff ++ [lws_acme_client_connect ac2.challenge_uri "POST"]
          if o.cwsi then some (done { vhd with ac := some ac2 } 0 eff2)
          else some (failed { vhd with ac := some ac2 } eff2)

/-- The case `LWS_CALLBACK_COMPLETED_CLIENT_HTTP` for a live session `ac`. -/
def completed_client_http (X : Ext) (vhd : per_vhost_data__lws_acme_client)
    (ac : acme_connection) (o : Completion) : Option Result :=
  match ac.state with
  | ACME_STATE_DIRECTORY =>
    if ac.jctx = none then none
    else
      some (done { vhd with ac := some { ac with state := ACME_STATE_NEW_REG } } 0
        [lws_acme_client_connect (ac.urls.getD JAD_NEW_REG_URL []) "POST"])
  | ACME_STATE_NEW_REG =>
    if (200 ≤ ac.resp ∧ ac.resp < 299) ∨ ac.resp = 409 then
      some (done { vhd with ac := some { ac with state := ACME_STATE_NEW_AUTH } } 0
        [lws_acme_client_connect (ac.urls.getD JAD_NEW_AUTHZ_URL []) "POST"])
    else some (failed vhd [])
  | ACME_STATE_NEW_AUTH => completed_new_auth X vhd ac o
  | ACME_STATE_ACCEPT_CHALL => some (poll_again vhd ac o)
  | ACME_STATE_POLLING =>
    if ac.resp = 202 ∧ ac.status ≠ "invalid".toList ∧ ac.status ≠ "valid".toList then
      some (poll_again vhd ac o)
    else if ac.status = "invalid".toList then some (failed vhd [])
    else
      let eff := (match ac.vhost with
        | some vh => [Effect.vhost_destroy vh]
        | none => []) ++ [lws_acme_client_connect (ac.urls.getD JAD_NEW_CERT_URL []) "POST"]
      let ac1 := { ac with vhost := none, state := ACME_STATE_POLLING_CSR, goes_around := 0 }
      if o.cwsi then some (done { vhd with ac := some ac1 } 0 eff)
      else some (failed { vhd with ac := some ac1 } eff)
  | ACME_STATE_POLLING_CSR =>
    if ac.resp < 200 ∨ ac.resp > 202 then some (failed vhd [])
    else if ac.resp = 200 then install_cert vhd ac o
    else
      let ac1 := { ac with goes_around := ac.goes_around + 1 }
      if ac.goes_around = 10 then some (failed { vhd with ac := some ac1 } [])
      else if o.cwsi then
        some (done { vhd with ac := some ac1 } 0 [lws_acme_client_connect ac.challenge_uri "GET"])
      else some (failed { vhd with ac := some ac1 } [lws_acme_client_connect ac.challenge_uri "GET"])
  | ACME_STATE_FINISHED => some (done vhd 0 [])

/-! ## The other callback reasons -/

/-- The session right after `malloc` and `memset(ac, 0, sizeof(*ac))`. -/
def ac_zero : acme_connection :=
  { buf := List.replicate 4096 0, replay_nonce := [], chall_token := [], challenge_uri := [],
    status := [], san_a := [], san_b := [], urls := List.replicate 6 [],
    state := ACME_STATE_DIRECTORY, jctx := none, vhost := none, real_vh_name := [],
    real_vh_iface := [], alloc_privkey_pem := none, pos := 0, len := 0, resp := 0, cpos := 0,
    real_vh_port := 0, goes_around := 0, len_privkey_pem := 0, yes := 0, use := false,
    is_sni_02 := false }

/-- The case `LWS_CALLBACK_VHOST_CERT_AGING`: `len` is the number of days left, `in_vhost`
the vhost the signal is about, with its name, interface and port; `cwsi` tells whether
the connect call gives a connection. -/
def vhost_cert_aging (vhd : per_vhost_data__lws_acme_client) (len : Int) (in_vhost : Nat)
    (name iface : List Char) (port : Int) (cwsi : Bool) : Result :=
  if len > 14 then done vhd 0 []
  else if vhd.vhost ≠ in_vhost then done vhd 0 []
  else if vhd.pvop.getD 0 none = none then done vhd 0 []
  else
    let ac := ac_zero
    let ac1 :=
      if ac.urls.getD 0 [] = [] then { ac with state := ACME_STATE_DIRECTORY }
      else { ac with state := ACME_STATE_NEW_REG }
    let url :=
      if ac.urls.getD 0 [] = [] then (vhd.pvop.getD 6 none).getD [] else ac.urls.getD JAD_NEW_REG_URL []
    let ac2 := { ac1 with real_vh_port := port, real_vh_name := name, real_vh_iface := iface }
    if cwsi then done { vhd with ac := some ac2 } 0 [lws_acme_client_connect url "GET"]
    else done { vhd with ac := none } 0 [lws_acme_client_connect url "GET"]

/-- Modelled from the spec: the library's `lejp_construct(&ac->jctx, cb, user, ...)`:
remember the callback and tell it that the context was constructed. -/
def lejp_construct (u : lejp_user) (vhd : per_vhost_data__lws_acme_client)
    (ac : acme_connection) : Option (per_vhost_data__lws_acme_client × Int) :=
  lejp_callback u { vhd with ac := some { ac with jctx := some u } }
    { reason := LEJPCB_CONSTRUCTED, ctx := { path_match := 0, buf := [] } }

/-- The `switch (ac->state)` of the case `LWS_CALLBACK_ESTABLISHED_CLIENT_HTTP`, on the
session `ac` with status and nonce already stored. -/
def established_switch (vhd : per_vhost_data__lws_acme_client) (ac : acme_connection)
    (location : Option (List Char)) : Option Result :=
  match ac.state with
  | ACME_STATE_DIRECTORY => (lejp_construct lejp_user.dir vhd ac).map fun r => done r.1 0 []
  | ACME_STATE_NEW_REG => some (done { vhd with ac := some ac } 0 [])
  | ACME_STATE_NEW_AUTH => (lejp_construct lejp_user.authz vhd ac).map fun r => done r.1 0 []
  | ACME_STATE_POLLING => (lejp_construct lejp_user.chac vhd ac).map fun r => done r.1 0 []
  | ACME_STATE_ACCEPT_CHALL => (lejp_construct lejp_user.chac vhd ac).map fun r => done r.1 0 []
  | ACME_STATE_POLLING_CSR =>
    if ac.resp ≠ 201 then some (done { vhd with ac := some { ac with cpos := 0 } } 0 [])
    else if (lws_hdr_copy ac.challenge_uri 256 location).1 < 0 then
      some (failed { vhd with ac := some { ac with cpos := 0 } } [])
    else
      let ac1 := { ac with cpos := 0, challenge_uri := (lws_hdr_copy ac.challenge_uri 256 location).2 }
      some (done { vhd with ac := some ac1 } 0 [])
  | ACME_STATE_FINISHED => some (done { vhd with ac := some ac } 0 [])

/-- The case `LWS_CALLBACK_ESTABLISHED_CLIENT_HTTP` for a live session: `resp` is the
HTTP status, `replay_nonce` and `location` the two response headers when present. -/
def established_client_http (vhd : per_vhost_data__lws_acme_client) (ac : acme_connection)
    (resp : Int) (replay_nonce location : Option (List Char)) : Option Result :=
  if lws_hdr_total_length replay_nonce ≠ 0 ∧
      (lws_hdr_copy ac.replay_nonce 64 replay_nonce).1 < 0 then
    some (done { vhd with ac := some { ac with resp := resp } } (-1) [])
  else if lws_hdr_total_length replay_nonce ≠ 0 then
    established_switch vhd
      { ac with resp := resp, replay_nonce := (lws_hdr_copy ac.replay_nonce 64 replay_nonce).2 }
      location
  else established_switch vhd { ac with resp := resp } location

/-- What the collaborators answer during one
`LWS_CALLBACK_CLIENT_APPEND_HANDSHAKE_HEADER`: the return codes of the two header
additions and the outcome of the certificate-request builder (`none` for a negative
return, else the encoded request and the private key in PEM form). -/
structure Handshake where
  add_content_type : Int
  add_content_length : Int
  csr : Option (List Char × List Char)
  deriving DecidableEq

/-- The code at the label `pkt_add_hdrs:`: sign `payload`, announce type and length of
the body, ask for the write callback. -/
def pkt_add_hdrs (X : Ext) (vhd : per_vhost_data__lws_acme_client) (ac : acme_connection)
    (payload : List Char) (o : Handshake) : Result :=
  let e1 := [Effect.jws_create_packet payload ac.replay_nonce]
  match X.lws_jws_create_packet vhd.jwk payload ac.replay_nonce (4096 - X.LWS_PRE) with
  | none => failed { vhd with ac := some { ac with len := 0 } } e1
  | some pkt0 =>
    let pkt := pkt0.take (4096 - X.LWS_PRE)
    let ac1 := { ac with len := pkt.length, buf := memcpy_at ac.buf X.LWS_PRE pkt, pos := 0 }
    let content_type :=
      if ac1.state = ACME_STATE_POLLING_CSR then "application/pkix-cert" else "application/jose+json"
    let e2 := e1 ++ [Effect.add_http_header "content-type:".toList (content_type.toList.take 21)]
    if o.add_content_type ≠ 0 then failed { vhd with ac := some ac1 } e2
    else
      let e3 := e2 ++ [Effect.add_http_header "content-length:".toList (toString ac1.len).toList]
      if o.add_content_length ≠ 0 then failed { vhd with ac := some ac1 } e3
      else
        done { vhd with ac := some ac1 } 0
          (e3 ++ [Effect.http_body_pending true, Effect.callback_on_writable])

/-- The case `LWS_CALLBACK_CLIENT_APPEND_HANDSHAKE_HEADER` for a live session. -/
def client_append_handshake_header (X : Ext) (vhd : per_vhost_data__lws_acme_client)
    (ac : acme_connection) (o : Handshake) : Result :=
  match ac.state with
  | ACME_STATE_DIRECTORY => done vhd 0 []
  | ACME_STATE_NEW_REG =>
    pkt_add_hdrs X vhd ac
      (lws_snprintf 2535
        ("\x7b\"resource\":\"new-reg\",\"contact\":[\"mailto:".toList ++
          (vhd.pvop.getD 5 none).getD [] ++ "\"],\"agreement\":\"".toList ++
          ac.urls.getD JAD_TOS_URL [] ++ "\"\x7d".toList)) o
  | ACME_STATE_NEW_AUTH =>
    pkt_add_hdrs X vhd ac
      (lws_snprintf 2535
        ("\x7b\"resource\":\"new-authz\",\"identifier\":\x7b\"type\":\"http-01\",\"value\":\"".toList ++
          ac.real_vh_name ++ "\"\x7d\x7d".toList)) o
  | ACME_STATE_ACCEPT_CHALL =>
    let p1 := lws_snprintf 2535
      ("\x7b\"resource\":\"challenge\",\"type\":\"tls-sni-0".toList ++
        (if ac.is_sni_02 then ['2'] else ['1']) ++ "\",\"keyAuthorization\":\"".toList ++
        ac.chall_token ++ ['.'])
    match X.lws_jws_base64_enc (X.lws_jwk_rfc7638_fingerprint vhd.jwk) with
    | none => failed vhd []
    | some b =>
      let p2 := p1 ++ b
      pkt_add_hdrs X vhd ac (p2 ++ lws_snprintf (2535 - p2.length) "\"\x7d".toList) o
  | ACME_STATE_POLLING => done vhd 0 []
  | ACME_STATE_POLLING_CSR =>
    if ac.goes_around ≠ 0 then done vhd 0 []
    else
      let p1 := lws_snprintf 2535 "\x7b\"resource\":\"new-cert\",\"csr\":\"".toList
      match o.csr with
      | none => failed vhd []
      | some (csr, pem) =>
        let ac1 := { ac with alloc_privkey_pem := some pem, len_privkey_pem := pem.length }
        let p2 := p1 ++ csr
        pkt_add_hdrs X { vhd with ac := some ac1 } ac1
          (p2 ++ lws_snprintf (2535 - p2.length) "\"\x7d".toList) o
  | ACME_STATE_FINISHED => done vhd 0 []

/-- The case `LWS_CALLBACK_CLIENT_HTTP_WRITEABLE` for a live session; `wrote` is what
`lws_write` returns. -/
def client_http_writeable (X : Ext) (vhd : per_vhost_data__lws_acme_client)
    (ac : acme_connection) (wrote : Int) : Result :=
  if ac.pos = ac.len then done vhd 0 []
  else
    let ac1 := { ac with buf := ac.buf.set (X.LWS_PRE + ac.len.toNat) 0 }
    let e := [Effect.lws_write ((ac1.buf.drop X.LWS_PRE).take ac.len.toNat)]
    if wrote < 0 then done { vhd with ac := some ac1 } (-1) e
    else
      done { vhd with ac := some { ac1 with pos := ac1.len } } 0
        (e ++ [Effect.http_body_pending false])

/-- The case `LWS_CALLBACK_RECEIVE_CLIENT_HTTP_READ` for a live session: `inp` is the
piece of body, `cbs` and `pret` what the JSON parser makes of it (see `lejp_parse`). -/
def receive_client_http_read (vhd : per_vhost_data__lws_acme_client) (ac : acme_connection)
    (inp : List Nat) (cbs : List lejp_event) (pret : Int) : Option Result :=
  match ac.state with
  | ACME_STATE_NEW_REG => some (done vhd 0 [])
  | ACME_STATE_POLLING_CSR =>
    if ac.cpos + inp.length > 4096 then some (failed vhd [])
    else
      let ac1 := { ac with buf := memcpy_at ac.buf ac.cpos inp, cpos := ac.cpos + inp.length }
      some (done { vhd with ac := some ac1 } 0 [])
  | ACME_STATE_FINISHED => some (done vhd 0 [])
  | _ =>
    match ac.jctx with
    | none => none
    | some u =>
      match lejp_parse u vhd cbs pret with
      | none => none
      | some (vhd1, m) =>
        if signed_char m < 0 ∧ signed_char m ≠ LEJP_CONTINUE then some (failed vhd1 [])
        else some (done vhd1 0 [])

/-- The events the library delivers to the callback, each with what the collaborators
answer while it is handled. -/
inductive Event where
  | LWS_CALLBACK_PROTOCOL_DESTROY
  | LWS_CALLBACK_VHOST_CERT_AGING (len : Int) (in_vhost : Nat) (name iface : List Char)
      (port : Int) (cwsi : Bool)
  | LWS_CALLBACK_CLIENT_ESTABLISHED
  | LWS_CALLBACK_CLIENT_CONNECTION_ERROR
  | LWS_CALLBACK_CLOSED_CLIENT_HTTP
  | LWS_CALLBACK_ESTABLISHED_CLIENT_HTTP (resp : Int) (replay_nonce location : Option (List Char))
  | LWS_CALLBACK_CLIENT_APPEND_HANDSHAKE_HEADER (o : Handshake)
  | LWS_CALLBACK_CLIENT_HTTP_WRITEABLE (wrote : Int)
  | LWS_CALLBACK_RECEIVE_CLIENT_HTTP_READ (inp : List Nat) (cbs : List lejp_event) (pret : Int)
  | LWS_CALLBACK_RECEIVE_CLIENT_HTTP (rd : Int)
  | LWS_CALLBACK_COMPLETED_CLIENT_HTTP (o : Completion)
  | LWS_CALLBACK_OPENSSL_LOAD_EXTRA_SERVER_VERIFY_CERTS (r : Int)
  | OTHER
  deriving DecidableEq

open Event

/-- The plugin callback `callback_acme_client` on the per-site data `vhd`. -/
def callback_acme_client (X : Ext) (vhd : per_vhost_data__lws_acme_client) :
    Event → Option Result
  | LWS_CALLBACK_PROTOCOL_DESTROY =>
    some (done (lws_acme_finished vhd).1 0 (lws_acme_finished vhd).2)
  | LWS_CALLBACK_VHOST_CERT_AGING len in_vhost name iface port cwsi =>
    some (vhost_cert_aging vhd len in_vhost name iface port cwsi)
  | LWS_CALLBACK_CLIENT_ESTABLISHED => some (done vhd 0 [])
  | LWS_CALLBACK_CLIENT_CONNECTION_ERROR => some (done vhd 0 [])
  | LWS_CALLBACK_CLOSED_CLIENT_HTTP => some (done vhd 0 [])
  | LWS_CALLBACK_ESTABLISHED_CLIENT_HTTP resp replay_nonce location =>
    match vhd.ac with
    | none => none
    | some ac => established_client_http vhd ac resp replay_nonce location
  | LWS_CALLBACK_CLIENT_APPEND_HANDSHAKE_HEADER o =>
    match vhd.ac with
    | none => none
    | some ac => some (client_append_handshake_header X vhd ac o)
  | LWS_CALLBACK_CLIENT_HTTP_WRITEABLE wrote =>
    match vhd.ac with
    | none => none
    | some ac => some (client_http_writeable X vhd ac wrote)
  | LWS_CALLBACK_RECEIVE_CLIENT_HTTP_READ inp cbs pret =>
    match vhd.ac with
    | none => none
    | some ac => receive_client_http_read vhd ac inp cbs pret
  | LWS_CALLBACK_RECEIVE_CLIENT_HTTP rd =>
    if rd < 0 then some (done vhd (-1) []) else some (done vhd 0 [])
  | LWS_CALLBACK_COMPLETED_CLIENT_HTTP o =>
    match vhd.ac with
    | none => none
    | some ac => completed_client_http X vhd ac o
  | LWS_CALLBACK_OPENSSL_LOAD_EXTRA_SERVER_VERIFY_CERTS r =>
    match vhd.ac with
    | none => none
    | some ac =>
      if r ≠ 0 then some (done vhd (-1) [Effect.acme_sni_cert_create ac.san_a ac.san_b])
      else some (done vhd 0 [Effect.acme_sni_cert_create ac.san_a ac.san_b])
  | OTHER => some (done vhd 0 [])

/-- Run the callback over a list of events, from `vhd`; gives the per-site data at the
end, `none` if some call is undefined. -/
def run (X : Ext) :
    per_vhost_data__lws_acme_client → List Event → Option per_vhost_data__lws_acme_client
  | vhd, [] => some vhd
  | vhd, e :: es =>
    match callback_acme_client X vhd e with
    | none => none
    | some r => run X r.vhd es

/-! ## Sample inputs -/

/-- A set of collaborators, for evaluating the callback on concrete inputs. -/
def ext_sample : Ext where
  LWS_PRE := 16
  lws_jwk_rfc7638_fingerprint := fun _ => List.replicate 32 7
  lws_jws_base64_enc := fun _ => some "B1ZXZ_base64url_of_the_fingerprint".toList
  sha256 := fun _ => List.range 32
  lws_jws_create_packet := fun _ p _ _ => some (p.map Char.toNat)

/-- Per-site data after start-up: no session, both update files empty. -/
def vhd_sample : per_vhost_data__lws_acme_client :=
  { vhost := 1, ac := none, jwk := some [1, 2, 3],
    pvop := List.replicate 10 (some "example.com".toList), dest := none, pos := 0, len := 0,
    fd_updated_cert := { data := [], off := 0 }, fd_updated_key := { data := [], off := 0 } }

/-- Collaborators that answer every call of a completion with success. -/
def completion_ok : Completion :=
  { cwsi := true, genhash_init := 0, genhash_update := 0, genhash_destroy := 0,
    create_vhost := some 7, malloc_ok := true, wr := [], cert_updated := 0 }

/-- A session with a known directory and a temporary vhost, in the given state. -/
def ac_sample (st : lws_acme_state) : acme_connection :=
  { ac_zero with
    state := st, vhost := some 7, jctx := some lejp_user.chac,
    urls := ["https://ca/key-change".toList, "https://ca/terms".toList,
      "https://ca/new-authz".toList, "https://ca/new-cert".toList, "https://ca/new-reg".toList,
      "https://ca/revoke-cert".toList],
    challenge_uri := "https://ca/challenge/1".toList }

/-- Per-site data with a session polling the challenge whose last response had HTTP
status 200 and challenge status "pending". -/
def vhd_polling_200_pending : per_vhost_data__lws_acme_client :=
  { vhd_sample with
    ac := some { ac_sample ACME_STATE_POLLING with
      resp := 200, status := "pending".toList, goes_around := 1 } }

/-- Per-site data with a session whose registration was answered with the given HTTP
status. -/
def vhd_new_reg (resp : Int) : per_vhost_data__lws_acme_client :=
  { vhd_sample with
    ac := some { ac_sample ACME_STATE_NEW_REG with vhost := none, resp := resp } }

/-- The body of a challenge resource as the parser reports it: type, status, uri and
token, each as one string value. -/
def challenge_body (status : String) : Event :=
  LWS_CALLBACK_RECEIVE_CLIENT_HTTP_READ
    (("\x7b\"type\":\"tls-sni-01\",\"status\":\"" ++ status ++
      "\",\"uri\":\"https://ca/challenge/1\",\"token\":\"tok\"\x7d").toList.map Char.toNat)
    [{ reason := LEJPCB_VAL_STR_START, ctx := { path_match := 1, buf := [] } },
     { reason := LEJPCB_VAL_STR_END, ctx := { path_match := 1, buf := "tls-sni-01".toList } },
     { reason := LEJPCB_VAL_STR_START, ctx := { path_match := 2, buf := [] } },
     { reason := LEJPCB_VAL_STR_END, ctx := { path_match := 2, buf := status.toList } },
     { reason := LEJPCB_VAL_STR_START, ctx := { path_match := 3, buf := [] } },
     { reason := LEJPCB_VAL_STR_END, ctx := { path_match := 3, buf := "https://ca/challenge/1".toList } },
     { reason := LEJPCB_VAL_STR_START, ctx := { path_match := 4, buf := [] } },
     { reason := LEJPCB_VAL_STR_END, ctx := { path_match := 4, buf := "tok".toList } }]
    0

/-- One challenge poll answered with HTTP status 202 and challenge status "pending",
after which a connection for the next request is available. -/
def pending_response : List Event :=
  [LWS_CALLBACK_ESTABLISHED_CLIENT_HTTP 202 (some "nonce".toList) none,
   challenge_body "pending",
   LWS_CALLBACK_COMPLETED_CLIENT_HTTP completion_ok]

/-- The events of `k` pending responses in a row. -/
def pending_responses : Nat → List Event
  | 0 => []
  | k + 1 => pending_response ++ pending_responses k

/-- Headers and body of a challenge poll answered with HTTP status `resp` and challenge
status "valid", up to the moment the response is evaluated. -/
def valid_response (resp : Int) : List Event :=
  [LWS_CALLBACK_ESTABLISHED_CLIENT_HTTP resp (some "nonce".toList) none,
   challenge_body "valid"]

/-- Per-site data with a session whose challenge acceptance was just sent, retry
counter 0. -/
def vhd_accept_chall : per_vhost_data__lws_acme_client :=
  { vhd_sample with ac := some (ac_sample ACME_STATE_ACCEPT_CHALL) }

/-! ## Polling phases and reachable states -/

/-- Polling phase of a state: 1 while the challenge is accepted and polled, 2 while the
certificate is requested and polled, 0 before that. -/
def polling_phase : lws_acme_state → Nat
  | ACME_STATE_ACCEPT_CHALL => 1
  | ACME_STATE_POLLING => 1
  | ACME_STATE_POLLING_CSR => 2
  | _ => 0

/-- Whether an effect is a request to connect with method GET. -/
def is_get : Effect → Bool
  | Effect.client_connect _ m => decide (m = "GET".toList)
  | _ => false

/-- Number of GET exchanges requested in a list of effects. -/
def count_gets (eff : List Effect) : Nat := eff.countP is_get

/-- Whether an event is a certificate-aging signal that passes the three tests of the
callback and so replaces the session by a new one. -/
def starts_session (vhd : per_vhost_data__lws_acme_client) : Event → Bool
  | LWS_CALLBACK_VHOST_CERT_AGING len in_vhost _ _ _ _ =>
    decide (¬ len > 14) && decide (vhd.vhost = in_vhost) && decide (vhd.pvop.getD 0 none ≠ none)
  | _ => false

/-- Number of GET exchanges the session of `vhd` requests while the events `evs` are
handled, up to the point where its polling phase is left: the session ends, moves to
another phase, or is replaced by a new session. -/
def phase_gets (X : Ext) : per_vhost_data__lws_acme_client → List Event → Nat
  | _, [] => 0
  | vhd, e :: es =>
    match vhd.ac with
    | none => 0
    | some ac =>
      if polling_phase ac.state = 0 then 0
      else if starts_session vhd e then 0
      else
        match callback_acme_client X vhd e with
        | none => 0
        | some r =>
          count_gets r.eff +
            (match r.vhd.ac with
             | none => 0
             | some ac1 =>
               if polling_phase ac1.state = polling_phase ac.state then phase_gets X r.vhd es
               else 0)

/-- The per-site data the callback can be in: it starts without a session and changes
by calls of the callback. -/
inductive Reachable (X : Ext) : per_vhost_data__lws_acme_client → Prop
  | start (vhd : per_vhost_data__lws_acme_client) : vhd.ac = none → Reachable X vhd
  | step (vhd : per_vhost_data__lws_acme_client) (e : Event) (r : Result) :
      Reachable X vhd → callback_acme_client X vhd e = some r → Reachable X r.vhd

/-- How one call may move a session: `keeps` leaves state and retry counter alone and
requests no GET. -/
def keeps (ac : acme_connection) (r : Result) : Prop :=
  count_gets r.eff = 0 ∧
    ∀ ac1, r.vhd.ac = some ac1 → ac1.state = ac.state ∧ ac1.goes_around = ac.goes_around

/-- How one call may move a session: it ends it, leaves phase and retry counter alone,
requests one GET and counts it (only below the ceiling), or enters another phase with the
counter at 0. -/
def advances (ac : acme_connection) (r : Result) : Prop :=
  (r.vhd.ac = none ∧
      (count_gets r.eff = 0 ∨ (ac.goes_around ≠ 10 ∧ count_gets r.eff = 1))) ∨
    ∃ ac1, r.vhd.ac = some ac1 ∧
      ((polling_phase ac1.state = polling_phase ac.state ∧
          ac1.goes_around = ac.goes_around ∧ count_gets r.eff = 0) ∨
        (polling_phase ac1.state = polling_phase ac.state ∧ ac.goes_around ≠ 10 ∧
          ac1.goes_around = ac.goes_around + 1 ∧ count_gets r.eff = 1) ∨
        (polling_phase ac1.state ≠ polling_phase ac.state ∧ ac1.goes_around = 0 ∧
          count_gets r.eff = 0))

/-- One string field of the directory as the parser reports it: the start of the string
and its value, for the path with 1-based index `k`. -/
def dir_field (k : Nat) (url : String) : List lejp_event :=
  [{ reason := LEJPCB_VAL_STR_START, ctx := { path_match := k, buf := [] } },
   { reason := LEJPCB_VAL_STR_END, ctx := { path_match := k, buf := url.toList } }]

/-- An aging signal for the site of `vhd_sample` with ten days left, then the
directory, the registration, the authorization with a tls-sni-01 challenge and the
acceptance of the challenge, each answered as the protocol expects. -/
def events_to_polling : List Event :=
  [LWS_CALLBACK_VHOST_CERT_AGING 10 1 "example.com".toList "eth0".toList 443 true,
   LWS_CALLBACK_ESTABLISHED_CLIENT_HTTP 200 (some "nonce0".toList) none,
   LWS_CALLBACK_RECEIVE_CLIENT_HTTP_READ []
     (dir_field 1 "https://ca/key-change" ++ dir_field 2 "https://ca/terms" ++
      dir_field 3 "https://ca/new-authz" ++ dir_field 4 "https://ca/new-cert" ++
      dir_field 5 "https://ca/new-reg" ++ dir_field 6 "https://ca/revoke-cert") 0,
   LWS_CALLBACK_COMPLETED_CLIENT_HTTP completion_ok,
   LWS_CALLBACK_ESTABLISHED_CLIENT_HTTP 201 (some "nonce1".toList) none,
   LWS_CALLBACK_COMPLETED_CLIENT_HTTP completion_ok,
   LWS_CALLBACK_ESTABLISHED_CLIENT_HTTP 201 (some "nonce2".toList) none,
   LWS_CALLBACK_RECEIVE_CLIENT_HTTP_READ []
     [{ reason := LEJPCB_VAL_STR_END, ctx := { path_match := 5, buf := "tls-sni-01".toList } },
      { reason := LEJPCB_VAL_STR_END, ctx := { path_match := 6, buf := "pending".toList } },
      { reason := LEJPCB_VAL_STR_END, ctx := { path_match := 7, buf := "https://ca/challenge/1".toList } },
      { reason := LEJPCB_VAL_STR_END, ctx := { path_match := 8, buf := "tok".toList } }] 0,
   LWS_CALLBACK_COMPLETED_CLIENT_HTTP completion_ok,
   LWS_CALLBACK_ESTABLISHED_CLIENT_HTTP 202 (some "nonce3".toList) none,
   challenge_body "pending",
   LWS_CALLBACK_COMPLETED_CLIENT_HTTP completion_ok]

/-- The per-site data of the sample site after `events_to_polling`. -/
def vhd_reached : per_vhost_data__lws_acme_client :=
  (run ext_sample vhd_sample events_to_polling).getD vhd_sample

/-- The session of the sample site after `events_to_polling`. -/
def ac_reached : acme_connection := vhd_reached.ac.getD ac_zero

/-! ## What the certificate file is expected to hold -/

/-- The file after the bytes `bs` were written completely at its offset. -/
def file_put (f : File) (bs : List Char) : File :=
  { data := f.data.take f.off ++ bs ++ f.data.drop (f.off + bs.length),
    off := f.off + bs.length }

/-- The line break. -/
def nl : Char := Char.ofNat 10

/-- The lines the loop of `install_cert` cuts the base64 text `p` into (`fuel` bounds the
number of lines). -/
def pem_lines : Nat → List Char → List (List Char)
  | 0, _ => []
  | fuel + 1, p => if p.length = 0 then [] else p.take 65 :: pem_lines fuel (p.drop 65)

/-- The base64 text in lines: the lines of `pem_lines` separated by single line breaks. -/
def pem_body (p : List Char) : List Char := [nl].intercalate (pem_lines p.length p)

/-- Value of a base64 character, `none` for a character outside the alphabet. -/
def b64_value (c : Char) : Option Nat :=
  if b64_alphabet.indexOf c < 64 then some (b64_alphabet.indexOf c) else none

/-- Standard base64 decoding of a text without line breaks, `none` when the text is not
well formed. -/
def b64_decode : List Char → Option (List Nat)
  | [] => some []
  | c0 :: c1 :: c2 :: c3 :: rest =>
    if rest = [] ∧ c3 = '=' then
      if c2 = '=' then
        match b64_value c0, b64_value c1 with
        | some a, some b => some [a * 4 + b / 16]
        | _, _ => none
      else
        match b64_value c0, b64_value c1, b64_value c2 with
        | some a, some b, some c => some [a * 4 + b / 16, b % 16 * 16 + c / 4]
        | _, _, _ => none
    else
      match b64_value c0, b64_value c1, b64_value c2, b64_value c3, b64_decode rest with
      | some a, some b, some c, some d, some r =>
        some ((a * 4 + b / 16) :: (b % 16 * 16 + c / 4) :: (c % 4 * 64 + d) :: r)
      | _, _, _, _, _ => none
  | _ => none

/-- The body of a response delivered in the pieces `chunks`, one read event each. -/
def body_chunks (chunks : List (List Nat)) : List Event :=
  chunks.map fun c => LWS_CALLBACK_RECEIVE_CLIENT_HTTP_READ c [] 0

/-- A certificate body delivered in two pieces. -/
def chunks_sample : List (List Nat) := [[48, 130], [1]]

/-- A session that has posted its certificate request and holds the private key of the
certificate. -/
def ac_csr : acme_connection :=
  { ac_sample ACME_STATE_POLLING_CSR with
    vhost := none, alloc_privkey_pem := some "KEY".toList, len_privkey_pem := 3 }

/-- A session that received the three bytes 48, 130, 1 as the body of a final response
with HTTP status 200. -/
def ac_cert_received : acme_connection :=
  { ac_sample ACME_STATE_POLLING_CSR with
    vhost := none, alloc_privkey_pem := some "KEY".toList, len_privkey_pem := 3,
    resp := 200, cpos := 3, buf := [48, 130, 1] ++ List.replicate 4093 0 }

/-- Per-site data with the session `ac_csr`. -/
def vhd_csr : per_vhost_data__lws_acme_client :=
  { vhd_sample with ac := some ac_csr }

/-- The final response of the certificate poll: HTTP status 200 and the certificate
`der` as one piece of body, completed with the answers `o`. -/
def cert_response (der : List Nat) (o : Completion) : List Event :=
  [LWS_CALLBACK_ESTABLISHED_CLIENT_HTTP 200 (some "nonce".toList) none,
   LWS_CALLBACK_RECEIVE_CLIENT_HTTP_READ der [] 0,
   LWS_CALLBACK_COMPLETED_CLIENT_HTTP o]

/-- Collaborators for a completion in which the first three writes (of a certificate of
one line) are complete and the fourth, the write of the key, fails. -/
def completion_key_write_fails : Completion :=
  { completion_ok with wr := [none, none, none, some (-1)] }

/-- Collaborators for a completion in which the allocation of the base64 buffer fails
and no write fails. -/
def completion_no_buffer : Completion :=
  { completion_ok with malloc_ok := false }

/-- Per-site data with the session `ac_cert_received`. -/
def vhd_cert_received : per_vhost_data__lws_acme_client :=
  { vhd_sample with ac := some ac_cert_received }



/-! ## The writes of a certificate install -/

/-- The byte counts the loop of `pem_loop` passes to `write`, in call order: a line of the
base64 text, then one byte for the line break when text remains. -/
def loop_counts : Nat → List Char → List Nat
  | 0, _ => []
  | fuel + 1, p =>
    if p.length = 0 then []
    else
      let m := if p.length < 65 then p.length else 65
      if (p.drop m).length ≠ 0 then m :: 1 :: loop_counts fuel (p.drop m)
      else m :: loop_counts fuel (p.drop m)

/-- The byte counts of all the `write` calls of a certificate install that runs to its
end: header, the lines of the base64 text of the received certificate, footer, private
key. -/
def install_writes (ac : acme_connection) : List Nat :=
  28 :: loop_counts (b64_encode (ac.buf.take ac.cpos)).length (b64_encode (ac.buf.take ac.cpos)) ++
    [27, ac.len_privkey_pem]

/-- Whether the `write` calls number `i`, `i + 1`, ... with the byte counts `cs` all
return their count under the outcomes `wr`. -/
def writes_complete (wr : List (Option Int)) : Nat → List Nat → Bool
  | _, [] => true
  | i, c :: cs => decide ((wr.getD i none).getD (c : Int) = (c : Int)) && writes_complete wr (i + 1) cs

/-- Whether an effect is the notification `lws_tls_cert_updated`. -/
def is_cert_updated : Effect → Bool
  | Effect.tls_cert_updated _ _ => true
  | _ => false


/-! ## The names of the challenge certificate, as the specification words them -/

/-- The two lowercase hexadecimal digits of a byte, the high digit first, written with
the digit characters of the library (`Nat.digitChar`), not with the digit table of the
program. -/
def hex_byte (b : Nat) : List Char := [Nat.digitChar (b / 16 % 16), Nat.digitChar (b % 16)]

/-- Lowercase hexadecimal rendering of a byte string, two characters a byte. -/
def hex_render (d : List Nat) : List Char := (d.map hex_byte).flatten

/-- The key authorization of a challenge: the token, a dot and the URL-safe base64 text
`b` of the account-key fingerprint. -/
def key_authorization (token b : List Char) : List Char := token ++ ['.'] ++ b

/-- The fixed suffix of the first name of the challenge certificate, by sub-type. -/
def san_a_suffix (is_sni_02 : Bool) : List Char :=
  if is_sni_02 then "token.acme.invalid".toList else "acme.invalid".toList

/-- The name made of the two halves of the 64 hexadecimal characters `h` and a suffix. -/
def san_of_hex (h suffix : List Char) : List Char :=
  h.take 32 ++ ['.'] ++ (h.drop 32).take 32 ++ ['.'] ++ suffix

/-- The body of the request that accepts a challenge, for the sub-type digit `d` and the
key authorization `ka`. -/
def challenge_payload (d : Char) (ka : List Char) : List Char :=
  "\x7b\"resource\":\"challenge\",\"type\":\"tls-sni-0".toList ++ [d] ++
    "\",\"keyAuthorization\":\"".toList ++ ka ++ "\"\x7d".toList

/-- A session whose authorization response was parsed, holding a token and a challenge
URI, of the tls-sni-02 sub-type or not. -/
def ac_new_auth (is_sni_02 : Bool) : acme_connection :=
  { ac_sample ACME_STATE_NEW_AUTH with
    vhost := none, jctx := some lejp_user.authz, chall_token := "tok".toList,
    is_sni_02 := is_sni_02, use := true, yes := 3 }

/-- Per-site data with the session `ac_new_auth`. -/
def vhd_new_auth (is_sni_02 : Bool) : per_vhost_data__lws_acme_client :=
  { vhd_sample with ac := some (ac_new_auth is_sni_02) }

/-- Collaborators that answer every call of a handshake with success. -/
def handshake_ok : Handshake :=
  { add_content_type := 0, add_content_length := 0, csr := none }


/-! ## Documents as streams of parser events -/

/-- One string value as the parser reports it when it fits one chunk: the start of the
string and its text, under the path with 1-based index `k`. -/
def str_value (k : Nat) (v : List Char) : List lejp_event :=
  [{ reason := LEJPCB_VAL_STR_START, ctx := { path_match := k, buf := [] } },
   { reason := LEJPCB_VAL_STR_END, ctx := { path_match := k, buf := v } }]

/-- One element of the list `challenges` of an authorization, given by its type, uri and
token, with the type listed before the uri and the token: the paths
`challenges[].type`, `challenges[].uri` and `challenges[].token` are number 5, 7 and 8 of
`jauthz_tok`. -/
def chall_element (c : List Char × List Char × List Char) : List lejp_event :=
  str_value 5 c.1 ++ str_value 7 c.2.1 ++ str_value 8 c.2.2

/-- The parser events of an authorization with the challenge elements `cs`. -/
def authz_document (cs : List (List Char × List Char × List Char)) : List lejp_event :=
  (cs.map chall_element).flatten

/-- The session after `cb_authz` was called for each event in turn. -/
def cb_authz_run (s : acme_connection) (es : List lejp_event) : acme_connection :=
  es.foldl (fun s e => (cb_authz s e.reason e.ctx).1) s

/-- A session waiting for the authorization response, nothing captured so far. -/
def ac_authz : acme_connection :=
  { ac_sample ACME_STATE_NEW_AUTH with vhost := none, challenge_uri := [], chall_token := [] }

/-- Per-site data with the session `ac_authz`. -/
def vhd_authz : per_vhost_data__lws_acme_client :=
  { vhd_sample with ac := some ac_authz }

/-- The authorization response with HTTP status 201 whose body holds the challenge
elements `cs`. -/
def authz_response (cs : List (List Char × List Char × List Char)) : List Event :=
  [LWS_CALLBACK_ESTABLISHED_CLIENT_HTTP 201 (some "nonce".toList) none,
   LWS_CALLBACK_RECEIVE_CLIENT_HTTP_READ [] (authz_document cs) 0]


/-- The value events of a string delivered in the chunks `cs` under the path with
1-based index `k`: the last chunk ends the string, the earlier ones are reported as
chunks. -/
def chunk_events (k : Nat) : List (List Char) → List lejp_event
  | [] => []
  | c :: cs =>
    { reason := if cs.isEmpty then LEJPCB_VAL_STR_END else LEJPCB_VAL_STR_CHUNK,
      ctx := { path_match := k, buf := c } } :: chunk_events k cs

/-- One string value of a document as the parser reports it: the start of the string,
then its chunks. -/
def dir_value (k : Nat) (cs : List (List Char)) : List lejp_event :=
  { reason := LEJPCB_VAL_STR_START, ctx := { path_match := k, buf := [] } } :: chunk_events k cs

/-- The parser events of a directory whose string fields are `fields`: each field is
given by the 1-based index of its path in `jdir_tok` (0 for a field that matches none of
the six paths) and the chunks of its value. -/
def dir_document (fields : List (Nat × List (List Char))) : List lejp_event :=
  (fields.map fun f => dir_value f.1 f.2).flatten

/-- The six slots as the specification words the result of the directory resolver: each
field with a known key puts its value in the slot of that key. -/
def dir_slots (urls : List (List Char)) (fields : List (Nat × List (List Char))) :
    List (List Char) :=
  fields.foldl (fun us f => if f.1 = 0 then us else us.set (f.1 - 1) f.2.flatten) urls

/-- A fresh session reading the directory. -/
def ac_directory : acme_connection :=
  { ac_zero with jctx := some lejp_user.dir }

/-- Per-site data with the session `ac_directory`. -/
def vhd_directory : per_vhost_data__lws_acme_client :=
  { vhd_sample with ac := some ac_directory }

/-- A value of 120 bytes in two chunks of 60 bytes. -/
def chunks_too_long : List (List Char) :=
  [List.replicate 60 'a', List.replicate 60 'b']

/-- A directory with the six known fields, two of them delivered in two chunks, and two
fields that match none of the six paths. -/
def fields_sample : List (Nat × List (List Char)) :=
  [(5, ["https://ca/new-reg".toList]), (0, ["caa".toList]),
   (1, ["https://ca/".toList, "key-change".toList]), (3, ["https://ca/new-authz".toList]),
   (2, ["https://ca/terms".toList]), (6, ["https://ca/rev".toList, "oke-cert".toList]),
   (0, ["x".toList, "y".toList]), (4, ["https://ca/new-cert".toList])]


/-! ## Sessions over the life of a site -/

/-- Per-site data after start-up of a site whose directory URL is
"https://ca/directory": no session. -/
def vhd_site : per_vhost_data__lws_acme_client :=
  { vhd_sample with
    pvop := [some "GB".toList, some "state".toList, some "locality".toList, some "org".toList,
      some "example.com".toList, some "admin@example.com".toList,
      some "https://ca/directory".toList, some "auth.jwk".toList, some "cert.pem".toList,
      some "key.pem".toList] }

/-- A qualifying aging signal for the site of `vhd_sample`: ten days left, the connect
call gives a connection. -/
def aging_signal : Event :=
  LWS_CALLBACK_VHOST_CERT_AGING 10 1 "example.com".toList "eth0".toList 443 true

/-- The start of a session of the site: the aging signal and the body of the directory
with its six fields. -/
def events_directory_read : List Event :=
  [aging_signal,
   LWS_CALLBACK_ESTABLISHED_CLIENT_HTTP 200 (some "nonce0".toList) none,
   LWS_CALLBACK_RECEIVE_CLIENT_HTTP_READ []
     (dir_field 1 "https://ca/key-change" ++ dir_field 2 "https://ca/terms" ++
      dir_field 3 "https://ca/new-authz" ++ dir_field 4 "https://ca/new-cert" ++
      dir_field 5 "https://ca/new-reg" ++ dir_field 6 "https://ca/revoke-cert") 0]

/-- A session of the site up to the point where the directory is known and the
registration requested. -/
def events_directory_known : List Event :=
  events_directory_read ++ [LWS_CALLBACK_COMPLETED_CLIENT_HTTP completion_ok]

/-- A first session of the site: the directory, the registration request, and the
registration refused with HTTP status 500, which ends the session. -/
def events_first_session : List Event :=
  events_directory_known ++
    [LWS_CALLBACK_ESTABLISHED_CLIENT_HTTP 500 (some "nonce1".toList) none,
     LWS_CALLBACK_COMPLETED_CLIENT_HTTP completion_ok]

/-- The six URLs of the sample directory. -/
def urls_sample : List (List Char) :=
  ["https://ca/key-change".toList, "https://ca/terms".toList, "https://ca/new-authz".toList,
   "https://ca/new-cert".toList, "https://ca/new-reg".toList, "https://ca/revoke-cert".toList]

/-- Per-site data of the site with a session polling its challenge, which holds the
temporary vhost 7. -/
def vhd_site_polling : per_vhost_data__lws_acme_client :=
  { vhd_site with ac := some (ac_sample ACME_STATE_POLLING) }

/-- Collaborators whose connect call gives no connection. -/
def completion_no_connection : Completion :=
  { completion_ok with cwsi := false }


/-! ## The nonce of signed requests -/

/-- Whether an event delivers the headers of a response. -/
def is_response_headers : Event → Bool
  | LWS_CALLBACK_ESTABLISHED_CLIENT_HTTP _ _ _ => true
  | _ => false

/-- Whether an event is a certificate-aging signal. -/
def is_aging : Event → Bool
  | LWS_CALLBACK_VHOST_CERT_AGING _ _ _ _ _ _ => true
  | _ => false

/-- The session a call leaves, if it leaves one, holds the nonce `n`. -/
def holds_nonce (n : List Char) (r : Result) : Prop :=
  ∀ ac1, r.vhd.ac = some ac1 → ac1.replay_nonce = n

/-- What follows the headers of the directory response: the body with two of the fields,
and the completion, which requests the registration. -/
def events_after_response : List Event :=
  [LWS_CALLBACK_RECEIVE_CLIENT_HTTP_READ []
     (dir_field 2 "https://ca/terms" ++ dir_field 5 "https://ca/new-reg") 0,
   LWS_CALLBACK_COMPLETED_CLIENT_HTTP completion_ok]


/-- The nonces handed to the signing step among the effects of a call. -/
def signed_nonces (eff : List Effect) : List (List Char) :=
  eff.filterMap fun e =>
    match e with
    | Effect.jws_create_packet _ n => some n
    | _ => none

/-- The per-site data of the sample site after the directory response with the nonce
"nonce0" and what follows it. -/
def vhd_after_response : per_vhost_data__lws_acme_client :=
  (run ext_sample vhd_directory
    (LWS_CALLBACK_ESTABLISHED_CLIENT_HTTP 200 (some "nonce0".toList) none ::
      events_after_response)).getD vhd_sample

/-- The outcome of building the registration request after `vhd_after_response`. -/
def result_signed : Result :=
  (callback_acme_client ext_sample vhd_after_response
    (LWS_CALLBACK_CLIENT_APPEND_HANDSHAKE_HEADER handshake_ok)).getD (done vhd_sample 0 [])

/-- The bytes that the `write` calls number `i`, `i + 1`, ... put in a file when they are
made one after the other with the chunks `cs` under the outcomes `wr`, up to and
including the first call that does not return its count: a call that returns its count
puts its whole chunk, a call that returns another value `r` puts the first `r` bytes of
its chunk (none when `r` is not positive) and no call follows it. -/
def written (wr : List (Option Int)) : Nat → List (List Char) → List Char
  | _, [] => []
  | i, c :: cs =>
    if (wr.getD i none).getD (c.length : Int) = (c.length : Int) then c ++ written wr (i + 1) cs
    else c.take ((wr.getD i none).getD (c.length : Int)).toNat

/-- The chunks that the `write` calls to the certificate update file are made with when
the install runs to its end: the BEGIN line, the lines of the base64 text of the
received certificate with a line break of one byte between two lines, the END line. -/
def cert_chunks (ac : acme_connection) : List (List Char) :=
  "-----BEGIN CERTIFICATE-----\n".toList ::
    List.intersperse ['\n'] (pem_lines (b64_encode (ac.buf.take ac.cpos)).length
      (b64_encode (ac.buf.take ac.cpos))) ++ ["\n-----END CERTIFICATE-----\n".toList]

/-- The bytes the certificate update file is expected to receive in an install under the
answers `o`: the writes of `cert_chunks` up to the first incomplete one, and only the
write of the BEGIN line when the allocation of the base64 buffer fails. -/
def cert_written (ac : acme_connection) (o : Completion) : List Char :=
  written o.wr 0
    (if o.malloc_ok then cert_chunks ac else ["-----BEGIN CERTIFICATE-----\n".toList])

/-- Whether the install under the answers `o` makes every write to the certificate
update file and each of them is complete. -/
def cert_complete (ac : acme_connection) (o : Completion) : Bool :=
  o.malloc_ok && writes_complete o.wr 0 ((cert_chunks ac).map List.length)

/-- The bytes the key update file is expected to receive when the key is written: the
first `len_privkey_pem` bytes of the key, or as many of them as the write accepts. -/
def key_written (ac : acme_connection) (o : Completion) : List Char :=
  ((ac.alloc_privkey_pem.getD []).take ac.len_privkey_pem).take
    ((o.wr.getD (cert_chunks ac).length none).getD (ac.len_privkey_pem : Int)).toNat

/-- Collaborators for a completion in which the write of the BEGIN line is complete and
the write of the first line of base64 text accepts two bytes only. -/
def completion_short_write : Completion :=
  { completion_ok with wr := [none, some 2] }

/-- Run the callback over a list of events as `run` does and collect the effects of the
calls, in call order; gives the per-site data at the end with these effects, `none` if
some call is undefined. -/
def run_effects (X : Ext) :
    per_vhost_data__lws_acme_client → List Event →
      Option (per_vhost_data__lws_acme_client × List Effect)
  | vhd, [] => some (vhd, [])
  | vhd, e :: es =>
    match callback_acme_client X vhd e with
    | none => none
    | some r => (run_effects X r.vhd es).map fun p => (p.1, r.eff ++ p.2)

end AcmeClient

namespace AcmeClient

open lws_acme_state Event lejp_callbacks

/-! ## The completion of an exchange: state decisions -/

/-- With a live session the completion event is handled by `completed_client_http`. -/
theorem callback_completed (X : Ext) (vhd : per_vhost_data__lws_acme_client)
    (ac : acme_connection) (o : Completion) (h : vhd.ac = some ac) :
    callback_acme_client X vhd (LWS_CALLBACK_COMPLETED_CLIENT_HTTP o) =
      completed_client_http X vhd ac o := by
  simp [callback_acme_client, h]

/-- The exit `failed:` leaves the site without a session and returns -1. -/
theorem failed_releases (vhd : per_vhost_data__lws_acme_client) (eff : List Effect) :
    (failed vhd eff).vhd.ac = none ∧ (failed vhd eff).ret = -1 := by
  unfold failed lws_acme_finished
  cases h : vhd.ac <;> simp [h]

/-- C1, the code at the failing input: a POLLING exchange that completes with HTTP status
200 while the challenge status string is "pending" (neither "valid" nor "invalid") is taken
as an accepted authorization: the session advances to POLLING_CSR, does not poll again and
does not fail. -/
theorem polling_advances_without_valid (X : Ext) :
    (callback_acme_client X vhd_polling_200_pending
        (LWS_CALLBACK_COMPLETED_CLIENT_HTTP completion_ok)).map
      (fun r => (r.ret, r.vhd.ac.map fun a => (a.state, a.status))) =
      some (0, some (ACME_STATE_POLLING_CSR, "pending".toList)) := by
  rfl

/-- The completion of a poll whose challenge status is "valid", whatever the HTTP
status. -/
theorem polling_valid_step (X : Ext) (vhd : per_vhost_data__lws_acme_client)
    (ac : acme_connection) (o : Completion) (h : vhd.ac = some ac)
    (hs : ac.state = ACME_STATE_POLLING) (hv : ac.status = "valid".toList) :
    ∃ r, callback_acme_client X vhd (LWS_CALLBACK_COMPLETED_CLIENT_HTTP o) = some r ∧
      (∀ vh, ac.vhost = some vh → Effect.vhost_destroy vh ∈ r.eff) ∧
      (∀ ac1, r.vhd.ac = some ac1 → ac1.vhost = none) ∧
      lws_acme_client_connect (ac.urls.getD JAD_NEW_CERT_URL []) "POST" ∈ r.eff ∧
      (o.cwsi = true →
        r.ret = 0 ∧
        r.vhd.ac = some { ac with vhost := none, state := ACME_STATE_POLLING_CSR, goes_around := 0 }) ∧
      (o.cwsi = false → r.vhd.ac = none) := by
  rw [callback_completed X vhd ac o h]
  have hne : ¬ (ac.resp = 202 ∧ ac.status ≠ "invalid".toList ∧ ac.status ≠ "valid".toList) := by
    rintro ⟨-, -, h3⟩
    exact h3 hv
  have hni : ac.status ≠ "invalid".toList := by
    rw [hv]; decide
  cases hc : o.cwsi
  · refine ⟨_, by simp only [completed_client_http, hs, hne, hni, hc, if_false]; rfl, ?_⟩
    refine ⟨?_, ?_, ?_, ?_, ?_⟩
    · intro vh hvh
      simp [failed, hvh]
    · intro ac1 h1
      simp [failed, lws_acme_finished] at h1
    · simp [failed]
    · intro hh; simp at hh
    · intro _; simp [failed, lws_acme_finished]
  · refine ⟨_, by simp only [completed_client_http, hs, hne, hni, hc, if_false, if_true]; rfl, ?_⟩
    refine ⟨?_, ?_, ?_, ?_, ?_⟩
    · intro vh hvh
      simp [done, hvh]
    · intro ac1 h1
      simp [done] at h1
      rw [← h1]
    · simp [done]
    · intro _; simp [done]
    · intro hh; simp at hh

/-- C3, the code at the failing input: a registration answered with HTTP status 299 is
treated as fatal: the session is released, the callback returns -1 and no request to the
new-authz URL is made. -/
theorem new_reg_299_fails (X : Ext) :
    (callback_acme_client X (vhd_new_reg 299)
        (LWS_CALLBACK_COMPLETED_CLIENT_HTTP completion_ok)).map
      (fun r => (r.ret, r.vhd.ac, r.eff)) =
      some (-1, none, [Effect.genrsa_destroy, Effect.jwk_destroy]) := by
  rfl

/-- C4: for every HTTP status outside 200..299, the completion of the registration
advances the session to NEW_AUTH exactly when the status is 409; for every other such
status the session is released and the callback returns -1. -/
theorem new_reg_outside_2xx (X : Ext) (vhd : per_vhost_data__lws_acme_client)
    (ac : acme_connection) (o : Completion) (h : vhd.ac = some ac)
    (hs : ac.state = ACME_STATE_NEW_REG) (hr : ¬ (200 ≤ ac.resp ∧ ac.resp ≤ 299)) :
    ∃ r, callback_acme_client X vhd (LWS_CALLBACK_COMPLETED_CLIENT_HTTP o) = some r ∧
      ((∃ ac1, r.vhd.ac = some ac1 ∧ ac1.state = ACME_STATE_NEW_AUTH) ↔ ac.resp = 409) ∧
      (ac.resp ≠ 409 → r.vhd.ac = none ∧ r.ret = -1) := by
  rw [callback_completed X vhd ac o h]
  by_cases h409 : ac.resp = 409
  · refine ⟨_, by simp only [completed_client_http, hs, h409]; rfl, ?_, ?_⟩
    · simp [done, h409]
    · intro hh; exact absurd h409 hh
  · have hc : ¬ ((200 ≤ ac.resp ∧ ac.resp < 299) ∨ ac.resp = 409) := by
      rintro (⟨h1, h2⟩ | h3)
      · exact hr ⟨h1, by omega⟩
      · exact h409 h3
    refine ⟨_, by simp only [completed_client_http, hs, hc, if_false]; rfl, ?_, ?_⟩
    · simp [h409, (failed_releases vhd []).1]
    · intro _; exact failed_releases vhd []

/-- Witness for C4: a registration answered with HTTP status 409. -/
theorem new_reg_outside_2xx_witness :
    ∃ r, callback_acme_client ext_sample (vhd_new_reg 409)
        (LWS_CALLBACK_COMPLETED_CLIENT_HTTP completion_ok) = some r ∧
      ((∃ ac1, r.vhd.ac = some ac1 ∧ ac1.state = ACME_STATE_NEW_AUTH) ↔
        ({ ac_sample ACME_STATE_NEW_REG with vhost := none, resp := 409 } : acme_connection).resp = 409) ∧
      (({ ac_sample ACME_STATE_NEW_REG with vhost := none, resp := 409 } : acme_connection).resp ≠ 409 →
        r.vhd.ac = none ∧ r.ret = -1) :=
  new_reg_outside_2xx ext_sample (vhd_new_reg 409)
    { ac_sample ACME_STATE_NEW_REG with vhost := none, resp := 409 } completion_ok rfl rfl
    (by decide)

/-- Running a concatenation of event lists is running them one after the other. -/
theorem run_append (X : Ext) (a b : List Event) (vhd : per_vhost_data__lws_acme_client) :
    run X vhd (a ++ b) = (run X vhd a).bind fun v => run X v b := by
  induction a generalizing vhd with
  | nil => simp [run]
  | cons e es ih =>
    simp only [List.cons_append, run]
    cases callback_acme_client X vhd e with
    | none => simp
    | some r => simp [ih]

/-- The response headers of a challenge poll: the HTTP status is stored and the challenge
parser is constructed; state, retry counter and status string stay. -/
theorem established_polling (X : Ext) (vhd : per_vhost_data__lws_acme_client)
    (ac : acme_connection) (resp : Int) (h : vhd.ac = some ac)
    (hs : ac.state = ACME_STATE_POLLING) :
    ∃ r ac1, callback_acme_client X vhd
        (LWS_CALLBACK_ESTABLISHED_CLIENT_HTTP resp (some "nonce".toList) none) = some r ∧
      r.vhd.ac = some ac1 ∧ ac1.state = ACME_STATE_POLLING ∧
      ac1.goes_around = ac.goes_around ∧ ac1.resp = resp ∧
      ac1.jctx = some lejp_user.chac := by
  refine ⟨done { vhd with ac := some { ac with resp := resp, replay_nonce := "nonce".toList, jctx := some lejp_user.chac, yes := 0, use := false } } 0 [], _, ?_, rfl, ?_⟩
  · simp [callback_acme_client, h, established_client_http, established_switch, hs,
      lws_hdr_total_length, lws_hdr_copy, lejp_construct, lejp_callback, cb_chac,
      LEJP_FLAG_CB_IS_VALUE]
  · simp [hs]

/-- The body of a challenge poll stores the challenge status string; state, retry
counter and HTTP status stay. -/
theorem challenge_body_polling (X : Ext) (vhd : per_vhost_data__lws_acme_client)
    (ac : acme_connection) (st : String) (h : vhd.ac = some ac)
    (hs : ac.state = ACME_STATE_POLLING) (hj : ac.jctx = some lejp_user.chac) :
    ∃ r ac1, callback_acme_client X vhd (challenge_body st) = some r ∧
      r.vhd.ac = some ac1 ∧ ac1.state = ACME_STATE_POLLING ∧
      ac1.goes_around = ac.goes_around ∧ ac1.resp = ac.resp ∧
      ac1.status = strncpy st.toList 15 := by
  refine ⟨done { vhd with ac := some { ac with status := strncpy st.toList 15, chall_token := "tok".toList, yes := (((ac.yes ||| 2) % 4) ||| 1) % 4 } } 0 [], _, ?_, rfl, ?_⟩
  · simp [callback_acme_client, challenge_body, h, receive_client_http_read, hs, hj,
      lejp_parse, lejp_callback, cb_chac, LEJP_FLAG_CB_IS_VALUE, signed_char, strncpy]
  · simp [hs]

/-- One pending response while polling: the session is released when the retry counter
stands at 10, otherwise it keeps polling with the counter one higher. -/
theorem pending_response_polling (X : Ext) (vhd : per_vhost_data__lws_acme_client)
    (ac : acme_connection) (h : vhd.ac = some ac) (hs : ac.state = ACME_STATE_POLLING) :
    ∃ v, run X vhd pending_response = some v ∧
      (ac.goes_around = 10 → v.ac = none) ∧
      (ac.goes_around ≠ 10 → ∃ ac1, v.ac = some ac1 ∧ ac1.state = ACME_STATE_POLLING ∧
        ac1.goes_around = ac.goes_around + 1) := by
  obtain ⟨r1, ac1, hr1, h1, hs1, hg1, hresp1, hj1⟩ := established_polling X vhd ac 202 h hs
  obtain ⟨r2, ac2, hr2, h2, hs2, hg2, hresp2, hst2⟩ :=
    challenge_body_polling X r1.vhd ac1 "pending" h1 hs1 hj1
  have hp : strncpy "pending".toList 15 ≠ "invalid".toList ∧
      strncpy "pending".toList 15 ≠ "valid".toList := by decide
  have hc : callback_acme_client X r2.vhd (LWS_CALLBACK_COMPLETED_CLIENT_HTTP completion_ok) =
      some (poll_again r2.vhd ac2 completion_ok) := by
    rw [callback_completed X _ _ completion_ok h2]
    simp only [completed_client_http, hs2, hst2, hresp2, hresp1, hp.1, hp.2, ne_eq,
      not_false_eq_true, and_self, if_true]
  refine ⟨(poll_again r2.vhd ac2 completion_ok).vhd, ?_, ?_, ?_⟩
  · simp only [pending_response, run, hr1, hr2, hc]
  · intro hg
    have : ac2.goes_around = 10 := by rw [hg2, hg1, hg]
    simp only [poll_again, this, if_true]
    exact (failed_releases _ _).1
  · intro hg
    have : ac2.goes_around ≠ 10 := by rw [hg2, hg1]; exact hg
    simp only [poll_again, this, if_false, completion_ok, if_true]
    exact ⟨_, rfl, rfl, by simp [hg2, hg1]⟩

/-- Appending one more pending response at the end. -/
theorem pending_responses_succ (k : Nat) :
    pending_responses (k + 1) = pending_responses k ++ pending_response := by
  induction k with
  | zero => simp [pending_responses]
  | succ n ih =>
    show pending_response ++ pending_responses (n + 1) = pending_responses (n + 1) ++ pending_response
    conv_lhs => rw [ih]
    rw [← List.append_assoc]
    rfl

/-- While the retry counter stays at 10 or below, `k` pending responses leave the
session polling with the counter `k` higher. -/
theorem pending_responses_polling (X : Ext) (k : Nat) :
    ∀ (vhd : per_vhost_data__lws_acme_client) (ac : acme_connection), vhd.ac = some ac →
      ac.state = ACME_STATE_POLLING → ac.goes_around + k ≤ 10 →
      ∃ v ac1, run X vhd (pending_responses k) = some v ∧ v.ac = some ac1 ∧
        ac1.state = ACME_STATE_POLLING ∧ ac1.goes_around = ac.goes_around + k := by
  induction k with
  | zero =>
    intro vhd ac h hs _
    exact ⟨vhd, ac, by simp [pending_responses, run], h, hs, by simp⟩
  | succ n ih =>
    intro vhd ac h hs hk
    obtain ⟨v, hv, -, hstep⟩ := pending_response_polling X vhd ac h hs
    obtain ⟨ac1, h1, hs1, hg1⟩ := hstep (by omega)
    obtain ⟨v2, ac2, hv2, h2, hs2, hg2⟩ := ih v ac1 h1 hs1 (by rw [hg1]; push_cast at hk ⊢; omega)
    refine ⟨v2, ac2, ?_, h2, hs2, ?_⟩
    · rw [pending_responses, run_append, hv]
      simpa using hv2
    · rw [hg2, hg1]; push_cast; omega

/-- The completion of the challenge acceptance with retry counter 0 starts the first
poll: the session is polling with the counter at 1. -/
theorem accept_chall_completed (X : Ext) (vhd : per_vhost_data__lws_acme_client)
    (ac : acme_connection) (h : vhd.ac = some ac) (hs : ac.state = ACME_STATE_ACCEPT_CHALL)
    (hg : ac.goes_around = 0) :
    ∃ r ac1, callback_acme_client X vhd (LWS_CALLBACK_COMPLETED_CLIENT_HTTP completion_ok) = some r ∧
      r.vhd.ac = some ac1 ∧ ac1.state = ACME_STATE_POLLING ∧ ac1.goes_around = 1 := by
  rw [callback_completed X vhd ac _ h]
  refine ⟨_, _, by simp only [completed_client_http, hs, poll_again, hg]; rfl, rfl, rfl, ?_⟩
  simp [hg]


/-! ## The retry ceiling of the challenge poll -/

/-- C5, as stated, fails: from the completion of the challenge acceptance with retry
counter 0, the session is not still polling after each of the first ten pending
responses. -/
theorem ten_pending_not_polling :
    ¬ (∀ k, k ≤ 10 → ∃ v ac1,
        run ext_sample vhd_accept_chall
          (LWS_CALLBACK_COMPLETED_CLIENT_HTTP completion_ok :: pending_responses k) = some v ∧
        v.ac = some ac1 ∧ ac1.state = ACME_STATE_POLLING) := by
  intro hall
  obtain ⟨v, ac1, hv, hac, -⟩ := hall 10 (le_refl 10)
  have e : (run ext_sample vhd_accept_chall
      (LWS_CALLBACK_COMPLETED_CLIENT_HTTP completion_ok :: pending_responses 10)).map
      (fun v => v.ac) = some none := by decide
  rw [hv] at e
  simp only [Option.map_some', Option.some.injEq] at e
  rw [hac] at e
  cases e

/-- Pending responses after the completion of the challenge acceptance: nine keep the
session polling, the tenth releases it. -/
theorem accept_then_pending_polls (X : Ext) (vhd : per_vhost_data__lws_acme_client)
    (ac : acme_connection) (h : vhd.ac = some ac) (hs : ac.state = ACME_STATE_ACCEPT_CHALL)
    (hg : ac.goes_around = 0) :
    (∀ k, k ≤ 9 → ∃ v ac1,
      run X vhd (LWS_CALLBACK_COMPLETED_CLIENT_HTTP completion_ok :: pending_responses k) = some v ∧
      v.ac = some ac1 ∧ ac1.state = ACME_STATE_POLLING ∧ ac1.goes_around = k + 1) ∧
    ∃ v, run X vhd (LWS_CALLBACK_COMPLETED_CLIENT_HTTP completion_ok :: pending_responses 10) =
        some v ∧ v.ac = none := by
  obtain ⟨r, ac1, hr, h1, hs1, hg1⟩ := accept_chall_completed X vhd ac h hs hg
  have hk : ∀ k, k ≤ 9 → ∃ v ac2,
      run X vhd (LWS_CALLBACK_COMPLETED_CLIENT_HTTP completion_ok :: pending_responses k) = some v ∧
      v.ac = some ac2 ∧ ac2.state = ACME_STATE_POLLING ∧ ac2.goes_around = k + 1 := by
    intro k hk
    obtain ⟨v, ac2, hv, h2, hs2, hg2⟩ :=
      pending_responses_polling X k r.vhd ac1 h1 hs1 (by rw [hg1]; omega)
    refine ⟨v, ac2, ?_, h2, hs2, ?_⟩
    · simp only [run, hr]
      exact hv
    · rw [hg2, hg1]; omega
  refine ⟨hk, ?_⟩
  obtain ⟨v, ac2, hv, h2, hs2, hg2⟩ := hk 9 (le_refl 9)
  obtain ⟨v3, hv3, hfail, -⟩ := pending_response_polling X v ac2 h2 hs2
  refine ⟨v3, ?_, hfail (by rw [hg2]; norm_num)⟩
  have hrun : run X vhd
      ((LWS_CALLBACK_COMPLETED_CLIENT_HTTP completion_ok :: pending_responses 9) ++
        pending_response) = some v3 := by
    rw [run_append, hv]
    exact hv3
  rw [pending_responses_succ 9]
  exact hrun

/-- The session at the moment a valid response is evaluated that follows the completion
of the challenge acceptance and seven pending responses. -/
theorem valid_after_seven_pending (X : Ext) (vhd : per_vhost_data__lws_acme_client)
    (ac : acme_connection) (resp : Int) (h : vhd.ac = some ac)
    (hs : ac.state = ACME_STATE_ACCEPT_CHALL) (hg : ac.goes_around = 0) :
    ∃ v ac1,
      run X vhd (LWS_CALLBACK_COMPLETED_CLIENT_HTTP completion_ok ::
        (pending_responses 7 ++ valid_response resp)) = some v ∧
      v.ac = some ac1 ∧ ac1.state = ACME_STATE_POLLING ∧
      ac1.status = "valid".toList ∧ ac1.goes_around = 8 := by
  obtain ⟨v, ac1, hv, h1, hs1, hg1⟩ := (accept_then_pending_polls X vhd ac h hs hg).1 7 (by norm_num)
  obtain ⟨r2, ac2, hr2, h2, hs2, hg2, -, hj2⟩ := established_polling X v ac1 resp h1 hs1
  obtain ⟨r3, ac3, hr3, h3, hs3, hg3, -, hst3⟩ :=
    challenge_body_polling X r2.vhd ac2 "valid" h2 hs2 hj2
  refine ⟨r3.vhd, ac3, ?_, h3, hs3, ?_, ?_⟩
  · have e : run X vhd ((LWS_CALLBACK_COMPLETED_CLIENT_HTTP completion_ok :: pending_responses 7) ++
        valid_response resp) = some r3.vhd := by
      rw [run_append, hv]
      simp only [Option.some_bind, valid_response, run, hr2, hr3]
    exact e
  · rw [hst3]; decide
  · rw [hg3, hg2, hg1]; norm_num

/-- C6, as stated, fails: when the valid response that follows seven pending responses
is evaluated, the retry counter is not 7. -/
theorem retry_counter_not_seven :
    ¬ (∃ v ac1,
        run ext_sample vhd_accept_chall (LWS_CALLBACK_COMPLETED_CLIENT_HTTP completion_ok ::
          (pending_responses 7 ++ valid_response 200)) = some v ∧
        v.ac = some ac1 ∧ ac1.goes_around = 7) := by
  rintro ⟨v, ac1, hv, hac, hg⟩
  obtain ⟨v2, ac2, hv2, hac2, -, -, hg2⟩ :=
    valid_after_seven_pending ext_sample vhd_accept_chall
      (ac_sample ACME_STATE_ACCEPT_CHALL) 200 rfl rfl rfl
  rw [hv] at hv2
  cases hv2
  rw [hac] at hac2
  cases hac2
  rw [hg2] at hg
  exact absurd hg (by decide)

/-- C6, amended: from the completion of the challenge acceptance with retry counter 0,
after seven polls answered with HTTP status 202 and "pending" and one answered with
"valid" (any HTTP status), the retry counter stands at 8 when the valid response is
evaluated, and the evaluation takes the session to POLLING_CSR with the counter back
at 0. -/
theorem seven_pending_then_valid (X : Ext) (vhd : per_vhost_data__lws_acme_client)
    (ac : acme_connection) (resp : Int) (h : vhd.ac = some ac)
    (hs : ac.state = ACME_STATE_ACCEPT_CHALL) (hg : ac.goes_around = 0) :
    (∃ v ac1,
      run X vhd (LWS_CALLBACK_COMPLETED_CLIENT_HTTP completion_ok ::
        (pending_responses 7 ++ valid_response resp)) = some v ∧
      v.ac = some ac1 ∧ ac1.state = ACME_STATE_POLLING ∧ ac1.goes_around = 8) ∧
    ∃ v ac2,
      run X vhd ((LWS_CALLBACK_COMPLETED_CLIENT_HTTP completion_ok ::
        (pending_responses 7 ++ valid_response resp)) ++
        [LWS_CALLBACK_COMPLETED_CLIENT_HTTP completion_ok]) = some v ∧
      v.ac = some ac2 ∧ ac2.state = ACME_STATE_POLLING_CSR ∧ ac2.goes_around = 0 := by
  obtain ⟨v, ac1, hv, h1, hs1, hst1, hg1⟩ := valid_after_seven_pending X vhd ac resp h hs hg
  refine ⟨⟨v, ac1, hv, h1, hs1, hg1⟩, ?_⟩
  obtain ⟨r, hr, -, -, -, hok, -⟩ := polling_valid_step X v ac1 completion_ok h1 hs1 hst1
  obtain ⟨-, hac⟩ := hok rfl
  refine ⟨r.vhd, _, ?_, hac, rfl, rfl⟩
  rw [run_append, hv]
  simp only [Option.some_bind, run, hr]

/-- Witness for C6: the sample session, the valid response carrying HTTP status 200. -/
theorem seven_pending_then_valid_witness :
    (∃ v ac1,
      run ext_sample vhd_accept_chall (LWS_CALLBACK_COMPLETED_CLIENT_HTTP completion_ok ::
        (pending_responses 7 ++ valid_response 200)) = some v ∧
      v.ac = some ac1 ∧ ac1.state = ACME_STATE_POLLING ∧ ac1.goes_around = 8) ∧
    ∃ v ac2,
      run ext_sample vhd_accept_chall ((LWS_CALLBACK_COMPLETED_CLIENT_HTTP completion_ok ::
        (pending_responses 7 ++ valid_response 200)) ++
        [LWS_CALLBACK_COMPLETED_CLIENT_HTTP completion_ok]) = some v ∧
      v.ac = some ac2 ∧ ac2.state = ACME_STATE_POLLING_CSR ∧ ac2.goes_around = 0 :=
  seven_pending_then_valid ext_sample vhd_accept_chall (ac_sample ACME_STATE_ACCEPT_CHALL) 200
    rfl rfl rfl

/-! ## The retry counter and the number of polls -/

theorem finished_ac (vhd : per_vhost_data__lws_acme_client) :
    (lws_acme_finished vhd).1.ac = none := by
  unfold lws_acme_finished
  cases h : vhd.ac <;> simp [h]

theorem finished_gets (vhd : per_vhost_data__lws_acme_client) :
    count_gets (lws_acme_finished vhd).2 = 0 := by
  unfold lws_acme_finished
  cases h : vhd.ac with
  | none => rfl
  | some ac =>
    cases h2 : ac.vhost <;> simp [h2, count_gets, is_get]

theorem failed_gets (vhd : per_vhost_data__lws_acme_client) (eff : List Effect) :
    count_gets (failed vhd eff).eff = count_gets eff := by
  have h := finished_gets vhd
  unfold count_gets at h ⊢
  simp only [failed, List.countP_append, h, Nat.add_zero]

theorem failed_keeps (ac : acme_connection) (vhd : per_vhost_data__lws_acme_client)
    (eff : List Effect) (h : count_gets eff = 0) : keeps ac (failed vhd eff) := by
  refine ⟨by rw [failed_gets, h], ?_⟩
  intro ac1 h1
  rw [(failed_releases vhd eff).1] at h1
  cases h1
theorem cb_authz_keeps (s : acme_connection) (reason : lejp_callbacks) (ctx : lejp_ctx) :
    (cb_authz s reason ctx).1.state = s.state ∧
      (cb_authz s reason ctx).1.goes_around = s.goes_around := by
  unfold cb_authz
  constructor <;> (simp only []; repeat' split) <;> simp

theorem cb_chac_keeps (s : acme_connection) (reason : lejp_callbacks) (ctx : lejp_ctx) :
    (cb_chac s reason ctx).1.state = s.state ∧
      (cb_chac s reason ctx).1.goes_around = s.goes_around := by
  unfold cb_chac
  constructor <;> (simp only []; repeat' split) <;> simp

theorem cb_dir_keeps (v : per_vhost_data__lws_acme_client) (ac : acme_connection)
    (reason : lejp_callbacks) (ctx : lejp_ctx) (res : per_vhost_data__lws_acme_client × Int)
    (h : v.ac = some ac) (hc : cb_dir v reason ctx = some res) :
    ∃ ac1, res.1.ac = some ac1 ∧ ac1.state = ac.state ∧ ac1.goes_around = ac.goes_around := by
  unfold cb_dir at hc
  simp only [h] at hc
  split at hc
  · cases hc; exact ⟨ac, rfl, rfl, rfl⟩
  · split at hc
    · cases hc; exact ⟨ac, h, rfl, rfl⟩
    · split at hc
      · cases hc; exact ⟨ac, h, rfl, rfl⟩
      · split at hc
        · rename_i d ac2 hd hac2
          cases hac2
          cases hc
          exact ⟨_, rfl, rfl, rfl⟩
        · cases hc

theorem lejp_callback_keeps (u : lejp_user) (v : per_vhost_data__lws_acme_client)
    (ac : acme_connection) (e : lejp_event) (res : per_vhost_data__lws_acme_client × Int)
    (h : v.ac = some ac) (hc : lejp_callback u v e = some res) :
    ∃ ac1, res.1.ac = some ac1 ∧ ac1.state = ac.state ∧ ac1.goes_around = ac.goes_around := by
  cases u with
  | dir => exact cb_dir_keeps v ac e.reason e.ctx res h hc
  | authz =>
    simp only [lejp_callback, h, Option.some.injEq] at hc
    subst hc
    exact ⟨_, rfl, cb_authz_keeps ac e.reason e.ctx⟩
  | chac =>
    simp only [lejp_callback, h, Option.some.injEq] at hc
    subst hc
    exact ⟨_, rfl, cb_chac_keeps ac e.reason e.ctx⟩

theorem lejp_parse_keeps (u : lejp_user) (cbs : List lejp_event) (pret : Int) :
    ∀ (v : per_vhost_data__lws_acme_client) (ac : acme_connection)
      (res : per_vhost_data__lws_acme_client × Int),
      v.ac = some ac → lejp_parse u v cbs pret = some res →
      ∃ ac1, res.1.ac = some ac1 ∧ ac1.state = ac.state ∧ ac1.goes_around = ac.goes_around := by
  induction cbs with
  | nil =>
    intro v ac res h hc
    simp only [lejp_parse, Option.some.injEq] at hc
    subst hc
    exact ⟨ac, h, rfl, rfl⟩
  | cons e es ih =>
    intro v ac res h hc
    simp only [lejp_parse] at hc
    cases hcb : lejp_callback u v e with
    | none => simp [hcb] at hc
    | some p =>
      obtain ⟨ac1, h1, hs1, hg1⟩ := lejp_callback_keeps u v ac e p h hcb
      simp only [hcb] at hc
      split at hc
      · cases hc
        exact ⟨ac1, h1, hs1, hg1⟩
      · obtain ⟨ac2, h2, hs2, hg2⟩ := ih p.1 ac1 res h1 hc
        exact ⟨ac2, h2, hs2.trans hs1, hg2.trans hg1⟩
theorem done_keeps (ac ac0 : acme_connection) (vhd : per_vhost_data__lws_acme_client)
    (ret : Int) (eff : List Effect) (h : vhd.ac = some ac0) (hs : ac0.state = ac.state)
    (hg : ac0.goes_around = ac.goes_around) (he : count_gets eff = 0) :
    keeps ac (done vhd ret eff) := by
  refine ⟨he, ?_⟩
  intro ac1 h1
  simp only [done] at h1
  rw [h] at h1
  cases h1
  exact ⟨hs, hg⟩

theorem construct_keeps (u : lejp_user) (vhd : per_vhost_data__lws_acme_client)
    (ac ac0 : acme_connection) (r : Result) (hs : ac0.state = ac.state)
    (hg : ac0.goes_around = ac.goes_around)
    (hc : ((lejp_construct u vhd ac0).map fun p => done p.1 0 []) = some r) : keeps ac r := by
  cases hl : lejp_construct u vhd ac0 with
  | none => simp [hl] at hc
  | some p =>
    simp only [hl, Option.map_some', Option.some.injEq] at hc
    subst hc
    unfold lejp_construct at hl
    obtain ⟨ac1, h1, hs1, hg1⟩ := lejp_callback_keeps u _ _ _ p rfl hl
    exact done_keeps ac ac1 p.1 0 [] h1 (hs1.trans hs) (hg1.trans hg) rfl

theorem established_switch_keeps (vhd : per_vhost_data__lws_acme_client)
    (ac ac0 : acme_connection) (location : Option (List Char)) (r : Result)
    (hc : established_switch vhd ac0 location = some r)
    (hs : ac0.state = ac.state) (hg : ac0.goes_around = ac.goes_around) : keeps ac r := by
  unfold established_switch at hc
  cases hst : ac0.state <;> simp only [hst] at hc
  · exact construct_keeps _ vhd ac ac0 r hs hg hc
  · cases hc
    exact done_keeps ac ac0 _ _ _ rfl hs hg rfl
  · exact construct_keeps _ vhd ac ac0 r hs hg hc
  · exact construct_keeps _ vhd ac ac0 r hs hg hc
  · exact construct_keeps _ vhd ac ac0 r hs hg hc
  · by_cases h1 : ac0.resp ≠ 201
    · simp only [h1, if_true, ne_eq, not_false_eq_true, Option.some.injEq] at hc
      subst hc
      exact done_keeps ac _ _ _ _ rfl (hst.symm.trans hs) hg rfl
    · simp only [h1, if_false] at hc
      by_cases h2 : (lws_hdr_copy ac0.challenge_uri 256 location).1 < 0
      · simp only [h2, if_true, Option.some.injEq] at hc
        subst hc
        exact failed_keeps ac _ _ rfl
      · simp only [h2, if_false, Option.some.injEq] at hc
        subst hc
        exact done_keeps ac _ _ _ _ rfl (hst.symm.trans hs) hg rfl
  · cases hc
    exact done_keeps ac ac0 _ _ _ rfl hs hg rfl

theorem established_keeps (vhd : per_vhost_data__lws_acme_client) (ac : acme_connection)
    (resp : Int) (nonce location : Option (List Char)) (r : Result)
    (hc : established_client_http vhd ac resp nonce location = some r) : keeps ac r := by
  unfold established_client_http at hc
  by_cases h1 : lws_hdr_total_length nonce ≠ 0 ∧ (lws_hdr_copy ac.replay_nonce 64 nonce).1 < 0
  · simp only [h1, if_true, and_self, ne_eq, not_false_eq_true, Option.some.injEq] at hc
    subst hc
    exact done_keeps ac _ _ _ _ rfl rfl rfl rfl
  · simp only [h1, if_false] at hc
    by_cases h2 : lws_hdr_total_length nonce ≠ 0
    · simp only [h2, if_true, ne_eq, not_false_eq_true] at hc
      exact established_switch_keeps vhd ac _ location r hc rfl rfl
    · simp only [h2, if_false] at hc
      exact established_switch_keeps vhd ac _ location r hc rfl rfl
theorem pkt_add_hdrs_keeps (X : Ext) (vhd : per_vhost_data__lws_acme_client)
    (ac ac0 : acme_connection) (payload : List Char) (o : Handshake)
    (hs : ac0.state = ac.state) (hg : ac0.goes_around = ac.goes_around) :
    keeps ac (pkt_add_hdrs X vhd ac0 payload o) := by
  unfold pkt_add_hdrs
  cases hp : X.lws_jws_create_packet vhd.jwk payload ac0.replay_nonce (4096 - X.LWS_PRE) with
  | none => exact failed_keeps ac _ _ (by simp [count_gets, is_get])
  | some pkt =>
    simp only []
    by_cases h1 : o.add_content_type ≠ 0
    · simp only [h1, if_true, ne_eq, not_false_eq_true]
      exact failed_keeps ac _ _ (by simp [count_gets, is_get])
    · simp only [h1, if_false]
      by_cases h2 : o.add_content_length ≠ 0
      · simp only [h2, if_true, ne_eq, not_false_eq_true]
        exact failed_keeps ac _ _ (by simp [count_gets, is_get])
      · simp only [h2, if_false]
        exact done_keeps ac _ _ _ _ rfl hs hg (by simp [count_gets, is_get])

theorem append_keeps (X : Ext) (vhd : per_vhost_data__lws_acme_client) (ac : acme_connection)
    (o : Handshake) (h : vhd.ac = some ac) :
    keeps ac (client_append_handshake_header X vhd ac o) := by
  unfold client_append_handshake_header
  cases hst : ac.state <;> simp only []
  · exact done_keeps ac ac _ _ _ h rfl rfl rfl
  · exact pkt_add_hdrs_keeps X vhd ac ac _ o rfl rfl
  · exact pkt_add_hdrs_keeps X vhd ac ac _ o rfl rfl
  · cases X.lws_jws_base64_enc (X.lws_jwk_rfc7638_fingerprint vhd.jwk) with
    | none => exact failed_keeps ac _ _ rfl
    | some b => exact pkt_add_hdrs_keeps X vhd ac ac _ o rfl rfl
  · exact done_keeps ac ac _ _ _ h rfl rfl rfl
  · by_cases hg : ac.goes_around ≠ 0
    · simp only [hg, if_true, ne_eq, not_false_eq_true]
      exact done_keeps ac ac _ _ _ h rfl rfl rfl
    · simp only [hg, if_false]
      cases o.csr with
      | none => exact failed_keeps ac _ _ rfl
      | some p => exact pkt_add_hdrs_keeps X _ ac _ _ o hst.symm rfl
  · exact done_keeps ac ac _ _ _ h rfl rfl rfl

theorem writeable_keeps (X : Ext) (vhd : per_vhost_data__lws_acme_client)
    (ac : acme_connection) (wrote : Int) (h : vhd.ac = some ac) :
    keeps ac (client_http_writeable X vhd ac wrote) := by
  unfold client_http_writeable
  by_cases h1 : ac.pos = ac.len
  · simp only [h1, if_true]
    exact done_keeps ac ac _ _ _ h rfl rfl rfl
  · simp only [h1, if_false]
    by_cases h2 : wrote < 0
    · simp only [h2, if_true]
      exact done_keeps ac _ _ _ _ rfl rfl rfl (by simp [count_gets, is_get])
    · simp only [h2, if_false]
      exact done_keeps ac _ _ _ _ rfl rfl rfl (by simp [count_gets, is_get])

theorem read_keeps (vhd : per_vhost_data__lws_acme_client) (ac : acme_connection)
    (inp : List Nat) (cbs : List lejp_event) (pret : Int) (r : Result) (h : vhd.ac = some ac)
    (hc : receive_client_http_read vhd ac inp cbs pret = some r) : keeps ac r := by
  have hjson : (match ac.jctx with
      | none => none
      | some u =>
        match lejp_parse u vhd cbs pret with
        | none => none
        | some (vhd1, m) =>
          if signed_char m < 0 ∧ signed_char m ≠ LEJP_CONTINUE then some (failed vhd1 [])
          else some (done vhd1 0 [])) = some r → keeps ac r := by
    intro hj
    cases hu : ac.jctx with
    | none => simp [hu] at hj
    | some u =>
      simp only [hu] at hj
      cases hp : lejp_parse u vhd cbs pret with
      | none => simp [hp] at hj
      | some p =>
        obtain ⟨ac1, h1, hs1, hg1⟩ := lejp_parse_keeps u cbs pret vhd ac p h hp
        simp only [hp] at hj
        by_cases hm : signed_char p.2 < 0 ∧ signed_char p.2 ≠ LEJP_CONTINUE
        · rw [if_pos hm] at hj
          cases hj
          exact failed_keeps ac _ _ rfl
        · rw [if_neg hm] at hj
          cases hj
          exact done_keeps ac ac1 _ _ _ h1 hs1 hg1 rfl
  unfold receive_client_http_read at hc
  cases hst : ac.state <;> simp only [hst] at hc
  · exact hjson hc
  · cases hc
    exact done_keeps ac ac _ _ _ h rfl rfl rfl
  · exact hjson hc
  · exact hjson hc
  · exact hjson hc
  · by_cases h1 : ac.cpos + inp.length > 4096
    · simp only [h1, if_true, Option.some.injEq] at hc
      subst hc
      exact failed_keeps ac _ _ rfl
    · simp only [h1, if_false, Option.some.injEq] at hc
      subst hc
      exact done_keeps ac _ _ _ _ rfl hst.symm rfl rfl
  · cases hc
    exact done_keeps ac ac _ _ _ h rfl rfl rfl
theorem keeps_advances (ac : acme_connection) (r : Result) (h : keeps ac r) : advances ac r := by
  unfold advances
  cases hr : r.vhd.ac with
  | none => exact Or.inl ⟨rfl, Or.inl h.1⟩
  | some ac1 =>
    obtain ⟨hs, hg⟩ := h.2 ac1 hr
    exact Or.inr ⟨ac1, rfl, Or.inl ⟨by rw [hs], hg, h.1⟩⟩

theorem failed_advances (ac : acme_connection) (vhd : per_vhost_data__lws_acme_client)
    (eff : List Effect) (h : count_gets eff = 0) : advances ac (failed vhd eff) :=
  keeps_advances ac _ (failed_keeps ac vhd eff h)

theorem poll_again_advances (vhd : per_vhost_data__lws_acme_client) (ac : acme_connection)
    (o : Completion) (hp : polling_phase ac.state = 1) : advances ac (poll_again vhd ac o) := by
  unfold poll_again
  simp only []
  by_cases hg : ac.goes_around = 10
  · rw [if_pos hg]
    exact failed_advances ac _ _ rfl
  · rw [if_neg hg]
    cases hc : o.cwsi
    · simp only [Bool.false_eq_true, if_false]
      refine Or.inl ⟨(failed_releases _ _).1, Or.inr ⟨hg, ?_⟩⟩
      rw [failed_gets]
      rfl
    · simp only [if_true]
      exact Or.inr ⟨_, rfl, Or.inr (Or.inl ⟨by rw [hp]; rfl, hg, rfl, rfl⟩)⟩

theorem install_cert_ends (vhd : per_vhost_data__lws_acme_client) (ac : acme_connection)
    (o : Completion) (r : Result) (hc : install_cert vhd ac o = some r) :
    r.vhd.ac = none ∧ count_gets r.eff = 0 := by
  have hf : ∀ v : per_vhost_data__lws_acme_client,
      (failed v []).vhd.ac = none ∧ count_gets (failed v []).eff = 0 := by
    intro v
    exact ⟨(failed_releases v []).1, by rw [failed_gets]; rfl⟩
  unfold install_cert at hc
  simp only [] at hc
  repeat' split at hc
  all_goals first
    | (cases hc; exact hf _)
    | cases hc

theorem challenge_sans_keeps (X : Ext) (vhd : per_vhost_data__lws_acme_client)
    (ac : acme_connection) (ka : List Char) :
    (challenge_sans X vhd ac ka).state = ac.state ∧
      (challenge_sans X vhd ac ka).goes_around = ac.goes_around := by
  unfold challenge_sans
  simp only []
  split <;> exact ⟨rfl, rfl⟩

theorem completed_new_auth_advances (X : Ext) (vhd : per_vhost_data__lws_acme_client)
    (ac : acme_connection) (o : Completion) (r : Result) (h : vhd.ac = some ac)
    (hst : ac.state = ACME_STATE_NEW_AUTH) (hc : completed_new_auth X vhd ac o = some r) :
    advances ac r := by
  have hph : polling_phase ACME_STATE_ACCEPT_CHALL ≠ polling_phase ac.state := by
    rw [hst]; decide
  unfold completed_new_auth at hc
  simp only [] at hc
  repeat' split at hc
  all_goals first
    | (cases hc; exact failed_advances ac _ _ rfl)
    | (cases hc; exact keeps_advances ac _ (done_keeps ac ac _ _ _ h rfl rfl rfl))
    | (cases hc; exact Or.inr ⟨_, rfl, Or.inr (Or.inr ⟨hph, rfl, rfl⟩)⟩)
    | cases hc

theorem completed_advances (X : Ext) (vhd : per_vhost_data__lws_acme_client)
    (ac : acme_connection) (o : Completion) (r : Result) (h : vhd.ac = some ac)
    (hc : completed_client_http X vhd ac o = some r) : advances ac r := by
  unfold completed_client_http at hc
  cases hst : ac.state <;> simp only [hst] at hc
  · split at hc
    · cases hc
    · cases hc
      exact Or.inr ⟨_, rfl, Or.inl ⟨by rw [hst]; rfl, rfl, rfl⟩⟩
  · split at hc
    · cases hc
      exact Or.inr ⟨_, rfl, Or.inl ⟨by rw [hst]; rfl, rfl, rfl⟩⟩
    · cases hc
      exact failed_advances ac _ _ rfl
  · exact completed_new_auth_advances X vhd ac o r h hst hc
  · cases hc
    exact poll_again_advances vhd ac o (by rw [hst]; rfl)
  · split at hc
    · cases hc
      exact poll_again_advances vhd ac o (by rw [hst]; rfl)
    · split at hc
      · cases hc
        exact failed_advances ac _ _ rfl
      · have he : count_gets ((match ac.vhost with
            | some vh => [Effect.vhost_destroy vh]
            | none => []) ++ [lws_acme_client_connect (ac.urls.getD JAD_NEW_CERT_URL []) "POST"]) = 0 := by
          cases ac.vhost <;> rfl
        have hph : polling_phase ACME_STATE_POLLING_CSR ≠ polling_phase ac.state := by
          rw [hst]; decide
        split at hc
        · cases hc
          exact Or.inr ⟨_, rfl, Or.inr (Or.inr ⟨hph, rfl, he⟩)⟩
        · cases hc
          exact failed_advances ac _ _ he
  · split at hc
    · cases hc
      exact failed_advances ac _ _ rfl
    · split at hc
      · obtain ⟨h1, h2⟩ := install_cert_ends vhd ac o r hc
        exact Or.inl ⟨h1, Or.inl h2⟩
      · split at hc
        · cases hc
          exact failed_advances ac _ _ rfl
        · rename_i hg
          split at hc
          · cases hc
            exact Or.inr ⟨_, rfl, Or.inr (Or.inl ⟨by rw [hst], hg, rfl, rfl⟩)⟩
          · cases hc
            refine Or.inl ⟨(failed_releases _ _).1, Or.inr ⟨hg, ?_⟩⟩
            rw [failed_gets]
            rfl
  · cases hc
    exact keeps_advances ac _ (done_keeps ac ac _ _ _ h rfl rfl rfl)
theorem aging_cases (vhd : per_vhost_data__lws_acme_client) (len : Int) (in_vhost : Nat)
    (name iface : List Char) (port : Int) (cwsi : Bool) :
    (starts_session vhd (LWS_CALLBACK_VHOST_CERT_AGING len in_vhost name iface port cwsi) = false ∧
        vhost_cert_aging vhd len in_vhost name iface port cwsi = done vhd 0 []) ∨
      (starts_session vhd (LWS_CALLBACK_VHOST_CERT_AGING len in_vhost name iface port cwsi) = true ∧
        ((vhost_cert_aging vhd len in_vhost name iface port cwsi).vhd.ac = none ∨
          ∃ ac1, (vhost_cert_aging vhd len in_vhost name iface port cwsi).vhd.ac = some ac1 ∧
            ac1.goes_around = 0 ∧ ac1.state = ACME_STATE_DIRECTORY)) := by
  unfold vhost_cert_aging starts_session
  by_cases h1 : len > 14
  · left; simp [h1]
  · by_cases h2 : vhd.vhost ≠ in_vhost
    · left; simp [h1, h2]
    · by_cases h3 : vhd.pvop.getD 0 none = none
      · left; simp only [h1, h2, h3, if_false, if_true]; simp
      · right
        simp only [h1, h2, h3, if_false]
        refine ⟨by simp at h2 h3; simp [h1, h2, h3], ?_⟩
        cases cwsi
        · left; rfl
        · right; exact ⟨_, rfl, rfl, rfl⟩

theorem callback_advances (X : Ext) (vhd : per_vhost_data__lws_acme_client)
    (ac : acme_connection) (e : Event) (r : Result) (h : vhd.ac = some ac)
    (hn : starts_session vhd e = false) (hc : callback_acme_client X vhd e = some r) :
    advances ac r := by
  have hsame : advances ac (done vhd 0 []) :=
    keeps_advances ac _ (done_keeps ac ac _ _ _ h rfl rfl rfl)
  cases e with
  | LWS_CALLBACK_PROTOCOL_DESTROY =>
    simp only [callback_acme_client, Option.some.injEq] at hc
    subst hc
    exact Or.inl ⟨finished_ac vhd, Or.inl (finished_gets vhd)⟩
  | LWS_CALLBACK_VHOST_CERT_AGING len in_vhost name iface port cwsi =>
    simp only [callback_acme_client, Option.some.injEq] at hc
    subst hc
    rcases aging_cases vhd len in_vhost name iface port cwsi with ⟨_, h2⟩ | ⟨h1, _⟩
    · rw [h2]; exact hsame
    · rw [hn] at h1; cases h1
  | LWS_CALLBACK_CLIENT_ESTABLISHED =>
    simp only [callback_acme_client, Option.some.injEq] at hc
    subst hc; exact hsame
  | LWS_CALLBACK_CLIENT_CONNECTION_ERROR =>
    simp only [callback_acme_client, Option.some.injEq] at hc
    subst hc; exact hsame
  | LWS_CALLBACK_CLOSED_CLIENT_HTTP =>
    simp only [callback_acme_client, Option.some.injEq] at hc
    subst hc; exact hsame
  | LWS_CALLBACK_ESTABLISHED_CLIENT_HTTP resp nonce location =>
    simp only [callback_acme_client, h] at hc
    exact keeps_advances ac r (established_keeps vhd ac resp nonce location r hc)
  | LWS_CALLBACK_CLIENT_APPEND_HANDSHAKE_HEADER o =>
    simp only [callback_acme_client, h, Option.some.injEq] at hc
    subst hc
    exact keeps_advances ac _ (append_keeps X vhd ac o h)
  | LWS_CALLBACK_CLIENT_HTTP_WRITEABLE wrote =>
    simp only [callback_acme_client, h, Option.some.injEq] at hc
    subst hc
    exact keeps_advances ac _ (writeable_keeps X vhd ac wrote h)
  | LWS_CALLBACK_RECEIVE_CLIENT_HTTP_READ inp cbs pret =>
    simp only [callback_acme_client, h] at hc
    exact keeps_advances ac r (read_keeps vhd ac inp cbs pret r h hc)
  | LWS_CALLBACK_RECEIVE_CLIENT_HTTP rd =>
    simp only [callback_acme_client] at hc
    split at hc
    · cases hc
      exact keeps_advances ac _ (done_keeps ac ac _ _ _ h rfl rfl rfl)
    · cases hc; exact hsame
  | LWS_CALLBACK_COMPLETED_CLIENT_HTTP o =>
    simp only [callback_acme_client, h] at hc
    exact completed_advances X vhd ac o r h hc
  | LWS_CALLBACK_OPENSSL_LOAD_EXTRA_SERVER_VERIFY_CERTS rc =>
    simp only [callback_acme_client, h] at hc
    split at hc
    · cases hc
      exact keeps_advances ac _ (done_keeps ac ac _ _ _ h rfl rfl rfl)
    · cases hc
      exact keeps_advances ac _ (done_keeps ac ac _ _ _ h rfl rfl rfl)
  | OTHER =>
    simp only [callback_acme_client, Option.some.injEq] at hc
    subst hc; exact hsame

theorem callback_without_session (X : Ext) (vhd : per_vhost_data__lws_acme_client)
    (e : Event) (r : Result) (h : vhd.ac = none) (hn : starts_session vhd e = false)
    (hc : callback_acme_client X vhd e = some r) : r.vhd.ac = none := by
  cases e with
  | LWS_CALLBACK_PROTOCOL_DESTROY =>
    simp only [callback_acme_client, Option.some.injEq] at hc
    subst hc
    exact finished_ac vhd
  | LWS_CALLBACK_VHOST_CERT_AGING len in_vhost name iface port cwsi =>
    simp only [callback_acme_client, Option.some.injEq] at hc
    subst hc
    rcases aging_cases vhd len in_vhost name iface port cwsi with ⟨_, h2⟩ | ⟨h1, _⟩
    · rw [h2]; exact h
    · rw [hn] at h1; cases h1
  | LWS_CALLBACK_RECEIVE_CLIENT_HTTP rd =>
    simp only [callback_acme_client] at hc
    split at hc <;> (cases hc; exact h)
  | LWS_CALLBACK_CLIENT_ESTABLISHED =>
    simp only [callback_acme_client, Option.some.injEq] at hc
    subst hc; exact h
  | LWS_CALLBACK_CLIENT_CONNECTION_ERROR =>
    simp only [callback_acme_client, Option.some.injEq] at hc
    subst hc; exact h
  | LWS_CALLBACK_CLOSED_CLIENT_HTTP =>
    simp only [callback_acme_client, Option.some.injEq] at hc
    subst hc; exact h
  | OTHER =>
    simp only [callback_acme_client, Option.some.injEq] at hc
    subst hc; exact h
  | LWS_CALLBACK_ESTABLISHED_CLIENT_HTTP _ _ _ => simp [callback_acme_client, h] at hc
  | LWS_CALLBACK_CLIENT_APPEND_HANDSHAKE_HEADER _ => simp [callback_acme_client, h] at hc
  | LWS_CALLBACK_CLIENT_HTTP_WRITEABLE _ => simp [callback_acme_client, h] at hc
  | LWS_CALLBACK_RECEIVE_CLIENT_HTTP_READ _ _ _ => simp [callback_acme_client, h] at hc
  | LWS_CALLBACK_COMPLETED_CLIENT_HTTP _ => simp [callback_acme_client, h] at hc
  | LWS_CALLBACK_OPENSSL_LOAD_EXTRA_SERVER_VERIFY_CERTS _ => simp [callback_acme_client, h] at hc

theorem starts_session_result (X : Ext) (vhd : per_vhost_data__lws_acme_client)
    (e : Event) (r : Result) (hn : starts_session vhd e = true)
    (hc : callback_acme_client X vhd e = some r) :
    r.vhd.ac = none ∨ ∃ ac1, r.vhd.ac = some ac1 ∧ ac1.goes_around = 0 ∧
      ac1.state = ACME_STATE_DIRECTORY := by
  cases e with
  | LWS_CALLBACK_VHOST_CERT_AGING len in_vhost name iface port cwsi =>
    simp only [callback_acme_client, Option.some.injEq] at hc
    subst hc
    rcases aging_cases vhd len in_vhost name iface port cwsi with ⟨h1, _⟩ | ⟨_, h2⟩
    · rw [hn] at h1; cases h1
    · exact h2
  | _ => simp [starts_session] at hn

/-- One call of the callback keeps the retry counter of a live session within 0..10. -/
theorem callback_counter_bounds (X : Ext) (vhd : per_vhost_data__lws_acme_client)
    (e : Event) (r : Result)
    (hinv : ∀ ac, vhd.ac = some ac → 0 ≤ ac.goes_around ∧ ac.goes_around ≤ 10)
    (hc : callback_acme_client X vhd e = some r) :
    ∀ ac1, r.vhd.ac = some ac1 → 0 ≤ ac1.goes_around ∧ ac1.goes_around ≤ 10 := by
  intro ac1 h1
  cases hs : starts_session vhd e with
  | true =>
    rcases starts_session_result X vhd e r hs hc with h0 | ⟨ac2, h2, hg, -⟩
    · rw [h0] at h1; cases h1
    · rw [h2] at h1; cases h1
      rw [hg]; exact ⟨le_refl 0, by norm_num⟩
  | false =>
    cases hac : vhd.ac with
    | none =>
      rw [callback_without_session X vhd e r hac hs hc] at h1
      cases h1
    | some ac =>
      obtain ⟨hlo, hhi⟩ := hinv ac hac
      rcases callback_advances X vhd ac e r hac hs hc with ⟨h0, -⟩ | ⟨ac2, h2, hcase⟩
      · rw [h0] at h1; cases h1
      · rw [h2] at h1; cases h1
        rcases hcase with ⟨-, hg, -⟩ | ⟨-, hne, hg, -⟩ | ⟨-, hg, -⟩
        · rw [hg]; exact ⟨hlo, hhi⟩
        · rw [hg]; exact ⟨by omega, by omega⟩
        · rw [hg]; exact ⟨le_refl 0, by norm_num⟩

/-- In every reachable state the retry counter of a live session is within 0..10. -/
theorem reachable_counter_bounds (X : Ext) (vhd : per_vhost_data__lws_acme_client)
    (hr : Reachable X vhd) :
    ∀ ac, vhd.ac = some ac → 0 ≤ ac.goes_around ∧ ac.goes_around ≤ 10 := by
  induction hr with
  | start v h =>
    intro ac hac
    rw [h] at hac; cases hac
  | step v e r _ hc ih => exact callback_counter_bounds X v e r ih hc

/-- From a live session with retry counter within 0..10, the counter plus the GETs
requested in the rest of its polling phase never exceeds 10. -/
theorem phase_gets_bound (X : Ext) (evs : List Event) :
    ∀ (vhd : per_vhost_data__lws_acme_client) (ac : acme_connection), vhd.ac = some ac →
      0 ≤ ac.goes_around → ac.goes_around ≤ 10 →
      ac.goes_around + (phase_gets X vhd evs : Int) ≤ 10 := by
  induction evs with
  | nil =>
    intro vhd ac _ _ hhi
    simpa [phase_gets] using hhi
  | cons e es ih =>
    intro vhd ac hac hlo hhi
    simp only [phase_gets, hac]
    by_cases hp : polling_phase ac.state = 0
    · simpa [hp] using hhi
    · rw [if_neg hp]
      cases hs : starts_session vhd e with
      | true => simpa using hhi
      | false =>
        simp only [Bool.false_eq_true, if_false]
        cases hc : callback_acme_client X vhd e with
        | none => simpa using hhi
        | some r =>
          simp only []
          rcases callback_advances X vhd ac e r hac hs hc with ⟨h0, hcnt⟩ | ⟨ac2, h2, hcase⟩
          · simp only [h0]
            rcases hcnt with hz | ⟨hne, hone⟩
            · rw [hz]; simpa using hhi
            · rw [hone]; push_cast; omega
          · simp only [h2]
            rcases hcase with ⟨hph, hg, hz⟩ | ⟨hph, hne, hg, hone⟩ | ⟨hph, hg, hz⟩
            · rw [if_pos hph, hz]
              have := ih r.vhd ac2 h2 (by rw [hg]; exact hlo) (by rw [hg]; exact hhi)
              rw [hg] at this
              push_cast; omega
            · rw [if_pos hph, hone]
              have := ih r.vhd ac2 h2 (by rw [hg]; omega) (by rw [hg]; omega)
              rw [hg] at this
              push_cast; omega
            · rw [if_neg hph, hz]
              simpa using hhi


/-- Running events from a reachable state gives a reachable state. -/
theorem reachable_run (X : Ext) (evs : List Event) :
    ∀ (vhd v : per_vhost_data__lws_acme_client), Reachable X vhd → run X vhd evs = some v →
      Reachable X v := by
  induction evs with
  | nil =>
    intro vhd v hr h
    simp only [run, Option.some.injEq] at h
    subst h
    exact hr
  | cons e es ih =>
    intro vhd v hr h
    simp only [run] at h
    cases hc : callback_acme_client X vhd e with
    | none => simp [hc] at h
    | some r =>
      simp only [hc] at h
      exact ih r.vhd v (Reachable.step vhd e r hr hc) h

/-- C7: in every reachable state of the callback, the retry counter of a live session is
within 0..10, and the counter plus the number of GET exchanges the session requests in
the rest of its polling phase (until the session ends, enters another phase or is
replaced), for every sequence of events, is at most 10; so at most 10 GETs are requested
in a polling phase, which starts with the counter at 0, both for the challenge and for
the certificate. -/
theorem polls_bounded (X : Ext) (vhd : per_vhost_data__lws_acme_client)
    (hr : Reachable X vhd) (ac : acme_connection) (h : vhd.ac = some ac) :
    0 ≤ ac.goes_around ∧ ac.goes_around ≤ 10 ∧
      ∀ evs : List Event,
        ac.goes_around + (phase_gets X vhd evs : Int) ≤ 10 ∧ phase_gets X vhd evs ≤ 10 := by
  obtain ⟨hlo, hhi⟩ := reachable_counter_bounds X vhd hr ac h
  refine ⟨hlo, hhi, ?_⟩
  intro evs
  have hb := phase_gets_bound X evs vhd ac h hlo hhi
  exact ⟨hb, by omega⟩

/-- Witness for C7: the sample site after an aging signal and the exchanges up to the
first challenge poll; the session is polling with the retry counter at 1. -/
theorem polls_bounded_witness :
    Reachable ext_sample vhd_reached ∧ vhd_reached.ac = some ac_reached ∧
      ac_reached.state = ACME_STATE_POLLING ∧ ac_reached.goes_around = 1 ∧
      (0 ≤ ac_reached.goes_around ∧ ac_reached.goes_around ≤ 10 ∧
        ∀ evs : List Event,
          ac_reached.goes_around + (phase_gets ext_sample vhd_reached evs : Int) ≤ 10 ∧
            phase_gets ext_sample vhd_reached evs ≤ 10) := by
  have hsome : (run ext_sample vhd_sample events_to_polling).isSome = true := by decide
  have hrun : run ext_sample vhd_sample events_to_polling = some vhd_reached := by
    unfold vhd_reached
    cases h : run ext_sample vhd_sample events_to_polling with
    | none => rw [h] at hsome; cases hsome
    | some v => rfl
  have hlive : vhd_reached.ac.isSome = true := by decide
  have hac : vhd_reached.ac = some ac_reached := by
    unfold ac_reached
    cases h : vhd_reached.ac with
    | none => rw [h] at hlive; cases hlive
    | some a => rfl
  have hreach : Reachable ext_sample vhd_reached :=
    reachable_run ext_sample events_to_polling vhd_sample vhd_reached
      (Reachable.start vhd_sample rfl) hrun
  exact ⟨hreach, hac, by decide, by decide,
    polls_bounded ext_sample vhd_reached hreach ac_reached hac⟩

/-! ## Writing the certificate and the key -/

theorem file_put_put (f : File) (a b : List Char) (h : f.off ≤ f.data.length) :
    file_put (file_put f a) b = file_put f (a ++ b) := by
  have h1 : (List.take f.off f.data).length = f.off := by simp [h]
  have h2 : List.take (f.off + a.length) (List.take f.off f.data ++ a ++ List.drop (f.off + a.length) f.data)
      = List.take f.off f.data ++ a := by
    rw [List.take_append_of_le_length (by simp [h1])]
    rw [List.take_of_length_le (by simp [h1])]
  have h3 : List.drop (f.off + a.length + b.length)
      (List.take f.off f.data ++ a ++ List.drop (f.off + a.length) f.data)
      = List.drop (f.off + (a.length + b.length)) f.data := by
    rw [List.drop_append_eq_append_drop]
    rw [List.drop_of_length_le (by simp [h1])]
    simp only [List.length_append, h1, List.nil_append, List.drop_drop]
    congr 1
    omega
  simp only [file_put, File.mk.injEq, List.length_append]
  refine ⟨?_, by omega⟩
  rw [h2, h3]
  simp [List.append_assoc]
theorem file_put_wf (f : File) (a : List Char) (h : f.off ≤ f.data.length) :
    (file_put f a).off ≤ (file_put f a).data.length := by
  simp only [file_put, List.length_append, List.length_take, List.length_drop]
  omega

theorem file_put_nil (f : File) (h : f.off ≤ f.data.length) : file_put f [] = f := by
  cases f with
  | mk data off =>
    simp only [file_put, List.append_nil, List.length_nil, Nat.add_zero, List.take_append_drop]

theorem sys_write_eq (f : File) (bs : List Char) (count : Nat) (o : Option Int) :
    sys_write f bs count o =
      (file_put f ((bs.take count).take (o.getD (count : Int)).toNat), o.getD (count : Int)) := rfl

theorem intercalate_cons_cons (x y : List Char) (l : List (List Char)) :
    [nl].intercalate (x :: y :: l) = x ++ nl :: [nl].intercalate (y :: l) := by
  simp [List.intercalate, List.intersperse]

theorem intercalate_single (x : List Char) : [nl].intercalate [x] = x := by
  simp [List.intercalate, List.intersperse]

theorem pem_lines_ne_nil (fuel : Nat) (p : List Char) (h : p.length ≠ 0) :
    pem_lines (fuel + 1) p = p.take 65 :: pem_lines fuel (p.drop 65) := by
  simp [pem_lines, h]

theorem pem_lines_nil (fuel : Nat) (p : List Char) (h : p.length = 0) :
    pem_lines fuel p = [] := by
  cases fuel <;> simp [pem_lines, h]
theorem pem_loop_succ (wr : List (Option Int)) (n : Nat) (f : File) (i : Nat) (p : List Char) :
    pem_loop wr (n + 1) f i p =
      if p.length = 0 then some ⟨f, i, true⟩
      else if (wr.getD i none).getD ((if p.length < 65 then p.length else 65 : Nat) : Int) ≠
          ((if p.length < 65 then p.length else 65 : Nat) : Int) then
        some ⟨file_put f ((p.take (if p.length < 65 then p.length else 65)).take
          ((wr.getD i none).getD ((if p.length < 65 then p.length else 65 : Nat) : Int)).toNat),
          i + 1, false⟩
      else if (p.drop (if p.length < 65 then p.length else 65)).length ≠ 0 then
        if (wr.getD (i + 1) none).getD ((1 : Nat) : Int) ≠ 1 then
          some ⟨file_put (file_put f ((p.take (if p.length < 65 then p.length else 65)).take
            ((wr.getD i none).getD ((if p.length < 65 then p.length else 65 : Nat) : Int)).toNat))
            (([nl].take 1).take ((wr.getD (i + 1) none).getD ((1 : Nat) : Int)).toNat), i + 2, false⟩
        else
          pem_loop wr n (file_put (file_put f ((p.take (if p.length < 65 then p.length else 65)).take
            ((wr.getD i none).getD ((if p.length < 65 then p.length else 65 : Nat) : Int)).toNat))
            (([nl].take 1).take ((wr.getD (i + 1) none).getD ((1 : Nat) : Int)).toNat)) (i + 2)
            (p.drop (if p.length < 65 then p.length else 65))
      else
        pem_loop wr n (file_put f ((p.take (if p.length < 65 then p.length else 65)).take
          ((wr.getD i none).getD ((if p.length < 65 then p.length else 65 : Nat) : Int)).toNat))
          (i + 1) (p.drop (if p.length < 65 then p.length else 65)) := rfl

theorem take_min65 (p : List Char) :
    p.take (if p.length < 65 then p.length else 65) = p.take 65 := by
  split
  · rw [List.take_length, List.take_of_length_le (by omega)]
  · rfl

theorem drop_min65 (p : List Char) :
    p.drop (if p.length < 65 then p.length else 65) = p.drop 65 := by
  split
  · rw [List.drop_length, List.drop_of_length_le (by omega)]
  · rfl

theorem length_take65 (p : List Char) :
    (p.take 65).length = (if p.length < 65 then p.length else 65) := by
  rw [List.length_take]
  split <;> omega

theorem pem_loop_spec (wr : List (Option Int)) (fuel : Nat) :
    ∀ (f : File) (i : Nat) (p : List Char), f.off ≤ f.data.length → p.length ≤ fuel →
      ∃ l w, pem_loop wr fuel f i p = some l ∧ l.f = file_put f w ∧
        w <+: [nl].intercalate (pem_lines fuel p) ∧
        (l.ok = true → w = [nl].intercalate (pem_lines fuel p)) ∧
        ((∀ j, wr.getD j none = none) → l.ok = true) := by
  induction fuel with
  | zero =>
    intro f i p hf hp
    have hp0 : p.length = 0 := by omega
    refine ⟨⟨f, i, true⟩, [], by simp [pem_loop, hp0], (file_put_nil f hf).symm, ?_, ?_,
      fun _ => rfl⟩
    · simp [pem_lines, List.intercalate]
    · intro _; simp [pem_lines, List.intercalate]
  | succ n ih =>
    intro f i p hf hp
    by_cases hp0 : p.length = 0
    · refine ⟨⟨f, i, true⟩, [], by simp [pem_loop, hp0], (file_put_nil f hf).symm, ?_, ?_,
        fun _ => rfl⟩
      · simp [pem_lines, hp0, List.intercalate]
      · intro _; simp [pem_lines, hp0, List.intercalate]
    · rw [pem_loop_succ, if_neg hp0, pem_lines_ne_nil n p hp0, take_min65, drop_min65,
        ← length_take65]
      by_cases hr : (wr.getD i none).getD (((p.take 65).length : Nat) : Int) ≠
          (((p.take 65).length : Nat) : Int)
      · rw [if_pos hr]
        refine ⟨_, _, rfl, rfl, ?_, ?_, ?_⟩
        · refine (List.take_prefix _ _).trans ?_
          cases hrest : pem_lines n (p.drop 65) with
          | nil => rw [intercalate_single]
          | cons y ys => rw [intercalate_cons_cons]; exact List.prefix_append _ _
        · intro hok; cases hok
        · intro hall
          exfalso
          apply hr
          rw [hall i]
          rfl
      · rw [if_neg hr]
        have hr' := not_not.mp hr
        rw [hr', Int.toNat_ofNat, List.take_length]
        by_cases hrest : (p.drop 65).length ≠ 0
        · rw [if_pos hrest]
          have hlines : pem_lines n (p.drop 65) =
              (p.drop 65).take 65 :: pem_lines (n - 1) ((p.drop 65).drop 65) := by
            have hn : n = (n - 1) + 1 := by
              have : (p.drop 65).length ≤ n := by rw [List.length_drop]; omega
              omega
            rw [hn]
            exact pem_lines_ne_nil (n - 1) (p.drop 65) hrest
          by_cases hr2 : (wr.getD (i + 1) none).getD ((1 : Nat) : Int) ≠ 1
          · rw [if_pos hr2]
            refine ⟨_, p.take 65 ++ ([nl].take 1).take
              ((wr.getD (i + 1) none).getD ((1 : Nat) : Int)).toNat, rfl, ?_, ?_, ?_, ?_⟩
            · exact file_put_put f _ _ hf
            · rw [hlines, intercalate_cons_cons]
              refine (List.prefix_append_right_inj _).mpr ?_
              refine (List.take_prefix _ _).trans ?_
              simp only [List.take_succ_cons, List.take_zero]
              exact List.prefix_iff_eq_append.mpr (by simp)
            · intro hok; cases hok
            · intro hall
              exfalso
              apply hr2
              rw [hall (i + 1)]
              rfl
          · rw [if_neg hr2]
            have hr2' := not_not.mp hr2
            rw [hr2']
            have hwf : (file_put (file_put f (p.take 65)) (([nl].take 1).take (1 : Int).toNat)).off ≤
                (file_put (file_put f (p.take 65)) (([nl].take 1).take (1 : Int).toNat)).data.length :=
              file_put_wf _ _ (file_put_wf _ _ hf)
            obtain ⟨l, w, hl, hlf, hpre, hok, hall⟩ := ih _ (i + 2) (p.drop 65) hwf
              (by rw [List.length_drop]; omega)
            refine ⟨l, p.take 65 ++ nl :: w, hl, ?_, ?_, ?_, hall⟩
            · rw [hlf, file_put_put f _ _ hf, file_put_put f _ _ hf]
              congr 1
              simp
            · rw [hlines, intercalate_cons_cons, ← hlines]
              exact (List.prefix_append_right_inj _).mpr ((List.prefix_cons_inj nl).mpr hpre)
            · intro h1
              rw [hok h1, hlines, intercalate_cons_cons]
        · rw [if_neg hrest]
          have hrest' : (p.drop 65).length = 0 := not_not.mp hrest
          obtain ⟨l, w, hl, hlf, hpre, hok, hall⟩ := ih (file_put f (p.take 65)) (i + 1)
            (p.drop 65) (file_put_wf _ _ hf) (by omega)
          rw [pem_lines_nil n _ hrest'] at hpre hok
          have hw : w = [] := by
            simpa [List.intercalate] using hpre
          refine ⟨l, p.take 65, hl, ?_, ?_, ?_, hall⟩
          · rw [hlf, hw, file_put_nil _ (file_put_wf _ _ hf)]
          · rw [pem_lines_nil n _ hrest', intercalate_single]
          · intro _
            rw [pem_lines_nil n _ hrest', intercalate_single]
theorem b64_encode_length (l : List Nat) :
    (b64_encode l).length = 4 * ((l.length + 2) / 3) := by
  induction l using b64_encode.induct with
  | case1 => rfl
  | case2 a => simp [b64_encode]
  | case3 a b => simp [b64_encode]
  | case4 a b c rest ih =>
    simp only [b64_encode, List.length_cons, ih]
    omega

theorem b64_fits (inp : List Nat) (cpos : Nat) (h : inp.length ≤ cpos) :
    lws_b64_encode_string inp (cpos * 4 / 3 + 16) = some (b64_encode inp) := by
  unfold lws_b64_encode_string
  rw [if_neg]
  rw [b64_encode_length]
  omega

theorem b64_value_char : ∀ i, i < 64 → b64_value (b64_char i) = some i := by
  decide

theorem b64_char_ne_pad : ∀ i, i < 64 → b64_char i ≠ '=' := by
  decide

theorem b64_char_ne_nl : ∀ i, i < 64 → b64_char i ≠ nl := by
  decide
theorem b64_roundtrip (l : List Nat) (h : ∀ b ∈ l, b < 256) :
    b64_decode (b64_encode l) = some l := by
  induction l using b64_encode.induct with
  | case1 => rfl
  | case2 a =>
    have ha : a < 256 := h a (by simp)
    simp only [b64_encode, b64_decode, and_self, if_true]
    rw [b64_value_char _ (by omega), b64_value_char _ (by omega)]
    simp only [Option.some.injEq, List.cons.injEq, and_true]
    omega
  | case3 a b =>
    have ha : a < 256 := h a (by simp)
    have hb : b < 256 := h b (by simp)
    have hne : b64_char (b % 16 * 4) ≠ '=' := b64_char_ne_pad _ (by omega)
    simp only [b64_encode, b64_decode, and_self, if_true, hne, if_false]
    rw [b64_value_char _ (by omega), b64_value_char _ (by omega), b64_value_char _ (by omega)]
    simp only [Option.some.injEq, List.cons.injEq, and_true]
    omega
  | case4 a b c rest ih =>
    have ha : a < 256 := h a (by simp)
    have hb : b < 256 := h b (by simp)
    have hc : c < 256 := h c (by simp)
    have hrest : ∀ x ∈ rest, x < 256 := fun x hx => h x (by simp [hx])
    have hne : b64_char (c % 64) ≠ '=' := b64_char_ne_pad _ (by omega)
    simp only [b64_encode, b64_decode, hne, and_false, if_false]
    rw [b64_value_char _ (by omega), b64_value_char _ (by omega), b64_value_char _ (by omega),
      b64_value_char _ (by omega), ih hrest]
    simp only [Option.some.injEq, List.cons.injEq, and_true]
    omega

theorem b64_no_nl (l : List Nat) (h : ∀ b ∈ l, b < 256) : ∀ c ∈ b64_encode l, c ≠ nl := by
  induction l using b64_encode.induct with
  | case1 => intro c hc; cases hc
  | case2 a =>
    have ha : a < 256 := h a (by simp)
    intro c hc
    simp only [b64_encode, List.mem_cons, List.mem_singleton, List.not_mem_nil, or_false] at hc
    rcases hc with rfl | rfl | rfl | rfl
    · exact b64_char_ne_nl _ (by omega)
    · exact b64_char_ne_nl _ (by omega)
    · decide
    · decide
  | case3 a b =>
    have ha : a < 256 := h a (by simp)
    have hb : b < 256 := h b (by simp)
    intro c hc
    simp only [b64_encode, List.mem_cons, List.mem_singleton, List.not_mem_nil, or_false] at hc
    rcases hc with rfl | rfl | rfl | rfl
    · exact b64_char_ne_nl _ (by omega)
    · exact b64_char_ne_nl _ (by omega)
    · exact b64_char_ne_nl _ (by omega)
    · decide
  | case4 a b c rest ih =>
    have ha : a < 256 := h a (by simp)
    have hb : b < 256 := h b (by simp)
    have hc : c < 256 := h c (by simp)
    have hrest : ∀ x ∈ rest, x < 256 := fun x hx => h x (by simp [hx])
    intro x hx
    simp only [b64_encode, List.mem_cons] at hx
    rcases hx with rfl | rfl | rfl | rfl | hx
    · exact b64_char_ne_nl _ (by omega)
    · exact b64_char_ne_nl _ (by omega)
    · exact b64_char_ne_nl _ (by omega)
    · exact b64_char_ne_nl _ (by omega)
    · exact ih hrest x hx
theorem pem_begin_take : pem_begin.take 28 = pem_begin := by decide

theorem pem_end_take : pem_end.take 27 = pem_end := by decide

theorem failed_files (vhd : per_vhost_data__lws_acme_client) (eff : List Effect) :
    (failed vhd eff).vhd.fd_updated_cert = vhd.fd_updated_cert ∧
      (failed vhd eff).vhd.fd_updated_key = vhd.fd_updated_key := by
  unfold failed lws_acme_finished
  cases h : vhd.ac <;> simp [h]

theorem finished_files (vhd : per_vhost_data__lws_acme_client) :
    (lws_acme_finished vhd).1.fd_updated_cert = vhd.fd_updated_cert ∧
      (lws_acme_finished vhd).1.fd_updated_key = vhd.fd_updated_key := by
  unfold lws_acme_finished
  cases h : vhd.ac <;> simp [h]

/-- What the certificate-install step does for every outcome of its writes. -/
theorem install_cert_spec (vhd : per_vhost_data__lws_acme_client) (ac : acme_connection)
    (o : Completion) (hwf : vhd.fd_updated_cert.off ≤ vhd.fd_updated_cert.data.length) :
    ∃ r w, install_cert vhd ac o = some r ∧ r.vhd.ac = none ∧
      w <+: pem_begin ++ pem_body (b64_encode (ac.buf.take ac.cpos)) ++ pem_end ∧
      r.vhd.fd_updated_cert.data = (file_put vhd.fd_updated_cert w).data ∧
      (r.vhd.fd_updated_key ≠ vhd.fd_updated_key →
        w = pem_begin ++ pem_body (b64_encode (ac.buf.take ac.cpos)) ++ pem_end) ∧
      (r.ret = 0 →
        w = pem_begin ++ pem_body (b64_encode (ac.buf.take ac.cpos)) ++ pem_end ∧
        r.vhd.fd_updated_cert.off = 0 ∧
        r.vhd.fd_updated_key = file_put vhd.fd_updated_key
          ((ac.alloc_privkey_pem.getD []).take ac.len_privkey_pem) ∧
        Effect.tls_cert_updated (ac.buf.take ac.cpos) (ac.alloc_privkey_pem.getD []) ∈ r.eff) ∧
      (r.ret ≠ 0 → r.ret = -1 ∧
        ∀ cert key, Effect.tls_cert_updated cert key ∉ r.eff) ∧
      (((∀ j, o.wr.getD j none = none) ∧ o.malloc_ok = true) → r.ret = 0) := by
  have hnoeff : ∀ (v : per_vhost_data__lws_acme_client) (cert : List Nat) (key : List Char),
      Effect.tls_cert_updated cert key ∉ (failed v []).eff := by
    intro v cert key
    unfold failed lws_acme_finished
    cases h1 : v.ac with
    | none => simp [h1]
    | some a => cases h2 : a.vhost <;> simp [h1, h2]
  have hnoeff1 : ∀ (v : per_vhost_data__lws_acme_client) (cert : List Nat) (key : List Char),
      Effect.tls_cert_updated cert key ∉ (failed v [Effect.fsync_updated_cert]).eff := by
    intro v cert key
    unfold failed lws_acme_finished
    cases h1 : v.ac with
    | none => simp [h1]
    | some a => cases h2 : a.vhost <;> simp [h1, h2]
  have hfr : ∀ (v : per_vhost_data__lws_acme_client) (e : List Effect),
      (failed v e).ret ≠ 0 := by
    intro v e
    rw [(failed_releases v e).2]
    decide
  unfold install_cert
  simp only [sys_write_eq, pem_begin_take, pem_end_take]
  by_cases h0 : (o.wr.getD 0 none).getD ((28 : Nat) : Int) ≠ 28
  · rw [if_pos h0]
    refine ⟨_, List.take ((o.wr.getD 0 none).getD ((28 : Nat) : Int)).toNat pem_begin, rfl,
      (failed_releases _ _).1, ?_, ?_, ?_, ?_, ?_, ?_⟩
    · rw [List.append_assoc]
      exact (List.take_prefix _ _).trans (List.prefix_append _ _)
    · rw [(failed_files _ _).1]
    · intro hk; exact absurd (failed_files _ _).2 hk
    · intro hret; exact absurd hret (hfr _ _)
    · intro _; exact ⟨rfl, hnoeff _⟩
    · intro ⟨hall, _⟩
      exfalso; apply h0; rw [hall 0]; rfl
  · rw [if_neg h0]
    have h0' := not_not.mp h0
    rw [h0']
    have e28 : List.take (Int.toNat 28) pem_begin = pem_begin := by decide
    rw [e28]
    by_cases hm : o.malloc_ok = false
    · rw [if_pos hm]
      refine ⟨_, pem_begin, rfl, (failed_releases _ _).1, ?_, ?_, ?_, ?_, ?_, ?_⟩
      · rw [List.append_assoc]
        exact List.prefix_append _ _
      · rw [(failed_files _ _).1]
      · intro hk; exact absurd (failed_files _ _).2 hk
      · intro hret; exact absurd hret (hfr _ _)
      · intro _; exact ⟨rfl, hnoeff _⟩
      · intro ⟨_, hmal⟩
        rw [hmal] at hm; cases hm
    · rw [if_neg hm]
      rw [b64_fits (ac.buf.take ac.cpos) ac.cpos (by rw [List.length_take]; omega)]
      simp only []
      obtain ⟨l, wl, hl, hlf, hpre, hok, hall⟩ := pem_loop_spec o.wr
        (b64_encode (ac.buf.take ac.cpos)).length (file_put vhd.fd_updated_cert pem_begin) 1
        (b64_encode (ac.buf.take ac.cpos)) (file_put_wf _ _ hwf) (le_refl _)
      rw [hl]
      simp only []
      by_cases hlok : l.ok = false
      · rw [if_pos hlok]
        refine ⟨_, pem_begin ++ wl, rfl, (failed_releases _ _).1, ?_, ?_, ?_, ?_, ?_, ?_⟩
        · rw [List.append_assoc]
          exact (List.prefix_append_right_inj _).mpr (hpre.trans (List.prefix_append _ _))
        · rw [(failed_files _ _).1, hlf, file_put_put _ _ _ hwf]
        · intro hk; exact absurd (failed_files _ _).2 hk
        · intro hret; exact absurd hret (hfr _ _)
        · intro _; exact ⟨rfl, hnoeff _⟩
        · intro ⟨hwr, _⟩
          rw [hall hwr] at hlok; cases hlok
      · rw [if_neg hlok]
        have hlok' : l.ok = true := by
          cases h : l.ok
          · exact absurd h hlok
          · rfl
        have hwl := hok hlok'
        have hbody : wl = pem_body (b64_encode (ac.buf.take ac.cpos)) := hwl
        have hlf2 : l.f = file_put vhd.fd_updated_cert
            (pem_begin ++ pem_body (b64_encode (ac.buf.take ac.cpos))) := by
          rw [hlf, hbody, file_put_put _ _ _ hwf]
        by_cases h2 : (o.wr.getD l.idx none).getD ((27 : Nat) : Int) ≠ 27
        · rw [if_pos h2]
          refine ⟨_, pem_begin ++ pem_body (b64_encode (ac.buf.take ac.cpos)) ++
            pem_end.take ((o.wr.getD l.idx none).getD ((27 : Nat) : Int)).toNat, rfl,
            (failed_releases _ _).1, ?_, ?_, ?_, ?_, ?_, ?_⟩
          · exact (List.prefix_append_right_inj _).mpr (List.take_prefix _ _)
          · rw [(failed_files _ _).1, hlf2, file_put_put _ _ _ hwf]
          · intro hk; exact absurd (failed_files _ _).2 hk
          · intro hret; exact absurd hret (hfr _ _)
          · intro _; exact ⟨rfl, hnoeff _⟩
          · intro ⟨hwr, _⟩
            exfalso; apply h2; rw [hwr l.idx]; rfl
        · rw [if_neg h2]
          have h2' := not_not.mp h2
          rw [h2']
          have e27 : List.take (Int.toNat 27) pem_end = pem_end := by decide
          rw [e27]
          have hcert : file_put l.f pem_end = file_put vhd.fd_updated_cert
              (pem_begin ++ pem_body (b64_encode (ac.buf.take ac.cpos)) ++ pem_end) := by
            rw [hlf2, file_put_put _ _ _ hwf]
          by_cases h3 : (o.wr.getD (l.idx + 1) none).getD (ac.len_privkey_pem : Int) ≠
              (ac.len_privkey_pem : Int)
          · rw [if_pos h3]
            refine ⟨_, pem_begin ++ pem_body (b64_encode (ac.buf.take ac.cpos)) ++ pem_end, rfl,
              (failed_releases _ _).1, List.prefix_refl _, ?_, ?_, ?_, ?_, ?_⟩
            · rw [(failed_files _ _).1, ← hcert]
              rfl
            · intro _; rfl
            · intro hret; exact absurd hret (hfr _ _)
            · intro _; exact ⟨rfl, hnoeff1 _⟩
            · intro ⟨hwr, _⟩
              exfalso; apply h3; rw [hwr (l.idx + 1)]; rfl
          · rw [if_neg h3]
            have h3' := not_not.mp h3
            rw [h3', Int.toNat_ofNat]
            refine ⟨_, pem_begin ++ pem_body (b64_encode (ac.buf.take ac.cpos)) ++ pem_end, rfl,
              finished_ac _, List.prefix_refl _, ?_, ?_, ?_, ?_, ?_⟩
            · simp only [done]
              rw [(finished_files _).1, ← hcert]
              rfl
            · intro _; rfl
            · intro _
              refine ⟨rfl, ?_, ?_, ?_⟩
              · simp only [done]
                rw [(finished_files _).1]
                rfl
              · simp only [done]
                rw [(finished_files _).2]
                simp only [List.take_take, min_self]
              · simp [done]
            · intro hret; exact absurd rfl hret
            · intro _; rfl

theorem memcpy_at_length (buf : List Nat) (off : Nat) (src : List Nat)
    (h : off + src.length ≤ buf.length) : (memcpy_at buf off src).length = buf.length := by
  simp only [memcpy_at, List.length_append, List.length_take, List.length_drop]
  omega

theorem memcpy_at_take (buf : List Nat) (off : Nat) (src : List Nat)
    (h : off + src.length ≤ buf.length) :
    (memcpy_at buf off src).take (off + src.length) = buf.take off ++ src := by
  unfold memcpy_at
  have h1 : (buf.take off ++ src).length = off + src.length := by
    simp only [List.length_append, List.length_take]
    omega
  rw [← h1, List.take_left']
  rfl

theorem pem_lines_flatten (fuel : Nat) :
    ∀ p : List Char, p.length ≤ fuel → (pem_lines fuel p).flatten = p := by
  induction fuel with
  | zero =>
    intro p hp
    have : p = [] := List.length_eq_zero.mp (by omega)
    subst this
    rfl
  | succ n ih =>
    intro p hp
    by_cases hp0 : p.length = 0
    · have : p = [] := List.length_eq_zero.mp hp0
      subst this
      rfl
    · rw [pem_lines_ne_nil n p hp0, List.flatten_cons,
        ih (p.drop 65) (by rw [List.length_drop]; omega), List.take_append_drop]

theorem pem_lines_mem (fuel : Nat) :
    ∀ (p l : List Char), l ∈ pem_lines fuel p → l ≠ [] ∧ l.length ≤ 65 ∧ ∀ c ∈ l, c ∈ p := by
  induction fuel with
  | zero => intro p l hl; simp [pem_lines] at hl
  | succ n ih =>
    intro p l hl
    by_cases hp0 : p.length = 0
    · simp [pem_lines, hp0] at hl
    · rw [pem_lines_ne_nil n p hp0, List.mem_cons] at hl
      rcases hl with rfl | hl
      · refine ⟨?_, ?_, fun c hc => List.mem_of_mem_take hc⟩
        · intro he
          have := congrArg List.length he
          rw [List.length_take, List.length_nil] at this
          omega
        · rw [List.length_take]; omega
      · obtain ⟨h1, h2, h3⟩ := ih (p.drop 65) l hl
        exact ⟨h1, h2, fun c hc => List.mem_of_mem_drop (h3 c hc)⟩

theorem filter_intercalate (L : List (List Char)) (h : ∀ l ∈ L, ∀ c ∈ l, c ≠ nl) :
    ([nl].intercalate L).filter (fun c => decide (c ≠ nl)) = L.flatten := by
  induction L with
  | nil => simp [List.intercalate]
  | cons x xs ih =>
    have hx : x.filter (fun c => decide (c ≠ nl)) = x := by
      rw [List.filter_eq_self]
      intro c hc
      simpa using h x (by simp) c hc
    cases xs with
    | nil => rw [intercalate_single, hx]; simp
    | cons y ys =>
      rw [intercalate_cons_cons, List.filter_append, hx, List.filter_cons_of_neg (by simp),
        ih (fun l hl => h l (by simp [hl]))]
      simp

theorem established_cert_response (X : Ext) (vhd : per_vhost_data__lws_acme_client)
    (ac : acme_connection) (nonce location : Option (List Char)) (h : vhd.ac = some ac)
    (hs : ac.state = ACME_STATE_POLLING_CSR) (hn : lws_hdr_total_length nonce < 64) :
    ∃ r ac1, callback_acme_client X vhd
        (LWS_CALLBACK_ESTABLISHED_CLIENT_HTTP 200 nonce location) = some r ∧
      r.vhd.ac = some ac1 ∧ ac1.state = ACME_STATE_POLLING_CSR ∧ ac1.resp = 200 ∧
      ac1.cpos = 0 ∧ ac1.buf = ac.buf ∧
      ac1.alloc_privkey_pem = ac.alloc_privkey_pem ∧ ac1.len_privkey_pem = ac.len_privkey_pem ∧
      r.vhd.fd_updated_cert = vhd.fd_updated_cert ∧ r.vhd.fd_updated_key = vhd.fd_updated_key := by
  have hcopy : ¬ (lws_hdr_copy ac.replay_nonce 64 nonce).1 < 0 := by
    cases nonce with
    | none => simp [lws_hdr_copy]
    | some n =>
      simp only [lws_hdr_total_length] at hn
      simp only [lws_hdr_copy]
      rw [if_neg (by omega)]
      simp
  simp only [callback_acme_client, h, established_client_http]
  rw [if_neg (fun hh => hcopy hh.2)]
  by_cases h0 : lws_hdr_total_length nonce ≠ 0
  · rw [if_pos h0]
    simp only [established_switch, hs]
    rw [if_pos (by decide)]
    exact ⟨_, _, rfl, rfl, rfl, rfl, rfl, rfl, rfl, rfl, rfl, rfl⟩
  · rw [if_neg h0]
    simp only [established_switch, hs]
    rw [if_pos (by decide)]
    exact ⟨_, _, rfl, rfl, rfl, rfl, rfl, rfl, rfl, rfl, rfl, rfl⟩

theorem read_chunks (X : Ext) (chunks : List (List Nat)) :
    ∀ (vhd : per_vhost_data__lws_acme_client) (ac : acme_connection), vhd.ac = some ac →
      ac.state = ACME_STATE_POLLING_CSR → ac.buf.length = 4096 →
      ac.cpos + chunks.flatten.length ≤ 4096 →
      ∃ v ac1, run X vhd (body_chunks chunks) = some v ∧ v.ac = some ac1 ∧
        ac1.state = ACME_STATE_POLLING_CSR ∧ ac1.resp = ac.resp ∧
        ac1.cpos = ac.cpos + chunks.flatten.length ∧
        ac1.buf.take ac1.cpos = ac.buf.take ac.cpos ++ chunks.flatten ∧
        ac1.buf.length = 4096 ∧
        ac1.alloc_privkey_pem = ac.alloc_privkey_pem ∧
        ac1.len_privkey_pem = ac.len_privkey_pem ∧
        v.fd_updated_cert = vhd.fd_updated_cert ∧ v.fd_updated_key = vhd.fd_updated_key := by
  induction chunks with
  | nil =>
    intro vhd ac h hs hb _
    exact ⟨vhd, ac, rfl, h, hs, rfl, by simp, by simp, hb, rfl, rfl, rfl, rfl⟩
  | cons c cs ih =>
    intro vhd ac h hs hb hlen
    rw [List.flatten_cons, List.length_append] at hlen
    have hfit : ¬ ac.cpos + c.length > 4096 := by omega
    have hstep : callback_acme_client X vhd (LWS_CALLBACK_RECEIVE_CLIENT_HTTP_READ c [] 0) =
        some (done { vhd with ac := some { ac with buf := memcpy_at ac.buf ac.cpos c, cpos := ac.cpos + c.length } } 0 []) := by
      simp only [callback_acme_client, h, receive_client_http_read, hs]
      rw [if_neg hfit]
    obtain ⟨v, ac1, hv, h1, hs1, hr1, hc1, hbuf1, hlen1, hp1, hl1, hf1, hk1⟩ :=
      ih (done { vhd with ac := some { ac with buf := memcpy_at ac.buf ac.cpos c, cpos := ac.cpos + c.length } } 0 []).vhd
        { ac with buf := memcpy_at ac.buf ac.cpos c, cpos := ac.cpos + c.length } rfl hs
        (by simp only []; rw [memcpy_at_length _ _ _ (by omega)]; exact hb)
        (by simp only []; omega)
    refine ⟨v, ac1, ?_, h1, hs1, hr1, ?_, ?_, hlen1, hp1, hl1, hf1, hk1⟩
    · simp only [body_chunks, List.map_cons, run, hstep]
      exact hv
    · rw [hc1, List.flatten_cons, List.length_append]
      simp only []
      omega
    · rw [hbuf1]
      simp only []
      rw [memcpy_at_take _ _ _ (by omega), List.flatten_cons, List.append_assoc]


/-- The completion of the final certificate response for every outcome of the writes. -/
theorem install_step (X : Ext) (vhd : per_vhost_data__lws_acme_client) (ac : acme_connection)
    (o : Completion) (h : vhd.ac = some ac) (hs : ac.state = ACME_STATE_POLLING_CSR)
    (hr : ac.resp = 200)
    (hwf : vhd.fd_updated_cert.off ≤ vhd.fd_updated_cert.data.length) :
    ∃ r w, callback_acme_client X vhd (LWS_CALLBACK_COMPLETED_CLIENT_HTTP o) = some r ∧
      r.vhd.ac = none ∧
      w <+: pem_begin ++ pem_body (b64_encode (ac.buf.take ac.cpos)) ++ pem_end ∧
      r.vhd.fd_updated_cert.data = (file_put vhd.fd_updated_cert w).data ∧
      (r.vhd.fd_updated_key ≠ vhd.fd_updated_key →
        w = pem_begin ++ pem_body (b64_encode (ac.buf.take ac.cpos)) ++ pem_end) ∧
      (r.ret = 0 →
        w = pem_begin ++ pem_body (b64_encode (ac.buf.take ac.cpos)) ++ pem_end ∧
        r.vhd.fd_updated_cert.off = 0 ∧
        r.vhd.fd_updated_key = file_put vhd.fd_updated_key
          ((ac.alloc_privkey_pem.getD []).take ac.len_privkey_pem) ∧
        Effect.tls_cert_updated (ac.buf.take ac.cpos) (ac.alloc_privkey_pem.getD []) ∈ r.eff) ∧
      (r.ret ≠ 0 → r.ret = -1 ∧
        ∀ cert key, Effect.tls_cert_updated cert key ∉ r.eff) ∧
      (((∀ j, o.wr.getD j none = none) ∧ o.malloc_ok = true) → r.ret = 0) := by
  rw [callback_completed X vhd ac o h]
  have hc : completed_client_http X vhd ac o = install_cert vhd ac o := by
    simp [completed_client_http, hs, hr]
  rw [hc]
  exact install_cert_spec vhd ac o hwf

/-- C8, the code at the failing input: for a certificate of 49 bytes, whose base64 text
has 68 characters, the lines written to the certificate update file have 27, 65, 3 and
25 characters: the first line of base64 text is 65 characters long, not 64. -/
theorem pem_line_has_65_chars :
    (run ext_sample vhd_csr (cert_response (List.range 49) completion_ok)).map
      (fun v => (v.fd_updated_cert.data.splitOn nl).map List.length) =
      some [27, 65, 3, 25, 0] := by
  decide

/-- The certificate file after the final response was received in pieces and every
write was complete. -/
theorem cert_file_after_response (X : Ext) (vhd : per_vhost_data__lws_acme_client)
    (ac : acme_connection) (nonce location : Option (List Char)) (chunks : List (List Nat))
    (o : Completion) (h : vhd.ac = some ac) (hs : ac.state = ACME_STATE_POLLING_CSR)
    (hbuf : ac.buf.length = 4096)
    (hwf : vhd.fd_updated_cert.off ≤ vhd.fd_updated_cert.data.length)
    (hn : lws_hdr_total_length nonce < 64) (hlen : chunks.flatten.length ≤ 4096)
    (hwr : ∀ j, o.wr.getD j none = none) (hm : o.malloc_ok = true) :
    ∃ v, run X vhd (LWS_CALLBACK_ESTABLISHED_CLIENT_HTTP 200 nonce location ::
        (body_chunks chunks ++ [LWS_CALLBACK_COMPLETED_CLIENT_HTTP o])) = some v ∧
      v.fd_updated_cert.data = (file_put vhd.fd_updated_cert
        (pem_begin ++ pem_body (b64_encode chunks.flatten) ++ pem_end)).data := by
  obtain ⟨r1, ac1, hr1, h1, hs1, hresp1, hc1, hb1, -, -, hf1, -⟩ :=
    established_cert_response X vhd ac nonce location h hs hn
  obtain ⟨v2, ac2, hv2, h2, hs2, hresp2, hc2, hb2, -, -, -, hf2, -⟩ :=
    read_chunks X chunks r1.vhd ac1 h1 hs1 (by rw [hb1]; exact hbuf) (by rw [hc1]; omega)
  have hder : ac2.buf.take ac2.cpos = chunks.flatten := by
    rw [hb2, hc1]
    simp
  obtain ⟨r3, w, hr3, -, -, hdata, -, hret, -, hall⟩ :=
    install_step X v2 ac2 o h2 hs2 (by rw [hresp2, hresp1]) (by rw [hf2, hf1]; exact hwf)
  obtain ⟨hw, -⟩ := hret (hall ⟨hwr, hm⟩)
  refine ⟨r3.vhd, ?_, ?_⟩
  · simp only [run, hr1]
    rw [run_append, hv2]
    simp only [Option.some_bind, run, hr3]
  · rw [hdata, hw, hder, hf2, hf1]

/-- The certificate file after the final response, its lines and the way back from them
to the received bytes. -/
theorem cert_file_lines (X : Ext) (vhd : per_vhost_data__lws_acme_client)
    (ac : acme_connection) (nonce location : Option (List Char)) (chunks : List (List Nat))
    (o : Completion) (h : vhd.ac = some ac) (hs : ac.state = ACME_STATE_POLLING_CSR)
    (hbuf : ac.buf.length = 4096)
    (hwf : vhd.fd_updated_cert.off ≤ vhd.fd_updated_cert.data.length)
    (hn : lws_hdr_total_length nonce < 64) (hlen : chunks.flatten.length ≤ 4096)
    (hbytes : ∀ b ∈ chunks.flatten, b < 256)
    (hwr : ∀ j, o.wr.getD j none = none) (hm : o.malloc_ok = true) :
    (∃ v, run X vhd (LWS_CALLBACK_ESTABLISHED_CLIENT_HTTP 200 nonce location ::
        (body_chunks chunks ++ [LWS_CALLBACK_COMPLETED_CLIENT_HTTP o])) = some v ∧
      v.fd_updated_cert.data = (file_put vhd.fd_updated_cert
        (pem_begin ++
          [nl].intercalate (pem_lines (b64_encode chunks.flatten).length
            (b64_encode chunks.flatten)) ++ pem_end)).data) ∧
    (pem_lines (b64_encode chunks.flatten).length (b64_encode chunks.flatten)).flatten =
      b64_encode chunks.flatten ∧
    (∀ l ∈ pem_lines (b64_encode chunks.flatten).length (b64_encode chunks.flatten),
      l ≠ [] ∧ nl ∉ l) ∧
    b64_decode (([nl].intercalate (pem_lines (b64_encode chunks.flatten).length
      (b64_encode chunks.flatten))).filter fun c => decide (c ≠ nl)) = some chunks.flatten ∧
    ∀ (wr : List (Option Int)) (f : File) (i : Nat) (p : List Char),
      f.off ≤ f.data.length → ∃ l, pem_loop wr p.length f i p = some l := by
  have hnonl : ∀ l ∈ pem_lines (b64_encode chunks.flatten).length (b64_encode chunks.flatten),
      ∀ c ∈ l, c ≠ nl := by
    intro l hl c hc
    exact b64_no_nl chunks.flatten hbytes c ((pem_lines_mem _ _ l hl).2.2 c hc)
  refine ⟨cert_file_after_response X vhd ac nonce location chunks o h hs hbuf hwf hn hlen hwr hm,
    pem_lines_flatten _ _ (le_refl _), ?_, ?_, ?_⟩
  · intro l hl
    exact ⟨(pem_lines_mem _ _ l hl).1, fun hmem => hnonl l hl nl hmem rfl⟩
  · rw [filter_intercalate _ hnonl, pem_lines_flatten _ _ (le_refl _)]
    exact b64_roundtrip chunks.flatten hbytes
  · intro wr f i p hf
    obtain ⟨l, -, hl, -⟩ := pem_loop_spec wr p.length f i p hf (le_refl _)
    exact ⟨l, hl⟩

/-- C9, amended: when the final response with HTTP status 200, whose replay-nonce header
(if there is one) is shorter than 64 bytes, arrives in pieces of at most 4096 bytes in
total, the allocation of the base64 buffer succeeds and every write is complete, the
bytes written to the certificate update file are "-----BEGIN CERTIFICATE-----\n", the
base64 text of the concatenated pieces cut into lines that are separated by single line
breaks, and "\n-----END CERTIFICATE-----\n"; the lines are not empty, hold no line break
and concatenate to the base64 text, and the text without its line breaks decodes to the
concatenated pieces; the loop that writes the lines ends for every text. -/
theorem cert_file_is_pem (X : Ext) (vhd : per_vhost_data__lws_acme_client)
    (ac : acme_connection) (nonce location : Option (List Char)) (chunks : List (List Nat))
    (o : Completion) (h : vhd.ac = some ac) (hs : ac.state = ACME_STATE_POLLING_CSR)
    (hbuf : ac.buf.length = 4096)
    (hwf : vhd.fd_updated_cert.off ≤ vhd.fd_updated_cert.data.length)
    (hn : lws_hdr_total_length nonce < 64) (hlen : chunks.flatten.length ≤ 4096)
    (hbytes : ∀ b ∈ chunks.flatten, b < 256)
    (hwr : ∀ j, o.wr.getD j none = none) (hm : o.malloc_ok = true) :
    (∃ v, run X vhd (LWS_CALLBACK_ESTABLISHED_CLIENT_HTTP 200 nonce location ::
        (body_chunks chunks ++ [LWS_CALLBACK_COMPLETED_CLIENT_HTTP o])) = some v ∧
      v.fd_updated_cert.data = (file_put vhd.fd_updated_cert
        ("-----BEGIN CERTIFICATE-----\n".toList ++
          ['\n'].intercalate (pem_lines (b64_encode chunks.flatten).length
            (b64_encode chunks.flatten)) ++ "\n-----END CERTIFICATE-----\n".toList)).data) ∧
    (pem_lines (b64_encode chunks.flatten).length (b64_encode chunks.flatten)).flatten =
      b64_encode chunks.flatten ∧
    (∀ l ∈ pem_lines (b64_encode chunks.flatten).length (b64_encode chunks.flatten),
      l ≠ [] ∧ '\n' ∉ l) ∧
    b64_decode ((['\n'].intercalate (pem_lines (b64_encode chunks.flatten).length
      (b64_encode chunks.flatten))).filter fun c => decide (c ≠ '\n')) = some chunks.flatten ∧
    ∀ (wr : List (Option Int)) (f : File) (i : Nat) (p : List Char),
      f.off ≤ f.data.length → ∃ l, pem_loop wr p.length f i p = some l :=
  cert_file_lines X vhd ac nonce location chunks o h hs hbuf hwf hn hlen hbytes hwr hm

/-- Witness for C9: the sample session after its certificate request, the certificate
delivered in two pieces and every write complete; the certificate update file then
holds "-----BEGIN CERTIFICATE-----\nMIIB\n-----END CERTIFICATE-----\n". -/
theorem cert_file_is_pem_witness :
    ((∃ v, run ext_sample vhd_csr
        (LWS_CALLBACK_ESTABLISHED_CLIENT_HTTP 200 (some "nonce".toList) none ::
        (body_chunks chunks_sample ++ [LWS_CALLBACK_COMPLETED_CLIENT_HTTP completion_ok])) = some v ∧
      v.fd_updated_cert.data = (file_put vhd_csr.fd_updated_cert
        ("-----BEGIN CERTIFICATE-----\n".toList ++
          ['\n'].intercalate (pem_lines (b64_encode chunks_sample.flatten).length
            (b64_encode chunks_sample.flatten)) ++ "\n-----END CERTIFICATE-----\n".toList)).data) ∧
    (pem_lines (b64_encode chunks_sample.flatten).length (b64_encode chunks_sample.flatten)).flatten =
      b64_encode chunks_sample.flatten ∧
    (∀ l ∈ pem_lines (b64_encode chunks_sample.flatten).length (b64_encode chunks_sample.flatten),
      l ≠ [] ∧ '\n' ∉ l) ∧
    b64_decode ((['\n'].intercalate (pem_lines (b64_encode chunks_sample.flatten).length
      (b64_encode chunks_sample.flatten))).filter fun c => decide (c ≠ '\n')) =
      some chunks_sample.flatten ∧
    ∀ (wr : List (Option Int)) (f : File) (i : Nat) (p : List Char),
      f.off ≤ f.data.length → ∃ l, pem_loop wr p.length f i p = some l) ∧
    (run ext_sample vhd_csr
        (LWS_CALLBACK_ESTABLISHED_CLIENT_HTTP 200 (some "nonce".toList) none ::
        (body_chunks chunks_sample ++ [LWS_CALLBACK_COMPLETED_CLIENT_HTTP completion_ok]))).map
      (fun v => v.fd_updated_cert.data) =
      some "-----BEGIN CERTIFICATE-----\nMIIB\n-----END CERTIFICATE-----\n".toList :=
  ⟨cert_file_is_pem ext_sample vhd_csr ac_csr (some "nonce".toList) none chunks_sample
    completion_ok rfl rfl (List.length_replicate 4096 0) (by decide) (by decide)
    (by decide) (by decide) (fun j => by cases j <;> rfl) rfl, by decide⟩

/-- C9, as stated, fails: the sample session receives its certificate of three bytes in
a final response with HTTP status 200 and the allocation of the base64 buffer fails.
The only write made, of the BEGIN line, is complete, so no write fails; the callback
returns -1 and the certificate update file holds the BEGIN line only, not the base64
text and the END line. -/
theorem allocation_failure_leaves_begin_line :
    (run ext_sample vhd_csr
        [LWS_CALLBACK_ESTABLISHED_CLIENT_HTTP 200 (some "nonce".toList) none,
         LWS_CALLBACK_RECEIVE_CLIENT_HTTP_READ [48, 130, 1] [] 0]).bind
      (fun v => (callback_acme_client ext_sample v
        (LWS_CALLBACK_COMPLETED_CLIENT_HTTP completion_no_buffer)).map
          fun r => (r.ret, r.vhd.fd_updated_cert.data, completion_no_buffer.wr)) =
      some (-1, "-----BEGIN CERTIFICATE-----\n".toList, []) := by
  decide

/-- C10, as stated, fails: when every write to the certificate update file is complete
and the write of the key fails, the session fails (return value -1, session released)
with the complete new certificate left in the certificate update file while the key
update file is unchanged: neither both files are complete nor both are unmodified. -/
theorem key_write_failure_leaves_cert :
    (callback_acme_client ext_sample vhd_cert_received
        (LWS_CALLBACK_COMPLETED_CLIENT_HTTP completion_key_write_fails)).map
      (fun r => (r.ret, r.vhd.ac, r.vhd.fd_updated_cert.data,
        decide (r.vhd.fd_updated_cert = vhd_cert_received.fd_updated_cert),
        decide (r.vhd.fd_updated_key = vhd_cert_received.fd_updated_key),
        decide (r.vhd.fd_updated_key.data = "KEY".toList))) =
      some (-1, none, "-----BEGIN CERTIFICATE-----\nMIIB\n-----END CERTIFICATE-----\n".toList,
        false, true, false) := by
  decide

theorem writes_complete_append (wr : List (Option Int)) (a b : List Nat) :
    ∀ i, writes_complete wr i (a ++ b) =
      (writes_complete wr i a && writes_complete wr (i + a.length) b) := by
  induction a with
  | nil => intro i; simp [writes_complete]
  | cons c cs ih =>
    intro i
    show (_ && writes_complete wr (i + 1) (cs ++ b)) = _
    rw [ih]
    simp only [writes_complete, List.length_cons, Bool.and_assoc]
    rw [show i + 1 + cs.length = i + (cs.length + 1) by omega]

theorem loop_counts_succ (n : Nat) (p : List Char) :
    loop_counts (n + 1) p =
      if p.length = 0 then []
      else if (p.drop (if p.length < 65 then p.length else 65)).length ≠ 0 then
        (if p.length < 65 then p.length else 65) :: 1 ::
          loop_counts n (p.drop (if p.length < 65 then p.length else 65))
      else (if p.length < 65 then p.length else 65) ::
        loop_counts n (p.drop (if p.length < 65 then p.length else 65)) := rfl

theorem writes_complete_cons (wr : List (Option Int)) (i c : Nat) (cs : List Nat) :
    writes_complete wr i (c :: cs) =
      (decide ((wr.getD i none).getD (c : Int) = (c : Int)) && writes_complete wr (i + 1) cs) :=
  rfl

theorem pem_loop_ok (wr : List (Option Int)) (fuel : Nat) :
    ∀ (f : File) (i : Nat) (p : List Char) (l : pem_loop_result),
      pem_loop wr fuel f i p = some l →
        l.ok = writes_complete wr i (loop_counts fuel p) ∧
        (l.ok = true → l.idx = i + (loop_counts fuel p).length) := by
  induction fuel with
  | zero =>
    intro f i p l h
    by_cases hp0 : p.length = 0
    · simp [pem_loop, hp0] at h
      subst h
      simp [loop_counts, writes_complete]
    · simp [pem_loop, hp0] at h
  | succ n ih =>
    intro f i p l h
    rw [pem_loop_succ] at h
    rw [loop_counts_succ]
    by_cases hp0 : p.length = 0
    · rw [if_pos hp0] at h
      cases h
      rw [if_pos hp0]
      exact ⟨rfl, fun _ => rfl⟩
    · rw [if_neg hp0] at h
      rw [if_neg hp0]
      generalize (if p.length < 65 then p.length else 65) = m at h ⊢
      by_cases hr : (wr.getD i none).getD (m : Int) ≠ (m : Int)
      · rw [if_pos hr] at h
        cases h
        by_cases hrest : (p.drop m).length ≠ 0
        · rw [if_pos hrest, writes_complete_cons, decide_eq_false hr]
          exact ⟨rfl, fun h => by cases h⟩
        · rw [if_neg hrest, writes_complete_cons, decide_eq_false hr]
          exact ⟨rfl, fun h => by cases h⟩
      · rw [if_neg hr] at h
        have hr' := not_not.mp hr
        by_cases hrest : (p.drop m).length ≠ 0
        · rw [if_pos hrest] at h
          rw [if_pos hrest, writes_complete_cons, decide_eq_true hr', writes_complete_cons]
          by_cases hr2 : (wr.getD (i + 1) none).getD ((1 : Nat) : Int) ≠ 1
          · rw [if_pos hr2] at h
            cases h
            have hd : decide ((wr.getD (i + 1) none).getD ((1 : Nat) : Int) = ((1 : Nat) : Int)) =
                false := decide_eq_false hr2
            rw [hd]
            exact ⟨rfl, fun h => by cases h⟩
          · rw [if_neg hr2] at h
            have hr2' := not_not.mp hr2
            obtain ⟨h1, h2⟩ := ih _ _ _ _ h
            have hd : decide ((wr.getD (i + 1) none).getD ((1 : Nat) : Int) = ((1 : Nat) : Int)) =
                true := decide_eq_true hr2'
            rw [hd]
            refine ⟨?_, ?_⟩
            · rw [h1]; rfl
            · intro hok; rw [h2 hok]; simp only [List.length_cons]; omega
        · rw [if_neg hrest] at h
          rw [if_neg hrest, writes_complete_cons, decide_eq_true hr']
          obtain ⟨h1, h2⟩ := ih _ _ _ _ h
          refine ⟨?_, ?_⟩
          · rw [h1]; rfl
          · intro hok; rw [h2 hok]; simp only [List.length_cons]; omega


theorem finished_quiet (v : per_vhost_data__lws_acme_client) :
    (lws_acme_finished v).2.any is_cert_updated = false := by
  unfold lws_acme_finished
  cases h1 : v.ac with
  | none => simp [h1]
  | some a => cases h2 : a.vhost <;> simp [h1, h2, is_cert_updated]

theorem failed_quiet (v : per_vhost_data__lws_acme_client) (eff : List Effect)
    (h : eff.any is_cert_updated = false) : (failed v eff).eff.any is_cert_updated = false := by
  show (eff ++ (lws_acme_finished v).2).any is_cert_updated = false
  rw [List.any_append, h, finished_quiet]
  rfl

theorem install_cert_eff (vhd : per_vhost_data__lws_acme_client) (ac : acme_connection)
    (o : Completion) (r : Result) (hc : install_cert vhd ac o = some r) :
    (r.ret = -1 ∧ r.eff.any is_cert_updated = false) ∨
      (r.ret = 0 ∧ ∃ tail, r.eff = Effect.fsync_updated_cert :: Effect.fsync_updated_key ::
        Effect.tls_cert_updated (ac.buf.take ac.cpos) (ac.alloc_privkey_pem.getD []) :: tail ∧
        tail.any is_cert_updated = false) := by
  have hf : ∀ (v : per_vhost_data__lws_acme_client) (eff : List Effect),
      eff.any is_cert_updated = false →
      (failed v eff).ret = -1 ∧ (failed v eff).eff.any is_cert_updated = false :=
    fun v eff h => ⟨rfl, failed_quiet v eff h⟩
  unfold install_cert at hc
  simp only [] at hc
  repeat' split at hc
  all_goals first
    | (cases hc; exact Or.inl (hf _ _ rfl))
    | (cases hc; exact Or.inr ⟨rfl, _, rfl, finished_quiet _⟩)
    | cases hc

theorem install_cert_ret (vhd : per_vhost_data__lws_acme_client) (ac : acme_connection)
    (o : Completion) (r : Result) (hc : install_cert vhd ac o = some r) :
    r.ret = 0 ↔ (o.malloc_ok = true ∧ writes_complete o.wr 0 (install_writes ac) = true) := by
  have hfr : ∀ (v : per_vhost_data__lws_acme_client) (e : List Effect),
      (failed v e).ret ≠ 0 := by
    intro v e
    rw [(failed_releases v e).2]
    decide
  unfold install_writes
  rw [List.cons_append, writes_complete_cons, writes_complete_append]
  unfold install_cert at hc
  simp only [sys_write_eq] at hc
  by_cases h0 : (o.wr.getD 0 none).getD ((28 : Nat) : Int) ≠ 28
  · rw [if_pos h0] at hc
    cases hc
    have hd : decide ((o.wr.getD 0 none).getD ((28 : Nat) : Int) = ((28 : Nat) : Int)) = false :=
      decide_eq_false h0
    rw [hd]
    exact ⟨fun h => absurd h (hfr _ _), fun h => by cases h.2⟩
  · rw [if_neg h0] at hc
    have hd : decide ((o.wr.getD 0 none).getD ((28 : Nat) : Int) = ((28 : Nat) : Int)) = true :=
      decide_eq_true (not_not.mp h0)
    rw [hd]
    by_cases hm : o.malloc_ok = false
    · rw [if_pos hm] at hc
      cases hc
      exact ⟨fun h => absurd h (hfr _ _), fun h => by rw [hm] at h; cases h.1⟩
    · rw [if_neg hm] at hc
      have hm' : o.malloc_ok = true := by
        cases h : o.malloc_ok
        · exact absurd h hm
        · rfl
      rw [b64_fits (ac.buf.take ac.cpos) ac.cpos (by rw [List.length_take]; omega)] at hc
      simp only [] at hc
      cases hl : pem_loop o.wr (b64_encode (ac.buf.take ac.cpos)).length
          (file_put vhd.fd_updated_cert (List.take
            ((o.wr.getD 0 none).getD ((28 : Nat) : Int)).toNat (List.take 28 pem_begin))) 1
          (b64_encode (ac.buf.take ac.cpos)) with
      | none => rw [hl] at hc; cases hc
      | some l =>
        rw [hl] at hc
        simp only [] at hc
        obtain ⟨hok, hidx⟩ := pem_loop_ok _ _ _ _ _ _ hl
        rw [← hok]
        by_cases hlok : l.ok = false
        · rw [if_pos hlok] at hc
          cases hc
          rw [hlok]
          exact ⟨fun h => absurd h (hfr _ _), fun h => by cases h.2⟩
        · rw [if_neg hlok] at hc
          have hlok' : l.ok = true := by
            cases h : l.ok
            · exact absurd h hlok
            · rfl
          rw [hlok', ← hidx hlok', writes_complete_cons, writes_complete_cons]
          by_cases h2 : (o.wr.getD l.idx none).getD ((27 : Nat) : Int) ≠ 27
          · rw [if_pos h2] at hc
            cases hc
            have hd2 : decide ((o.wr.getD l.idx none).getD ((27 : Nat) : Int) =
                ((27 : Nat) : Int)) = false := decide_eq_false h2
            rw [hd2]
            exact ⟨fun h => absurd h (hfr _ _), fun h => by cases h.2⟩
          · rw [if_neg h2] at hc
            have hd2 : decide ((o.wr.getD l.idx none).getD ((27 : Nat) : Int) =
                ((27 : Nat) : Int)) = true := decide_eq_true (not_not.mp h2)
            rw [hd2]
            by_cases h3 : (o.wr.getD (l.idx + 1) none).getD (ac.len_privkey_pem : Int) ≠
                (ac.len_privkey_pem : Int)
            · rw [if_pos h3] at hc
              cases hc
              rw [decide_eq_false h3]
              exact ⟨fun h => absurd h (hfr _ _), fun h => by cases h.2⟩
            · rw [if_neg h3] at hc
              cases hc
              rw [decide_eq_true (not_not.mp h3)]
              exact ⟨fun _ => ⟨hm', rfl⟩, fun _ => rfl⟩


theorem aging_quiet (vhd : per_vhost_data__lws_acme_client) (len : Int) (in_vhost : Nat)
    (name iface : List Char) (port : Int) (cwsi : Bool) :
    (vhost_cert_aging vhd len in_vhost name iface port cwsi).eff.any is_cert_updated = false := by
  unfold vhost_cert_aging
  simp only []
  repeat' split
  all_goals rfl

theorem established_quiet (vhd : per_vhost_data__lws_acme_client) (ac : acme_connection)
    (resp : Int) (nonce location : Option (List Char)) (r : Result)
    (hc : established_client_http vhd ac resp nonce location = some r) :
    r.eff.any is_cert_updated = false := by
  have hsw : ∀ (a : acme_connection) (r : Result), established_switch vhd a location = some r →
      r.eff.any is_cert_updated = false := by
    intro a r h
    unfold established_switch at h
    cases hst : a.state <;> simp only [hst] at h
    all_goals first
      | (cases hl : lejp_construct lejp_user.dir vhd a <;> rw [hl] at h <;> cases h; rfl)
      | (cases hl : lejp_construct lejp_user.authz vhd a <;> rw [hl] at h <;> cases h; rfl)
      | (cases hl : lejp_construct lejp_user.chac vhd a <;> rw [hl] at h <;> cases h; rfl)
      | (cases h; rfl)
      | (repeat' split at h
         all_goals first
           | (cases h; rfl)
           | (cases h; exact failed_quiet _ _ rfl))
  unfold established_client_http at hc
  repeat' split at hc
  all_goals first
    | (cases hc; rfl)
    | exact hsw _ _ hc

theorem pkt_add_hdrs_quiet (X : Ext) (vhd : per_vhost_data__lws_acme_client)
    (ac : acme_connection) (payload : List Char) (o : Handshake) :
    (pkt_add_hdrs X vhd ac payload o).eff.any is_cert_updated = false := by
  unfold pkt_add_hdrs
  simp only []
  repeat' split
  all_goals first
    | rfl
    | exact failed_quiet _ _ rfl

theorem append_quiet (X : Ext) (vhd : per_vhost_data__lws_acme_client)
    (ac : acme_connection) (o : Handshake) :
    (client_append_handshake_header X vhd ac o).eff.any is_cert_updated = false := by
  unfold client_append_handshake_header
  simp only []
  repeat' split
  all_goals first
    | rfl
    | exact failed_quiet _ _ rfl
    | exact pkt_add_hdrs_quiet _ _ _ _ _

theorem writeable_quiet (X : Ext) (vhd : per_vhost_data__lws_acme_client)
    (ac : acme_connection) (wrote : Int) :
    (client_http_writeable X vhd ac wrote).eff.any is_cert_updated = false := by
  unfold client_http_writeable
  simp only []
  repeat' split
  all_goals rfl

theorem read_quiet (vhd : per_vhost_data__lws_acme_client) (ac : acme_connection)
    (inp : List Nat) (cbs : List lejp_event) (pret : Int) (r : Result)
    (hc : receive_client_http_read vhd ac inp cbs pret = some r) :
    r.eff.any is_cert_updated = false := by
  unfold receive_client_http_read at hc
  repeat' split at hc
  all_goals first
    | (cases hc; rfl)
    | (cases hc; exact failed_quiet _ _ rfl)
    | cases hc

theorem poll_again_quiet (vhd : per_vhost_data__lws_acme_client) (ac : acme_connection)
    (o : Completion) : (poll_again vhd ac o).eff.any is_cert_updated = false := by
  unfold poll_again
  simp only []
  repeat' split
  all_goals first
    | rfl
    | exact failed_quiet _ _ rfl

theorem new_auth_quiet (X : Ext) (vhd : per_vhost_data__lws_acme_client) (ac : acme_connection)
    (o : Completion) (r : Result) (hc : completed_new_auth X vhd ac o = some r) :
    r.eff.any is_cert_updated = false := by
  unfold completed_new_auth at hc
  simp only [] at hc
  repeat' split at hc
  all_goals first
    | (cases hc; rfl)
    | (cases hc; exact failed_quiet _ _ rfl)
    | cases hc

theorem completed_quiet (X : Ext) (vhd : per_vhost_data__lws_acme_client)
    (ac : acme_connection) (o : Completion) (r : Result)
    (hc : completed_client_http X vhd ac o = some r)
    (hq : r.eff.any is_cert_updated = true) :
    ac.state = ACME_STATE_POLLING_CSR ∧ ac.resp = 200 ∧ install_cert vhd ac o = some r := by
  have hne : ∀ (r : Result), r.eff.any is_cert_updated = false →
      ¬ r.eff.any is_cert_updated = true := by
    intro r h1 h2
    rw [h1] at h2
    cases h2
  unfold completed_client_http at hc
  cases hst : ac.state <;> simp only [hst] at hc
  case ACME_STATE_NEW_AUTH => exact absurd hq (hne _ (new_auth_quiet X vhd ac o r hc))
  case ACME_STATE_ACCEPT_CHALL => cases hc; exact absurd hq (hne _ (poll_again_quiet _ _ _))
  case ACME_STATE_POLLING_CSR =>
    by_cases h1 : ac.resp < 200 ∨ ac.resp > 202
    · rw [if_pos h1] at hc
      cases hc
      exact absurd hq (hne _ (failed_quiet _ _ rfl))
    · rw [if_neg h1] at hc
      by_cases h2 : ac.resp = 200
      · rw [if_pos h2] at hc
        exact ⟨rfl, h2, hc⟩
      · rw [if_neg h2] at hc
        repeat' split at hc
        all_goals first
          | (cases hc; exact absurd hq (hne _ rfl))
          | (cases hc; exact absurd hq (hne _ (failed_quiet _ _ rfl)))
  all_goals
    repeat' split at hc
    all_goals first
      | (cases hc; exact absurd hq (hne _ rfl))
      | (cases hc; exact absurd hq (hne _ (failed_quiet _ _ rfl)))
      | (cases hc; exact absurd hq (hne _ (poll_again_quiet _ _ _)))
      | cases hc

theorem callback_cert_updated (X : Ext) (vhd : per_vhost_data__lws_acme_client) (e : Event)
    (r : Result) (hc : callback_acme_client X vhd e = some r)
    (hq : r.eff.any is_cert_updated = true) :
    ∃ ac o, vhd.ac = some ac ∧ e = LWS_CALLBACK_COMPLETED_CLIENT_HTTP o ∧
      ac.state = ACME_STATE_POLLING_CSR ∧ ac.resp = 200 ∧ install_cert vhd ac o = some r := by
  have hne : ∀ (r : Result), r.eff.any is_cert_updated = false →
      ¬ r.eff.any is_cert_updated = true := by
    intro r h1 h2
    rw [h1] at h2
    cases h2
  cases e <;> simp only [callback_acme_client] at hc
  case LWS_CALLBACK_PROTOCOL_DESTROY =>
    cases hc; exact absurd hq (hne _ (finished_quiet _))
  case LWS_CALLBACK_VHOST_CERT_AGING =>
    cases hc; exact absurd hq (hne _ (aging_quiet _ _ _ _ _ _ _))
  case LWS_CALLBACK_COMPLETED_CLIENT_HTTP o =>
    cases h : vhd.ac with
    | none => rw [h] at hc; cases hc
    | some ac =>
      rw [h] at hc
      exact ⟨ac, o, rfl, rfl, completed_quiet X vhd ac o r hc hq⟩
  all_goals first
    | (cases hc; exact absurd hq (hne _ rfl))
    | (cases h : vhd.ac <;> rw [h] at hc <;> simp only [] at hc
       · cases hc
       · first
         | exact absurd hq (hne _ (established_quiet _ _ _ _ _ _ hc))
         | exact absurd hq (hne _ (read_quiet _ _ _ _ _ _ hc))
         | (cases hc; exact absurd hq (hne _ (append_quiet _ _ _ _)))
         | (cases hc; exact absurd hq (hne _ (writeable_quiet _ _ _ _)))
         | (split at hc <;> cases hc <;> exact absurd hq (hne _ rfl)))
    | (split at hc <;> cases hc <;> exact absurd hq (hne _ rfl))


/-- C11: a call of the callback tells the host of a new certificate
(`lws_tls_cert_updated`) only when it handles the completion of the final response and
every write of the install (the header, each line of the base64 text and each line
break, the footer, the private key) returned its full count; then the certificate
update file holds the complete certificate, the key update file received the whole
key, and the notification comes once, after the flush of the certificate file and the
flush of the key file.  When one of these writes is short or fails, the callback
returns -1 with the session released and without the notification. -/
theorem cert_updated_only_after_writes (X : Ext) (vhd : per_vhost_data__lws_acme_client)
    (hwf : vhd.fd_updated_cert.off ≤ vhd.fd_updated_cert.data.length) :
    (∀ (e : Event) (r : Result), callback_acme_client X vhd e = some r →
      r.eff.any is_cert_updated = true →
      ∃ ac o, vhd.ac = some ac ∧ e = LWS_CALLBACK_COMPLETED_CLIENT_HTTP o ∧
        writes_complete o.wr 0 (install_writes ac) = true ∧
        r.vhd.fd_updated_cert.data = (file_put vhd.fd_updated_cert
          (pem_begin ++ pem_body (b64_encode (ac.buf.take ac.cpos)) ++ pem_end)).data ∧
        r.vhd.fd_updated_key = file_put vhd.fd_updated_key
          ((ac.alloc_privkey_pem.getD []).take ac.len_privkey_pem) ∧
        ∃ tail, r.eff = Effect.fsync_updated_cert :: Effect.fsync_updated_key ::
          Effect.tls_cert_updated (ac.buf.take ac.cpos) (ac.alloc_privkey_pem.getD []) :: tail ∧
          tail.any is_cert_updated = false) ∧
    (∀ (ac : acme_connection) (o : Completion), vhd.ac = some ac →
      ac.state = ACME_STATE_POLLING_CSR → ac.resp = 200 →
      writes_complete o.wr 0 (install_writes ac) = false →
      ∃ r, callback_acme_client X vhd (LWS_CALLBACK_COMPLETED_CLIENT_HTTP o) = some r ∧
        r.ret = -1 ∧ r.vhd.ac = none ∧ r.eff.any is_cert_updated = false) := by
  constructor
  · intro e r hc hq
    obtain ⟨ac, o, hac, he, hs, hr, hi⟩ := callback_cert_updated X vhd e r hc hq
    obtain ⟨r1, w, hi1, -, -, hdata, -, hret, -, -⟩ := install_cert_spec vhd ac o hwf
    have hrr : r1 = r := Option.some.inj (hi1.symm.trans hi)
    subst hrr
    rcases install_cert_eff vhd ac o r1 hi with ⟨-, hno⟩ | ⟨h0, tail, heff, htail⟩
    · rw [hno] at hq
      cases hq
    · obtain ⟨hw, -, hkey, -⟩ := hret h0
      refine ⟨ac, o, hac, he, ((install_cert_ret vhd ac o r1 hi).mp h0).2, ?_, hkey, tail,
        heff, htail⟩
      rw [hdata, hw]
  · intro ac o hac hs hr hwr
    obtain ⟨r, w, hc, hnone, -⟩ := install_step X vhd ac o hac hs hr hwf
    have hi : install_cert vhd ac o = some r := by
      rw [callback_completed X vhd ac o hac] at hc
      have hcc : completed_client_http X vhd ac o = install_cert vhd ac o := by
        simp [completed_client_http, hs, hr]
      rw [← hcc]
      exact hc
    rcases install_cert_eff vhd ac o r hi with ⟨hm1, hno⟩ | ⟨h0, -⟩
    · exact ⟨r, hc, hm1, hnone, hno⟩
    · have hcomp := ((install_cert_ret vhd ac o r hi).mp h0).2
      rw [hwr] at hcomp
      cases hcomp

/-- Witness for C11: the sample session that received its certificate; with every write
complete the completion tells the host, and with a failing write of the key it does
not. -/
theorem cert_updated_only_after_writes_witness :
    vhd_cert_received.fd_updated_cert.off ≤ vhd_cert_received.fd_updated_cert.data.length ∧
    (callback_acme_client ext_sample vhd_cert_received
      (LWS_CALLBACK_COMPLETED_CLIENT_HTTP completion_ok)).map
        (fun r => r.eff.any is_cert_updated) = some true ∧
    writes_complete completion_key_write_fails.wr 0 (install_writes ac_cert_received) = false ∧
    ((∀ (e : Event) (r : Result), callback_acme_client ext_sample vhd_cert_received e = some r →
      r.eff.any is_cert_updated = true →
      ∃ ac o, vhd_cert_received.ac = some ac ∧ e = LWS_CALLBACK_COMPLETED_CLIENT_HTTP o ∧
        writes_complete o.wr 0 (install_writes ac) = true ∧
        r.vhd.fd_updated_cert.data = (file_put vhd_cert_received.fd_updated_cert
          (pem_begin ++ pem_body (b64_encode (ac.buf.take ac.cpos)) ++ pem_end)).data ∧
        r.vhd.fd_updated_key = file_put vhd_cert_received.fd_updated_key
          ((ac.alloc_privkey_pem.getD []).take ac.len_privkey_pem) ∧
        ∃ tail, r.eff = Effect.fsync_updated_cert :: Effect.fsync_updated_key ::
          Effect.tls_cert_updated (ac.buf.take ac.cpos) (ac.alloc_privkey_pem.getD []) :: tail ∧
          tail.any is_cert_updated = false) ∧
    (∀ (ac : acme_connection) (o : Completion), vhd_cert_received.ac = some ac →
      ac.state = ACME_STATE_POLLING_CSR → ac.resp = 200 →
      writes_complete o.wr 0 (install_writes ac) = false →
      ∃ r, callback_acme_client ext_sample vhd_cert_received
          (LWS_CALLBACK_COMPLETED_CLIENT_HTTP o) = some r ∧
        r.ret = -1 ∧ r.vhd.ac = none ∧ r.eff.any is_cert_updated = false)) :=
  ⟨by decide, by decide, by decide,
    cert_updated_only_after_writes ext_sample vhd_cert_received (by decide)⟩

/-- C12, the code at the failing input: after the install of the sample certificate with
every write complete (return value 0) the certificate update file is at offset 0 but
the key update file, which received the three characters of the key, is at offset 3;
a second install on the same descriptors writes the certificate from the start again
and the key after the previous key. -/
theorem key_file_not_rewound :
    (callback_acme_client ext_sample vhd_cert_received
      (LWS_CALLBACK_COMPLETED_CLIENT_HTTP completion_ok)).map
        (fun r => (r.ret, r.vhd.fd_updated_cert.off, r.vhd.fd_updated_key.off,
          r.vhd.fd_updated_key.data)) = some (0, 0, 3, "KEY".toList) ∧
    ((callback_acme_client ext_sample vhd_cert_received
      (LWS_CALLBACK_COMPLETED_CLIENT_HTTP completion_ok)).bind fun r =>
        (callback_acme_client ext_sample { r.vhd with ac := some ac_cert_received }
          (LWS_CALLBACK_COMPLETED_CLIENT_HTTP completion_ok)).map
            (fun r2 => (r2.ret, decide (r2.vhd.fd_updated_cert = r.vhd.fd_updated_cert),
              r2.vhd.fd_updated_key.data))) = some (0, true, "KEYKEY".toList) := by
  decide


theorem hex_render_take (d : List Nat) : ∀ k, (hex_render d).take (2 * k) = hex_render (d.take k) := by
  induction d with
  | nil => intro k; simp [hex_render]
  | cons a d ih =>
    intro k
    cases k with
    | zero => simp [hex_render]
    | succ k =>
      have h := ih k
      simp only [hex_render] at h ⊢
      rw [show 2 * (k + 1) = 2 * k + 2 by omega]
      simp only [List.map_cons, List.flatten_cons, List.take_succ_cons, hex_byte, List.cons_append,
        List.nil_append, h]

theorem hex_render_drop (d : List Nat) : ∀ k, (hex_render d).drop (2 * k) = hex_render (d.drop k) := by
  induction d with
  | nil => intro k; simp [hex_render]
  | cons a d ih =>
    intro k
    cases k with
    | zero => simp [hex_render]
    | succ k =>
      have h := ih k
      simp only [hex_render] at h ⊢
      rw [show 2 * (k + 1) = 2 * k + 2 by omega]
      simp only [List.map_cons, List.flatten_cons, List.drop_succ_cons, hex_byte, List.cons_append,
        List.nil_append, h]

theorem hex_render_length (d : List Nat) : (hex_render d).length = 2 * d.length := by
  induction d with
  | nil => rfl
  | cons a d ih =>
    simp only [hex_render, List.map_cons, List.flatten_cons, List.length_append, hex_byte,
      List.length_cons, List.length_nil] at ih ⊢
    omega

/-- The digit table of the program holds the sixteen lowercase hexadecimal digits in
order. -/
theorem hexdigit_digitChar (n : Nat) (h : n < 16) : hexdigit n = Nat.digitChar n := by
  have : ∀ n, n < 16 → hexdigit n = Nat.digitChar n := by decide
  exact this n h

/-- The `%02x` rendering of the program gives the two hexadecimal digits of the byte. -/
theorem hex2_eq (b : Nat) : hex2 b = hex_byte b := by
  unfold hex2 hex_byte
  rw [hexdigit_digitChar _ (by omega), hexdigit_digitChar _ (by omega)]
  rw [show b % 256 / 16 = b / 16 % 16 by omega]

theorem hex16_eq (d : List Nat) (s : Nat) (h : s + 16 ≤ d.length) :
    hex16 d s = hex_render ((d.drop s).take 16) := by
  unfold hex16 hex_render
  congr 1
  apply List.ext_getElem
  · simp only [List.length_map, List.length_range, List.length_take, List.length_drop]
    omega
  · intro i h1 h2
    simp only [List.getElem_map, List.getElem_range, List.getElem_take, List.getElem_drop]
    rw [List.getD_eq_getElem, hex2_eq]

theorem hexdigit_mem (n : Nat) (h : n < 16) : hexdigit n ∈ "0123456789abcdef".toList := by
  have : ∀ n, n < 16 → hexdigit n ∈ "0123456789abcdef".toList := by decide
  exact this n h

theorem hex_render_lower (d : List Nat) : ∀ c ∈ hex_render d, c ∈ "0123456789abcdef".toList := by
  intro c hc
  simp only [hex_render, List.mem_flatten, List.mem_map] at hc
  obtain ⟨l, ⟨b, -, rfl⟩, hcl⟩ := hc
  simp only [hex_byte, List.mem_cons, List.mem_singleton, List.not_mem_nil, or_false] at hcl
  rcases hcl with rfl | rfl
  · rw [← hexdigit_digitChar _ (Nat.mod_lt _ (by omega))]; exact hexdigit_mem _ (Nat.mod_lt _ (by omega))
  · rw [← hexdigit_digitChar _ (Nat.mod_lt _ (by omega))]; exact hexdigit_mem _ (Nat.mod_lt _ (by omega))

theorem hex16_halves (d : List Nat) (h : d.length = 32) :
    hex16 d 0 = (hex_render d).take 32 ∧ hex16 d 16 = ((hex_render d).drop 32).take 32 ∧
      (hex16 d 0).length = 32 ∧ (hex16 d 16).length = 32 := by
  have h0 : hex16 d 0 = (hex_render d).take 32 := by
    rw [hex16_eq d 0 (by omega), List.drop_zero, ← hex_render_take d 16]
  have h1 : hex16 d 16 = ((hex_render d).drop 32).take 32 := by
    rw [hex16_eq d 16 (by omega), ← hex_render_take (d.drop 16) 16, ← hex_render_drop d 16]
  refine ⟨h0, h1, ?_, ?_⟩
  · rw [h0, List.length_take, hex_render_length]; omega
  · rw [h1, List.length_take, List.length_drop, hex_render_length]; omega


theorem challenge_sans_fields (X : Ext) (vhd : per_vhost_data__lws_acme_client)
    (ac : acme_connection) (ka : List Char) :
    (challenge_sans X vhd ac ka).chall_token = ac.chall_token ∧
      (challenge_sans X vhd ac ka).is_sni_02 = ac.is_sni_02 ∧
      (challenge_sans X vhd ac ka).replay_nonce = ac.replay_nonce ∧
      (challenge_sans X vhd ac ka).real_vh_iface = ac.real_vh_iface ∧
      (challenge_sans X vhd ac ka).real_vh_port = ac.real_vh_port ∧
      (challenge_sans X vhd ac ka).challenge_uri = ac.challenge_uri := by
  unfold challenge_sans
  simp only []
  split <;> exact ⟨rfl, rfl, rfl, rfl, rfl, rfl⟩

theorem san_of_hex_length (h suffix : List Char) (hl : h.length = 64) :
    (san_of_hex h suffix).length = 66 + suffix.length := by
  simp only [san_of_hex, List.length_append, List.length_take, List.length_drop,
    List.length_cons, List.length_nil]
  omega

theorem challenge_sans_san_a (X : Ext) (vhd : per_vhost_data__lws_acme_client)
    (ac : acme_connection) (ka : List Char) (h : (X.sha256 ka).length = 32) :
    (challenge_sans X vhd ac ka).san_a =
      san_of_hex (hex_render (X.sha256 ka)) (san_a_suffix ac.is_sni_02) := by
  obtain ⟨h0, h1, -, -⟩ := hex16_halves (X.sha256 ka) h
  have hl : (hex_render (X.sha256 ka)).length = 64 := by rw [hex_render_length, h]
  have e1 : ".acme.invalid".toList.length = 13 := by decide
  have e2 : ".token.acme.invalid".toList.length = 19 := by decide
  unfold challenge_sans
  simp only []
  cases hs : ac.is_sni_02
  · simp only [Bool.false_eq_true, if_false, lws_snprintf, san_a_suffix]
    rw [h0, h1, List.take_of_length_le]
    · simp [san_of_hex]
    · simp only [List.length_append, List.length_take, List.length_drop,
        List.length_cons, List.length_nil, e1]
      omega
  · simp only [if_true, lws_snprintf, san_a_suffix]
    rw [h0, h1, List.take_of_length_le]
    · simp [san_of_hex]
    · simp only [List.length_append, List.length_take, List.length_drop,
        List.length_cons, List.length_nil, e2]
      omega

theorem challenge_sans_san_b (X : Ext) (vhd : per_vhost_data__lws_acme_client)
    (ac : acme_connection) (ka : List Char)
    (h : (X.lws_jwk_rfc7638_fingerprint vhd.jwk).length = 32) :
    (challenge_sans X vhd ac ka).san_b =
      if ac.is_sni_02 then
        san_of_hex (hex_render (X.lws_jwk_rfc7638_fingerprint vhd.jwk)) "ka.acme.invalid".toList
      else [] := by
  obtain ⟨h0, h1, -, -⟩ := hex16_halves (X.lws_jwk_rfc7638_fingerprint vhd.jwk) h
  have hl : (hex_render (X.lws_jwk_rfc7638_fingerprint vhd.jwk)).length = 64 := by
    rw [hex_render_length, h]
  have e1 : ".ka.acme.invalid".toList.length = 16 := by decide
  unfold challenge_sans
  simp only []
  cases hs : ac.is_sni_02
  · simp only [Bool.false_eq_true, if_false]
  · simp only [if_true, lws_snprintf]
    rw [h0, h1, List.take_of_length_le]
    · simp [san_of_hex]
    · simp only [List.length_append, List.length_take, List.length_drop,
        List.length_cons, List.length_nil, e1]
      omega

theorem new_auth_step (X : Ext) (vhd : per_vhost_data__lws_acme_client) (ac : acme_connection)
    (o : Completion) (b : List Char) (vh : Nat) (h : vhd.ac = some ac)
    (hs : ac.state = ACME_STATE_NEW_AUTH) (hj : ac.jctx ≠ none)
    (hb : X.lws_jws_base64_enc (X.lws_jwk_rfc7638_fingerprint vhd.jwk) = some b)
    (hg1 : o.genhash_init = 0) (hg2 : o.genhash_update = 0) (hg3 : o.genhash_destroy = 0)
    (hv : o.create_vhost = some vh) (hcw : o.cwsi = true) :
    ∃ ac1, callback_acme_client X vhd (LWS_CALLBACK_COMPLETED_CLIENT_HTTP o) =
        some (done { vhd with ac := some ac1 } 0
          [Effect.create_vhost ac1.san_a ac1.real_vh_iface ac1.real_vh_port,
           lws_acme_client_connect ac1.challenge_uri "POST"]) ∧
      ac1.state = ACME_STATE_ACCEPT_CHALL ∧ ac1.goes_around = 0 ∧ ac1.vhost = some vh ∧
      ac1.san_a =
        (challenge_sans X vhd ac (lws_snprintf 2535 (ac.chall_token ++ ['.']) ++ b)).san_a ∧
      ac1.san_b =
        (challenge_sans X vhd ac (lws_snprintf 2535 (ac.chall_token ++ ['.']) ++ b)).san_b ∧
      ac1.chall_token = ac.chall_token ∧ ac1.is_sni_02 = ac.is_sni_02 ∧
      ac1.replay_nonce = ac.replay_nonce ∧ ac1.real_vh_iface = ac.real_vh_iface ∧
      ac1.real_vh_port = ac.real_vh_port ∧ ac1.challenge_uri = ac.challenge_uri := by
  obtain ⟨f1, f2, f3, f4, f5, f6⟩ := challenge_sans_fields X vhd ac
    (lws_snprintf 2535 (ac.chall_token ++ ['.']) ++ b)
  rw [callback_completed X vhd ac o h]
  simp only [completed_client_http, hs, completed_new_auth, hj, hb, hg1, hg2, hg3, hv, hcw,
    if_false, if_true, ne_eq, not_true_eq_false]
  generalize challenge_sans X vhd ac (lws_snprintf 2535 (ac.chall_token ++ ['.']) ++ b) = cs
    at f1 f2 f3 f4 f5 f6 ⊢
  exact ⟨{ cs with vhost := some vh, state := ACME_STATE_ACCEPT_CHALL, goes_around := 0 },
    rfl, rfl, rfl, rfl, rfl, rfl, f1, f2, f3, f4, f5, f6⟩

theorem token_dot (token b : List Char) (h : token.length ≤ 63) :
    lws_snprintf 2535 (token ++ ['.']) ++ b = key_authorization token b := by
  unfold lws_snprintf key_authorization
  rw [List.take_of_length_le]
  simp only [List.length_append, List.length_cons, List.length_nil]
  omega


/-- C13: when the exchange of the state NEW_AUTH completes for a token of at most 63
bytes, the session goes on with `san_a` equal to the first 32 characters of `h`, a dot,
the characters 32 to 64 of `h`, a dot and the suffix ("acme.invalid" for tls-sni-01,
"token.acme.invalid" for tls-sni-02), where `h` is the rendering in 64 lowercase
hexadecimal characters of the SHA-256 digest of the key authorization (token, dot,
base64url text of the account-key fingerprint); the first 66 characters do not depend
on the sub-type, the rest is the suffix, the name fits its field of 100 bytes, and it is
the name the temporary vhost is created with. -/
theorem san_a_formula (X : Ext) (vhd : per_vhost_data__lws_acme_client) (ac : acme_connection)
    (o : Completion) (b : List Char) (vh : Nat) (h : vhd.ac = some ac)
    (hs : ac.state = ACME_STATE_NEW_AUTH) (hj : ac.jctx ≠ none)
    (htok : ac.chall_token.length ≤ 63)
    (hb : X.lws_jws_base64_enc (X.lws_jwk_rfc7638_fingerprint vhd.jwk) = some b)
    (hsha : (X.sha256 (key_authorization ac.chall_token b)).length = 32)
    (hg1 : o.genhash_init = 0) (hg2 : o.genhash_update = 0) (hg3 : o.genhash_destroy = 0)
    (hv : o.create_vhost = some vh) (hcw : o.cwsi = true) :
    ∃ r ac1, callback_acme_client X vhd (LWS_CALLBACK_COMPLETED_CLIENT_HTTP o) = some r ∧
      r.ret = 0 ∧ r.vhd.ac = some ac1 ∧ ac1.state = ACME_STATE_ACCEPT_CHALL ∧
      ac1.san_a = san_of_hex (hex_render (X.sha256 (key_authorization ac.chall_token b)))
        (san_a_suffix ac.is_sni_02) ∧
      (hex_render (X.sha256 (key_authorization ac.chall_token b))).length = 64 ∧
      (∀ c ∈ hex_render (X.sha256 (key_authorization ac.chall_token b)),
        c ∈ "0123456789abcdef".toList) ∧
      ac1.san_a.take 66 =
        (hex_render (X.sha256 (key_authorization ac.chall_token b))).take 32 ++ ['.'] ++
          ((hex_render (X.sha256 (key_authorization ac.chall_token b))).drop 32).take 32 ++ ['.'] ∧
      ac1.san_a.drop 66 = san_a_suffix ac.is_sni_02 ∧
      ac1.san_a.length < 100 ∧
      Effect.create_vhost ac1.san_a ac.real_vh_iface ac.real_vh_port ∈ r.eff := by
  obtain ⟨ac1, hc, hst, -, -, hsa, -, -, -, -, hif, hport, -⟩ :=
    new_auth_step X vhd ac o b vh h hs hj hb hg1 hg2 hg3 hv hcw
  rw [token_dot _ _ htok, challenge_sans_san_a X vhd ac _ hsha] at hsa
  have hl : (hex_render (X.sha256 (key_authorization ac.chall_token b))).length = 64 := by
    rw [hex_render_length, hsha]
  have h66 : ((hex_render (X.sha256 (key_authorization ac.chall_token b))).take 32 ++ ['.'] ++
      ((hex_render (X.sha256 (key_authorization ac.chall_token b))).drop 32).take 32 ++
        ['.']).length = 66 := by
    simp only [List.length_append, List.length_take, List.length_drop, List.length_cons,
      List.length_nil]
    omega
  have hsuf : (san_a_suffix ac.is_sni_02).length ≤ 18 := by
    cases ac.is_sni_02 <;> decide
  refine ⟨_, ac1, hc, rfl, rfl, hst, hsa, hl, hex_render_lower _, ?_, ?_, ?_, ?_⟩
  · rw [hsa]
    unfold san_of_hex
    rw [List.take_append_of_le_length (by rw [h66]), ← h66, List.take_length]
  · rw [hsa]
    unfold san_of_hex
    rw [List.drop_append_of_le_length (by rw [h66]), ← h66, List.drop_length, List.nil_append]
  · rw [hsa, san_of_hex_length _ _ hl]
    omega
  · rw [← hif, ← hport]
    simp [done]

/-- Witness for C13: the sample session with the token "tok" and a tls-sni-01
challenge, whose SHA-256 digests are the bytes 0 to 31: the name is
"000102030405060708090a0b0c0d0e0f.101112131415161718191a1b1c1d1e1f.acme.invalid". -/
theorem san_a_formula_witness :
    (∃ r ac1, callback_acme_client ext_sample (vhd_new_auth false)
        (LWS_CALLBACK_COMPLETED_CLIENT_HTTP completion_ok) = some r ∧
      r.ret = 0 ∧ r.vhd.ac = some ac1 ∧ ac1.state = ACME_STATE_ACCEPT_CHALL ∧
      ac1.san_a = san_of_hex (hex_render (ext_sample.sha256 (key_authorization "tok".toList
        "B1ZXZ_base64url_of_the_fingerprint".toList))) (san_a_suffix false) ∧
      (hex_render (ext_sample.sha256 (key_authorization "tok".toList
        "B1ZXZ_base64url_of_the_fingerprint".toList))).length = 64 ∧
      (∀ c ∈ hex_render (ext_sample.sha256 (key_authorization "tok".toList
        "B1ZXZ_base64url_of_the_fingerprint".toList)), c ∈ "0123456789abcdef".toList) ∧
      ac1.san_a.take 66 =
        (hex_render (ext_sample.sha256 (key_authorization "tok".toList
          "B1ZXZ_base64url_of_the_fingerprint".toList))).take 32 ++ ['.'] ++
          ((hex_render (ext_sample.sha256 (key_authorization "tok".toList
            "B1ZXZ_base64url_of_the_fingerprint".toList))).drop 32).take 32 ++ ['.'] ∧
      ac1.san_a.drop 66 = san_a_suffix false ∧
      ac1.san_a.length < 100 ∧
      Effect.create_vhost ac1.san_a (ac_new_auth false).real_vh_iface
        (ac_new_auth false).real_vh_port ∈ r.eff) ∧
    (callback_acme_client ext_sample (vhd_new_auth false)
      (LWS_CALLBACK_COMPLETED_CLIENT_HTTP completion_ok)).map
        (fun r => r.vhd.ac.map fun a => a.san_a) = some (some
      "000102030405060708090a0b0c0d0e0f.101112131415161718191a1b1c1d1e1f.acme.invalid".toList) ∧
    hex_render [0, 9, 10, 31, 171, 255] = "00090a1fabff".toList :=
  ⟨san_a_formula ext_sample (vhd_new_auth false)
    (ac_new_auth false) completion_ok "B1ZXZ_base64url_of_the_fingerprint".toList 7 rfl rfl
    (by decide) (by decide) rfl (by decide) rfl rfl rfl rfl rfl, by decide, by decide⟩


/-- C14, the code at the failing input: the sample tls-sni-02 session, whose account-key
fingerprint is 32 bytes of value 7 and whose SHA-256 digests are the bytes 0 to 31. When
the exchange of the state NEW_AUTH completes, `san_b` is
"07070707070707070707070707070707.07070707070707070707070707070707.ka.acme.invalid":
the hexadecimal rendering of the fingerprint itself. It is not made of the rendering of
a SHA-256 digest computed over the fingerprint bytes, and not of the rendering of the
SHA-256 digest of the key authorization, which is what the comment in the source
describes; `san_a` of the same session is made of that digest. -/
theorem san_b_not_digest_of_fingerprint :
    (callback_acme_client ext_sample (vhd_new_auth true)
      (LWS_CALLBACK_COMPLETED_CLIENT_HTTP completion_ok)).map
        (fun r => r.vhd.ac.map fun a => (a.san_b,
          decide (a.san_b = san_of_hex (hex_render (ext_sample.sha256
            ((ext_sample.lws_jwk_rfc7638_fingerprint (vhd_new_auth true).jwk).map Char.ofNat)))
            "ka.acme.invalid".toList))) =
      some (some
        ("07070707070707070707070707070707.07070707070707070707070707070707.ka.acme.invalid".toList,
          false)) ∧
    (callback_acme_client ext_sample (vhd_new_auth true)
      (LWS_CALLBACK_COMPLETED_CLIENT_HTTP completion_ok)).map
        (fun r => r.vhd.ac.map fun a => (a.san_a,
          decide (a.san_b = san_of_hex (hex_render (ext_sample.sha256
            (key_authorization (ac_new_auth true).chall_token
              "B1ZXZ_base64url_of_the_fingerprint".toList)))
            "ka.acme.invalid".toList))) =
      some (some
        ("000102030405060708090a0b0c0d0e0f.101112131415161718191a1b1c1d1e1f.token.acme.invalid".toList,
          false)) := by
  refine ⟨?_, ?_⟩ <;> decide

theorem pkt_add_hdrs_head (X : Ext) (vhd : per_vhost_data__lws_acme_client)
    (ac : acme_connection) (payload : List Char) (o : Handshake) :
    ∃ tail, (pkt_add_hdrs X vhd ac payload o).eff =
      Effect.jws_create_packet payload ac.replay_nonce :: tail := by
  unfold pkt_add_hdrs
  simp only []
  repeat' split
  all_goals exact ⟨_, rfl⟩

theorem accept_payload (token b : List Char) (is_sni_02 : Bool) (htok : token.length ≤ 63)
    (hbl : b.length ≤ 2400) :
    lws_snprintf 2535 ("\x7b\"resource\":\"challenge\",\"type\":\"tls-sni-0".toList ++
        (if is_sni_02 then ['2'] else ['1']) ++ "\",\"keyAuthorization\":\"".toList ++
        token ++ ['.']) ++ b ++
      lws_snprintf (2535 - (lws_snprintf 2535
        ("\x7b\"resource\":\"challenge\",\"type\":\"tls-sni-0".toList ++
        (if is_sni_02 then ['2'] else ['1']) ++ "\",\"keyAuthorization\":\"".toList ++
        token ++ ['.']) ++ b).length) "\"\x7d".toList =
    challenge_payload (if is_sni_02 then '2' else '1') (key_authorization token b) := by
  have e1 : "\x7b\"resource\":\"challenge\",\"type\":\"tls-sni-0".toList.length = 41 := by decide
  have e2 : "\",\"keyAuthorization\":\"".toList.length = 22 := by decide
  have e3 : (if is_sni_02 then ['2'] else ['1']) = [if is_sni_02 then '2' else '1'] := by
    cases is_sni_02 <;> rfl
  have e4 : "\"\x7d".toList.length = 2 := by decide
  rw [e3]
  have hp1 : lws_snprintf 2535 ("\x7b\"resource\":\"challenge\",\"type\":\"tls-sni-0".toList ++
        [if is_sni_02 then '2' else '1'] ++ "\",\"keyAuthorization\":\"".toList ++
        token ++ ['.']) = "\x7b\"resource\":\"challenge\",\"type\":\"tls-sni-0".toList ++
        [if is_sni_02 then '2' else '1'] ++ "\",\"keyAuthorization\":\"".toList ++
        token ++ ['.'] := by
    unfold lws_snprintf
    rw [List.take_of_length_le]
    simp only [List.length_append, List.length_cons, List.length_nil, e1, e2]
    omega
  rw [hp1]
  have hp2 : lws_snprintf (2535 - ("\x7b\"resource\":\"challenge\",\"type\":\"tls-sni-0".toList ++
        [if is_sni_02 then '2' else '1'] ++ "\",\"keyAuthorization\":\"".toList ++
        token ++ ['.'] ++ b).length) "\"\x7d".toList = "\"\x7d".toList := by
    unfold lws_snprintf
    rw [List.take_of_length_le]
    simp only [List.length_append, List.length_cons, List.length_nil, e1, e2, e4]
    omega
  rw [hp2]
  simp only [challenge_payload, key_authorization, List.append_assoc]


/-- C15: when the exchange of the state NEW_AUTH completes and the acceptance request is
then built, the payload handed to the signer is the challenge acceptance whose
keyAuthorization value is the token, a dot and the base64url text of the account-key
fingerprint, and `san_a` of the session was built from the SHA-256 digest of that same
string: the token and the account key are the same at both computations. -/
theorem key_authorization_same (X : Ext) (vhd : per_vhost_data__lws_acme_client)
    (ac : acme_connection) (o : Completion) (k : Handshake) (b : List Char) (vh : Nat)
    (h : vhd.ac = some ac) (hs : ac.state = ACME_STATE_NEW_AUTH) (hj : ac.jctx ≠ none)
    (htok : ac.chall_token.length ≤ 63)
    (hb : X.lws_jws_base64_enc (X.lws_jwk_rfc7638_fingerprint vhd.jwk) = some b)
    (hbl : b.length ≤ 2400)
    (hsha : (X.sha256 (key_authorization ac.chall_token b)).length = 32)
    (hg1 : o.genhash_init = 0) (hg2 : o.genhash_update = 0) (hg3 : o.genhash_destroy = 0)
    (hv : o.create_vhost = some vh) (hcw : o.cwsi = true) :
    ∃ r1 ac1 r2 tail,
      callback_acme_client X vhd (LWS_CALLBACK_COMPLETED_CLIENT_HTTP o) = some r1 ∧
      r1.vhd.ac = some ac1 ∧ ac1.chall_token = ac.chall_token ∧ r1.vhd.jwk = vhd.jwk ∧
      ac1.san_a = san_of_hex (hex_render (X.sha256 (key_authorization ac.chall_token b)))
        (san_a_suffix ac.is_sni_02) ∧
      callback_acme_client X r1.vhd (LWS_CALLBACK_CLIENT_APPEND_HANDSHAKE_HEADER k) = some r2 ∧
      r2.eff = Effect.jws_create_packet
        (challenge_payload (if ac.is_sni_02 then '2' else '1')
          (key_authorization ac.chall_token b)) ac1.replay_nonce :: tail := by
  obtain ⟨ac1, hc, hst, -, -, hsa, -, htk, h02, -⟩ :=
    new_auth_step X vhd ac o b vh h hs hj hb hg1 hg2 hg3 hv hcw
  rw [token_dot _ _ htok, challenge_sans_san_a X vhd ac _ hsha] at hsa
  have hb2 : X.lws_jws_base64_enc (X.lws_jwk_rfc7638_fingerprint
      ({ vhd with ac := some ac1 } : per_vhost_data__lws_acme_client).jwk) = some b := hb
  have hstep : callback_acme_client X { vhd with ac := some ac1 }
      (LWS_CALLBACK_CLIENT_APPEND_HANDSHAKE_HEADER k) =
      some (pkt_add_hdrs X { vhd with ac := some ac1 } ac1
        (challenge_payload (if ac.is_sni_02 then '2' else '1')
          (key_authorization ac.chall_token b)) k) := by
    simp only [callback_acme_client, client_append_handshake_header, hst, hb2]
    rw [htk, h02, accept_payload _ _ _ htok hbl]
  obtain ⟨tail, htail⟩ := pkt_add_hdrs_head X { vhd with ac := some ac1 } ac1
    (challenge_payload (if ac.is_sni_02 then '2' else '1')
      (key_authorization ac.chall_token b)) k
  exact ⟨_, ac1, _, tail, hc, rfl, htk, rfl, hsa, hstep, htail⟩

/-- Witness for C15: the sample session with the token "tok" and a tls-sni-02
challenge. -/
theorem key_authorization_same_witness :
    ∃ r1 ac1 r2 tail,
      callback_acme_client ext_sample (vhd_new_auth true)
        (LWS_CALLBACK_COMPLETED_CLIENT_HTTP completion_ok) = some r1 ∧
      r1.vhd.ac = some ac1 ∧ ac1.chall_token = "tok".toList ∧
      r1.vhd.jwk = (vhd_new_auth true).jwk ∧
      ac1.san_a = san_of_hex (hex_render (ext_sample.sha256
        (key_authorization "tok".toList "B1ZXZ_base64url_of_the_fingerprint".toList)))
        (san_a_suffix true) ∧
      callback_acme_client ext_sample r1.vhd
        (LWS_CALLBACK_CLIENT_APPEND_HANDSHAKE_HEADER handshake_ok) = some r2 ∧
      r2.eff = Effect.jws_create_packet
        (challenge_payload '2'
          (key_authorization "tok".toList "B1ZXZ_base64url_of_the_fingerprint".toList))
        ac1.replay_nonce :: tail :=
  key_authorization_same ext_sample (vhd_new_auth true) (ac_new_auth true) completion_ok
    handshake_ok "B1ZXZ_base64url_of_the_fingerprint".toList 7 rfl rfl (by decide) (by decide)
    rfl (by decide) rfl rfl rfl rfl rfl rfl


theorem cb_authz_ret (s : acme_connection) (reason : lejp_callbacks) (ctx : lejp_ctx) :
    (cb_authz s reason ctx).2 = 0 := by
  unfold cb_authz
  simp only []
  repeat' split
  all_goals rfl

theorem lejp_parse_authz (es : List lejp_event) :
    ∀ (vhd : per_vhost_data__lws_acme_client) (ac : acme_connection) (pret : Int),
      vhd.ac = some ac →
      lejp_parse lejp_user.authz vhd es pret =
        some ({ vhd with ac := some (cb_authz_run ac es) }, pret) := by
  induction es with
  | nil =>
    intro vhd ac pret h
    simp only [lejp_parse, cb_authz_run, List.foldl_nil, ← h]
  | cons e es ih =>
    intro vhd ac pret h
    simp only [lejp_parse, lejp_callback, h, cb_authz_ret, ne_eq, not_true_eq_false, if_false]
    rw [ih _ (cb_authz ac e.reason e.ctx).1 pret rfl]
    rfl

theorem cb_authz_run_append (s : acme_connection) (a b : List lejp_event) :
    cb_authz_run s (a ++ b) = cb_authz_run (cb_authz_run s a) b := by
  simp only [cb_authz_run, List.foldl_append]

theorem authz_document_cons (c : List Char × List Char × List Char)
    (cs : List (List Char × List Char × List Char)) :
    authz_document (c :: cs) = chall_element c ++ authz_document cs := by
  simp only [authz_document, List.map_cons, List.flatten_cons]

theorem authz_document_append (a b : List (List Char × List Char × List Char)) :
    authz_document (a ++ b) = authz_document a ++ authz_document b := by
  simp only [authz_document, List.map_append, List.flatten_append]

theorem authz_start (s : acme_connection) (k : Nat) :
    (cb_authz s LEJPCB_VAL_STR_START { path_match := k, buf := [] }).1 = s := by
  simp [cb_authz, LEJP_FLAG_CB_IS_VALUE]

theorem authz_type (s : acme_connection) (ty : List Char) (h : s.is_sni_02 = false) :
    (cb_authz s LEJPCB_VAL_STR_END { path_match := 5, buf := ty }).1 =
      { s with use := decide (ty = "tls-sni-01".toList) || decide (ty = "tls-sni-02".toList),
               is_sni_02 := decide (ty = "tls-sni-02".toList) } := by
  simp [cb_authz, LEJP_FLAG_CB_IS_VALUE, h]

theorem authz_uri (s : acme_connection) (u : List Char) :
    (cb_authz s LEJPCB_VAL_STR_END { path_match := 7, buf := u }).1 =
      if s.use then { s with challenge_uri := strncpy u (256 - 1), yes := (s.yes ||| 2) % 4 }
      else s := by
  cases h : s.use <;> simp [cb_authz, LEJP_FLAG_CB_IS_VALUE, h]

theorem authz_token (s : acme_connection) (t : List Char) :
    (cb_authz s LEJPCB_VAL_STR_END { path_match := 8, buf := t }).1 =
      if s.use then { s with chall_token := strncpy t (64 - 1), yes := (s.yes ||| 1) % 4 }
      else s := by
  cases h : s.use <;> simp [cb_authz, LEJP_FLAG_CB_IS_VALUE, h]

theorem element_run (s : acme_connection) (ty u t : List Char) :
    cb_authz_run s (chall_element (ty, u, t)) =
      (cb_authz
        (cb_authz (cb_authz s LEJPCB_VAL_STR_END { path_match := 5, buf := ty }).1
          LEJPCB_VAL_STR_END { path_match := 7, buf := u }).1
        LEJPCB_VAL_STR_END { path_match := 8, buf := t }).1 := by
  simp only [cb_authz_run, chall_element, str_value, List.cons_append, List.nil_append,
    List.foldl_cons, List.foldl_nil, authz_start]

theorem element_supported (s : acme_connection) (ty u t : List Char)
    (h : s.is_sni_02 = false) (hty : ty = "tls-sni-01".toList ∨ ty = "tls-sni-02".toList) :
    (cb_authz_run s (chall_element (ty, u, t))).challenge_uri = strncpy u (256 - 1) ∧
      (cb_authz_run s (chall_element (ty, u, t))).chall_token = strncpy t (64 - 1) ∧
      (cb_authz_run s (chall_element (ty, u, t))).is_sni_02 =
        decide (ty = "tls-sni-02".toList) := by
  have hu : (decide (ty = "tls-sni-01".toList) || decide (ty = "tls-sni-02".toList)) = true := by
    rcases hty with h1 | h1
    · rw [decide_eq_true h1]; rfl
    · rw [decide_eq_true h1, Bool.or_true]
  rw [element_run, authz_type s ty h, authz_uri, authz_token]
  refine ⟨?_, ?_, ?_⟩ <;> simp only [hu, if_true]

theorem element_unsupported (s : acme_connection) (ty u t : List Char)
    (h : s.is_sni_02 = false) (h1 : ty ≠ "tls-sni-01".toList) (h2 : ty ≠ "tls-sni-02".toList) :
    (cb_authz_run s (chall_element (ty, u, t))).challenge_uri = s.challenge_uri ∧
      (cb_authz_run s (chall_element (ty, u, t))).chall_token = s.chall_token ∧
      (cb_authz_run s (chall_element (ty, u, t))).is_sni_02 = false := by
  rw [element_run, authz_type s ty h, authz_uri, authz_token]
  refine ⟨?_, ?_, ?_⟩ <;>
    simp only [decide_eq_false h1, decide_eq_false h2, Bool.or_false, Bool.false_eq_true,
      if_false]

theorem elements_without_02 (pre : List (List Char × List Char × List Char)) :
    ∀ s : acme_connection, s.is_sni_02 = false →
      (∀ x ∈ pre, x.1 ≠ "tls-sni-02".toList) →
      (cb_authz_run s (authz_document pre)).is_sni_02 = false := by
  induction pre with
  | nil => intro s h _; exact h
  | cons c cs ih =>
    intro s h hall
    obtain ⟨ty, u, t⟩ := c
    rw [authz_document_cons, cb_authz_run_append]
    apply ih _ _ (fun x hx => hall x (List.mem_cons_of_mem _ hx))
    have hne : ty ≠ "tls-sni-02".toList := hall (ty, u, t) (List.mem_cons_self _ _)
    by_cases h1 : ty = "tls-sni-01".toList
    · rw [(element_supported s ty u t h (Or.inl h1)).2.2]
      exact decide_eq_false hne
    · exact (element_unsupported s ty u t h h1 hne).2.2

theorem elements_unsupported (post : List (List Char × List Char × List Char)) :
    ∀ s : acme_connection, s.is_sni_02 = false →
      (∀ x ∈ post, x.1 ≠ "tls-sni-01".toList ∧ x.1 ≠ "tls-sni-02".toList) →
      (cb_authz_run s (authz_document post)).challenge_uri = s.challenge_uri ∧
        (cb_authz_run s (authz_document post)).chall_token = s.chall_token ∧
        (cb_authz_run s (authz_document post)).is_sni_02 = false := by
  induction post with
  | nil => intro s h _; exact ⟨rfl, rfl, h⟩
  | cons c cs ih =>
    intro s h hall
    obtain ⟨ty, u, t⟩ := c
    rw [authz_document_cons, cb_authz_run_append]
    obtain ⟨h1, h2⟩ := hall (ty, u, t) (List.mem_cons_self _ _)
    obtain ⟨e1, e2, e3⟩ := element_unsupported s ty u t h h1 h2
    obtain ⟨f1, f2, f3⟩ := ih _ e3 (fun x hx => hall x (List.mem_cons_of_mem _ hx))
    exact ⟨f1.trans e1, f2.trans e2, f3⟩

theorem construct_authz (vhd : per_vhost_data__lws_acme_client) (ac0 : acme_connection) :
    ∃ v s, lejp_construct lejp_user.authz vhd ac0 = some (v, 0) ∧ v.ac = some s ∧
      s.is_sni_02 = false ∧ s.chall_token = [] ∧ s.challenge_uri = ac0.challenge_uri := by
  refine ⟨_, _, rfl, rfl, ?_, ?_, ?_⟩ <;> simp [cb_authz]

theorem last_supported_element (s : acme_connection)
    (pre post : List (List Char × List Char × List Char)) (ty u t : List Char)
    (h : s.is_sni_02 = false)
    (hty : ty = "tls-sni-01".toList ∨ ty = "tls-sni-02".toList)
    (hpre : ∀ x ∈ pre, x.1 ≠ "tls-sni-02".toList)
    (hpost : ∀ x ∈ post, x.1 ≠ "tls-sni-01".toList ∧ x.1 ≠ "tls-sni-02".toList)
    (h02 : ty = "tls-sni-02".toList → post = []) :
    (cb_authz_run s (authz_document (pre ++ (ty, u, t) :: post))).challenge_uri =
        strncpy u (256 - 1) ∧
      (cb_authz_run s (authz_document (pre ++ (ty, u, t) :: post))).chall_token =
        strncpy t (64 - 1) ∧
      (cb_authz_run s (authz_document (pre ++ (ty, u, t) :: post))).is_sni_02 =
        decide (ty = "tls-sni-02".toList) := by
  rw [authz_document_append, authz_document_cons, cb_authz_run_append, cb_authz_run_append]
  obtain ⟨e1, e2, e3⟩ := element_supported (cb_authz_run s (authz_document pre)) ty u t
    (elements_without_02 pre s h hpre) hty
  by_cases hc : ty = "tls-sni-02".toList
  · rw [h02 hc]
    exact ⟨e1, e2, e3⟩
  · have e3f : (cb_authz_run (cb_authz_run s (authz_document pre))
        (chall_element (ty, u, t))).is_sni_02 = false := by
      rw [e3]; exact decide_eq_false hc
    obtain ⟨f1, f2, f3⟩ := elements_unsupported post _ e3f hpost
    exact ⟨f1.trans e1, f2.trans e2, f3.trans (decide_eq_false hc).symm⟩


/-- C16, as stated, fails: for an authorization with a challenge element of type
tls-sni-01 followed by one of type tls-sni-02, and for one with two elements of type
tls-sni-01, the captured challenge URI and token after the parse are those of the
second element, not of the first. -/
theorem later_challenge_replaces_first :
    (run ext_sample vhd_authz (authz_response
      [("tls-sni-01".toList, "https://ca/challenge/1".toList, "tok1".toList),
       ("tls-sni-02".toList, "https://ca/challenge/2".toList, "tok2".toList)])).map
      (fun v => v.ac.map fun a => (a.challenge_uri, a.chall_token, a.is_sni_02)) =
      some (some ("https://ca/challenge/2".toList, "tok2".toList, true)) ∧
    (run ext_sample vhd_authz (authz_response
      [("tls-sni-01".toList, "https://ca/challenge/1".toList, "tok1".toList),
       ("tls-sni-01".toList, "https://ca/challenge/2".toList, "tok2".toList)])).map
      (fun v => v.ac.map fun a => (a.challenge_uri, a.chall_token, a.is_sni_02)) =
      some (some ("https://ca/challenge/2".toList, "tok2".toList, false)) := by
  decide

/-- C16, amended: for an authorization whose challenge elements each list their type
before their uri and token and in which no element follows an element of type
tls-sni-02, after the parser was constructed and the document parsed, the captured
challenge URI and token are those, cut to 255 and 63 bytes, of the last element whose
type is tls-sni-01 or tls-sni-02 (a later supported element replaces an earlier one),
and the sub-type flag tells whether that element is of type tls-sni-02. -/
theorem last_supported_challenge_captured (vhd : per_vhost_data__lws_acme_client)
    (ac0 : acme_connection) (pre post : List (List Char × List Char × List Char))
    (ty u t : List Char) (pret : Int)
    (hty : ty = "tls-sni-01".toList ∨ ty = "tls-sni-02".toList)
    (hpre : ∀ x ∈ pre, x.1 ≠ "tls-sni-02".toList)
    (hpost : ∀ x ∈ post, x.1 ≠ "tls-sni-01".toList ∧ x.1 ≠ "tls-sni-02".toList)
    (h02 : ty = "tls-sni-02".toList → post = []) :
    ∃ v0 v s, lejp_construct lejp_user.authz vhd ac0 = some (v0, 0) ∧
      lejp_parse lejp_user.authz v0 (authz_document (pre ++ (ty, u, t) :: post)) pret =
        some (v, pret) ∧
      v.ac = some s ∧ s.challenge_uri = strncpy u (256 - 1) ∧
      s.chall_token = strncpy t (64 - 1) ∧ s.is_sni_02 = decide (ty = "tls-sni-02".toList) := by
  obtain ⟨v0, s0, hc, hv0, hs0, -, -⟩ := construct_authz vhd ac0
  obtain ⟨e1, e2, e3⟩ := last_supported_element s0 pre post ty u t hs0 hty hpre hpost h02
  exact ⟨v0, _, _, hc, lejp_parse_authz _ v0 s0 pret hv0, rfl, e1, e2, e3⟩

/-- Witness for C16: an http-01 element, two tls-sni-01 elements and a dns-01
element. -/
theorem last_supported_challenge_captured_witness :
    ∃ v0 v s, lejp_construct lejp_user.authz vhd_authz ac_authz = some (v0, 0) ∧
      lejp_parse lejp_user.authz v0 (authz_document
        ([("http-01".toList, "u0".toList, "t0".toList),
          ("tls-sni-01".toList, "u1".toList, "t1".toList)] ++
          ("tls-sni-01".toList, "u2".toList, "t2".toList) ::
          [("dns-01".toList, "u3".toList, "t3".toList)])) 0 = some (v, 0) ∧
      v.ac = some s ∧ s.challenge_uri = strncpy "u2".toList (256 - 1) ∧
      s.chall_token = strncpy "t2".toList (64 - 1) ∧
      s.is_sni_02 = decide ("tls-sni-01".toList = "tls-sni-02".toList) :=
  last_supported_challenge_captured vhd_authz ac_authz
    [("http-01".toList, "u0".toList, "t0".toList), ("tls-sni-01".toList, "u1".toList, "t1".toList)]
    [("dns-01".toList, "u3".toList, "t3".toList)] "tls-sni-01".toList "u2".toList "t2".toList 0
    (Or.inl rfl) (by decide) (by decide) (by decide)

/-- C17, the code at the failing input: for an authorization with an element of type
tls-sni-02 followed by an element of type http-01, processing the uri and the token of
the http-01 element replaces the captured challenge URI and token, while the session
still answers the tls-sni-02 sub-type. -/
theorem unsupported_after_sni_02_captured :
    (run ext_sample vhd_authz (authz_response
      [("tls-sni-02".toList, "https://ca/challenge/1".toList, "tok1".toList)])).map
      (fun v => v.ac.map fun a => (a.challenge_uri, a.chall_token, a.is_sni_02)) =
      some (some ("https://ca/challenge/1".toList, "tok1".toList, true)) ∧
    (run ext_sample vhd_authz (authz_response
      [("tls-sni-02".toList, "https://ca/challenge/1".toList, "tok1".toList),
       ("http-01".toList, "https://ca/challenge/2".toList, "tok2".toList)])).map
      (fun v => v.ac.map fun a => (a.challenge_uri, a.chall_token, a.is_sni_02)) =
      some (some ("https://ca/challenge/2".toList, "tok2".toList, true)) := by
  decide

/-- C18, the code at the failing input: for an authorization whose only challenge
element is of type http-01 nothing is captured (URI and token empty, no bit of `yes`
set), yet the completion of the exchange returns 0 with the session alive in the state
ACCEPT_CHALL, after creating the temporary vhost and starting the acceptance POST to
the empty URI. -/
theorem new_auth_without_challenge_goes_on :
    (run ext_sample vhd_authz (authz_response
      [("http-01".toList, "https://ca/challenge/1".toList, "tok1".toList)])).map
      (fun v => v.ac.map fun a => (a.challenge_uri, a.chall_token, a.yes)) =
      some (some ([], [], 0)) ∧
    ((run ext_sample vhd_authz (authz_response
      [("http-01".toList, "https://ca/challenge/1".toList, "tok1".toList)])).bind fun v =>
        (callback_acme_client ext_sample v
          (LWS_CALLBACK_COMPLETED_CLIENT_HTTP completion_ok)).map fun r =>
            (r.ret, r.vhd.ac.map (fun a => a.state), r.eff)) =
      some (0, some ACME_STATE_ACCEPT_CHALL,
        [Effect.create_vhost
          "000102030405060708090a0b0c0d0e0f.101112131415161718191a1b1c1d1e1f.acme.invalid".toList
          [] 0,
         Effect.client_connect [] "POST".toList]) := by
  decide


theorem cb_dir_unmatched (s : per_vhost_data__lws_acme_client) (reason : lejp_callbacks)
    (ctx : lejp_ctx) (h : ctx.path_match = 0) : cb_dir s reason ctx = some (s, 0) := by
  simp [cb_dir, h]

theorem cb_dir_start (s : per_vhost_data__lws_acme_client) (ac : acme_connection) (k : Nat)
    (buf : List Char) (h : s.ac = some ac) (hk : k ≠ 0) :
    cb_dir s LEJPCB_VAL_STR_START { path_match := k, buf := buf } =
      some ({ s with pos := 0, len := 100 - 1, dest := some (k - 1) }, 0) := by
  simp [cb_dir, h, hk]

theorem cb_dir_chunk (s : per_vhost_data__lws_acme_client) (ac : acme_connection) (k d : Nat)
    (c : List Char) (last : Bool) (h : s.ac = some ac) (hd : s.dest = some d) (hk : k ≠ 0) :
    cb_dir s (if last then LEJPCB_VAL_STR_END else LEJPCB_VAL_STR_CHUNK)
        { path_match := k, buf := c } =
      if s.pos + c.length > s.len then some (s, -1)
      else
        some ({ s with ac := some { ac with urls := ac.urls.set d (if s.pos ≤ (ac.urls.getD d []).length then (ac.urls.getD d []).take s.pos ++ c else ac.urls.getD d []) }, pos := s.pos + c.length }, 0) := by
  cases last <;> simp [cb_dir, h, hd, hk, LEJP_FLAG_CB_IS_VALUE, lejp_ctx.npos]

theorem lejp_parse_dir_cons (s : per_vhost_data__lws_acme_client) (e : lejp_event)
    (es : List lejp_event) (pret : Int) :
    lejp_parse lejp_user.dir s (e :: es) pret =
      match cb_dir s e.reason e.ctx with
      | none => none
      | some (s1, r) =>
        if r ≠ 0 then some (s1, LEJP_REJECT_CALLBACK) else lejp_parse lejp_user.dir s1 es pret :=
  rfl

theorem getD_set_self (us : List (List Char)) (d : Nat) (x : List Char) (h : d < us.length) :
    (us.set d x).getD d [] = x := by
  rw [List.getD_eq_getElem _ _ (by rw [List.length_set]; exact h), List.getElem_set_self]

theorem chunks_parse (k d : Nat) (hk : k ≠ 0) (cs : List (List Char)) :
    ∀ (s : per_vhost_data__lws_acme_client) (ac : acme_connection) (acc : List Char),
      s.ac = some ac → s.dest = some d → d < ac.urls.length → s.len = 99 →
      s.pos = acc.length → acc.length ≤ (ac.urls.getD d []).length →
      (ac.urls.getD d []).take acc.length = acc →
      (acc.length + cs.flatten.length ≤ 99 →
        ∃ s1 ac1, (∀ rest pret, lejp_parse lejp_user.dir s (chunk_events k cs ++ rest) pret =
            lejp_parse lejp_user.dir s1 rest pret) ∧
          s1.ac = some ac1 ∧
          ac1.urls = (if cs = [] then ac.urls else ac.urls.set d (acc ++ cs.flatten))) ∧
      (acc.length ≤ 99 → acc.length + cs.flatten.length > 99 →
        ∃ s1 ac1 pre c post, cs = pre ++ c :: post ∧
          acc.length + pre.flatten.length ≤ 99 ∧
          acc.length + pre.flatten.length + c.length > 99 ∧
          (∀ rest pret, lejp_parse lejp_user.dir s (chunk_events k cs ++ rest) pret =
            some (s1, LEJP_REJECT_CALLBACK)) ∧
          cb_dir s1 (if post.isEmpty then LEJPCB_VAL_STR_END else LEJPCB_VAL_STR_CHUNK)
            { path_match := k, buf := c } = some (s1, -1) ∧
          s1.ac = some ac1 ∧
          ac1.urls = (if pre = [] then ac.urls else ac.urls.set d (acc ++ pre.flatten))) := by
  induction cs with
  | nil =>
    intro s ac acc h hd hdl hlen hpos hle htake
    refine ⟨fun _ => ⟨s, ac, fun _ _ => rfl, h, rfl⟩, ?_⟩
    intro h1 h2
    simp only [List.flatten_nil, List.length_nil] at h2
    omega
  | cons c cs ih =>
    intro s ac acc h hd hdl hlen hpos hle htake
    have hstep := cb_dir_chunk s ac k d c cs.isEmpty h hd hk
    rw [hpos, hlen, if_pos hle, htake] at hstep
    by_cases hc : acc.length + c.length > 99
    · rw [if_pos hc] at hstep
      refine ⟨?_, ?_⟩
      · intro h1
        simp only [List.flatten_cons, List.length_append] at h1
        omega
      · intro h1 _
        refine ⟨s, ac, [], c, cs, rfl, by simpa using h1, by simpa using hc, ?_, hstep, h, rfl⟩
        intro rest pret
        show lejp_parse lejp_user.dir s (_ :: (chunk_events k cs ++ rest)) pret = _
        rw [lejp_parse_dir_cons]
        simp only [hstep]
        rfl
    · rw [if_neg hc] at hstep
      have hnext : ∀ rest pret, lejp_parse lejp_user.dir s (chunk_events k (c :: cs) ++ rest) pret =
          lejp_parse lejp_user.dir
            { s with ac := some { ac with urls := ac.urls.set d (acc ++ c) }, pos := acc.length + c.length, len := 99 }
            (chunk_events k cs ++ rest) pret := by
        intro rest pret
        show lejp_parse lejp_user.dir s (_ :: (chunk_events k cs ++ rest)) pret = _
        rw [lejp_parse_dir_cons]
        simp only [hstep]
        rfl
      obtain ⟨ih1, ih2⟩ := ih
        { s with ac := some { ac with urls := ac.urls.set d (acc ++ c) }, pos := acc.length + c.length, len := 99 }
        { ac with urls := ac.urls.set d (acc ++ c) } (acc ++ c) rfl hd
        (by simp only [List.length_set]; exact hdl) rfl (by simp only [List.length_append])
        (by simp only [getD_set_self _ _ _ hdl]; exact le_refl _)
        (by simp only [getD_set_self _ _ _ hdl, List.take_length])
      refine ⟨?_, ?_⟩
      · intro h1
        obtain ⟨s1, ac1, hp, hs1, hu⟩ := ih1 (by
          simp only [List.flatten_cons, List.length_append] at h1 ⊢
          omega)
        refine ⟨s1, ac1, fun rest pret => (hnext rest pret).trans (hp rest pret), hs1, ?_⟩
        rw [hu, if_neg (List.cons_ne_nil c cs)]
        by_cases hcs : cs = []
        · rw [if_pos hcs, hcs]
          simp only [List.flatten_cons, List.flatten_nil, List.append_nil]
        · rw [if_neg hcs]
          simp only [List.set_set, List.flatten_cons, List.append_assoc]
      · intro h1 h2
        obtain ⟨s1, ac1, pre, c1, post, hcs, hp1, hp2, hp, hcb, hs1, hu⟩ := ih2
          (by simp only [List.length_append]; omega)
          (by
            simp only [List.flatten_cons, List.length_append] at h2 ⊢
            omega)
        refine ⟨s1, ac1, c :: pre, c1, post, by rw [hcs]; rfl, ?_, ?_,
          fun rest pret => (hnext rest pret).trans (hp rest pret), hcb, hs1, ?_⟩
        · simp only [List.flatten_cons, List.length_append] at hp1 ⊢
          omega
        · simp only [List.flatten_cons, List.length_append] at hp2 ⊢
          omega
        · rw [hu, if_neg (List.cons_ne_nil c pre)]
          by_cases hpre : pre = []
          · rw [if_pos hpre, hpre]
            simp only [List.flatten_cons, List.flatten_nil, List.append_nil]
          · rw [if_neg hpre]
            simp only [List.set_set, List.flatten_cons, List.append_assoc]


theorem unmatched_chunks (cs : List (List Char)) :
    ∀ (s : per_vhost_data__lws_acme_client) (rest : List lejp_event) (pret : Int),
      lejp_parse lejp_user.dir s (chunk_events 0 cs ++ rest) pret =
        lejp_parse lejp_user.dir s rest pret := by
  induction cs with
  | nil => intro s rest pret; rfl
  | cons c cs ih =>
    intro s rest pret
    show lejp_parse lejp_user.dir s (_ :: (chunk_events 0 cs ++ rest)) pret = _
    rw [lejp_parse_dir_cons, cb_dir_unmatched _ _ _ rfl]
    exact ih s rest pret

theorem unmatched_value (cs : List (List Char)) (s : per_vhost_data__lws_acme_client)
    (rest : List lejp_event) (pret : Int) :
    lejp_parse lejp_user.dir s (dir_value 0 cs ++ rest) pret =
      lejp_parse lejp_user.dir s rest pret := by
  show lejp_parse lejp_user.dir s (_ :: (chunk_events 0 cs ++ rest)) pret = _
  rw [lejp_parse_dir_cons, cb_dir_unmatched _ _ _ rfl]
  exact unmatched_chunks cs s rest pret

theorem value_start (s : per_vhost_data__lws_acme_client) (ac : acme_connection) (k : Nat)
    (cs : List (List Char)) (rest : List lejp_event) (pret : Int) (h : s.ac = some ac)
    (hk : k ≠ 0) :
    lejp_parse lejp_user.dir s (dir_value k cs ++ rest) pret =
      lejp_parse lejp_user.dir { s with pos := 0, len := 100 - 1, dest := some (k - 1) }
        (chunk_events k cs ++ rest) pret := by
  show lejp_parse lejp_user.dir s (_ :: (chunk_events k cs ++ rest)) pret = _
  rw [lejp_parse_dir_cons]
  simp only [cb_dir_start s ac k [] h hk]
  rfl

theorem value_accepted (s : per_vhost_data__lws_acme_client) (ac : acme_connection) (k : Nat)
    (cs : List (List Char)) (h : s.ac = some ac) (hk : k ≠ 0) (hu : k - 1 < ac.urls.length)
    (hne : cs ≠ []) (hlen : cs.flatten.length ≤ 99) :
    ∃ s1 ac1, (∀ rest pret, lejp_parse lejp_user.dir s (dir_value k cs ++ rest) pret =
        lejp_parse lejp_user.dir s1 rest pret) ∧
      s1.ac = some ac1 ∧ ac1.urls = ac.urls.set (k - 1) cs.flatten := by
  obtain ⟨s1, ac1, hp, hs1, hu1⟩ := (chunks_parse k (k - 1) hk cs
    { s with pos := 0, len := 100 - 1, dest := some (k - 1) } ac [] h rfl hu rfl rfl
    (Nat.zero_le _) rfl).1 (by simpa using hlen)
  refine ⟨s1, ac1, fun rest pret => (value_start s ac k cs rest pret h hk).trans (hp rest pret),
    hs1, ?_⟩
  rw [hu1, if_neg hne, List.nil_append]

theorem value_rejected (s : per_vhost_data__lws_acme_client) (ac : acme_connection) (k : Nat)
    (cs : List (List Char)) (h : s.ac = some ac) (hk : k ≠ 0) (hu : k - 1 < ac.urls.length)
    (hlen : cs.flatten.length > 99) :
    ∃ s1 ac1 pre c post, cs = pre ++ c :: post ∧ pre.flatten.length ≤ 99 ∧
      pre.flatten.length + c.length > 99 ∧
      (∀ rest pret, lejp_parse lejp_user.dir s (dir_value k cs ++ rest) pret =
        some (s1, LEJP_REJECT_CALLBACK)) ∧
      cb_dir s1 (if post.isEmpty then LEJPCB_VAL_STR_END else LEJPCB_VAL_STR_CHUNK)
        { path_match := k, buf := c } = some (s1, -1) ∧
      s1.ac = some ac1 ∧
      ac1.urls = (if pre = [] then ac.urls else ac.urls.set (k - 1) pre.flatten) := by
  obtain ⟨s1, ac1, pre, c, post, hcs, h1, h2, hp, hcb, hs1, hu1⟩ := (chunks_parse k (k - 1) hk cs
    { s with pos := 0, len := 100 - 1, dest := some (k - 1) } ac [] h rfl hu rfl rfl
    (Nat.zero_le _) rfl).2 (Nat.zero_le _) (by simpa using hlen)
  refine ⟨s1, ac1, pre, c, post, hcs, by simpa using h1, by simpa using h2,
    fun rest pret => (value_start s ac k cs rest pret h hk).trans (hp rest pret), hcb, hs1, ?_⟩
  rw [hu1, List.nil_append]

theorem dir_document_cons (f : Nat × List (List Char)) (fs : List (Nat × List (List Char))) :
    dir_document (f :: fs) = dir_value f.1 f.2 ++ dir_document fs := by
  simp only [dir_document, List.map_cons, List.flatten_cons]

theorem dir_slots_cons (us : List (List Char)) (f : Nat × List (List Char))
    (fs : List (Nat × List (List Char))) :
    dir_slots us (f :: fs) =
      dir_slots (if f.1 = 0 then us else us.set (f.1 - 1) f.2.flatten) fs := rfl

theorem dir_parse (fields : List (Nat × List (List Char))) :
    ∀ (s : per_vhost_data__lws_acme_client) (ac : acme_connection),
      s.ac = some ac → ac.urls.length = 6 → (∀ f ∈ fields, f.1 ≤ 6) →
      (∀ f ∈ fields, f.1 ≠ 0 → f.2 ≠ [] ∧ f.2.flatten.length ≤ 99) →
      ∃ s1 ac1, (∀ pret, lejp_parse lejp_user.dir s (dir_document fields) pret =
          some (s1, pret)) ∧
        s1.ac = some ac1 ∧ ac1.urls = dir_slots ac.urls fields := by
  induction fields with
  | nil =>
    intro s ac h _ _ _
    exact ⟨s, ac, fun _ => rfl, h, rfl⟩
  | cons f fs ih =>
    intro s ac h hu hk hv
    have hk0 := hk f (List.mem_cons_self _ _)
    rw [dir_slots_cons]
    by_cases hf : f.1 = 0
    · obtain ⟨s1, ac1, hp, hs1, hu1⟩ := ih s ac h hu
        (fun x hx => hk x (List.mem_cons_of_mem _ hx))
        (fun x hx => hv x (List.mem_cons_of_mem _ hx))
      refine ⟨s1, ac1, ?_, hs1, by rw [hu1, if_pos hf]⟩
      intro pret
      rw [dir_document_cons, hf, unmatched_value]
      exact hp pret
    · obtain ⟨hne, hlen⟩ := hv f (List.mem_cons_self _ _) hf
      obtain ⟨s0, ac0, hp0, hs0, hu0⟩ := value_accepted s ac f.1 f.2 h hf (by omega) hne hlen
      obtain ⟨s1, ac1, hp, hs1, hu1⟩ := ih s0 ac0 hs0 (by rw [hu0, List.length_set]; exact hu)
        (fun x hx => hk x (List.mem_cons_of_mem _ hx))
        (fun x hx => hv x (List.mem_cons_of_mem _ hx))
      refine ⟨s1, ac1, ?_, hs1, by rw [hu1, hu0, if_neg hf]⟩
      intro pret
      rw [dir_document_cons, hp0]
      exact hp pret

theorem dir_slots_length (fs : List (Nat × List (List Char))) :
    ∀ us : List (List Char), (dir_slots us fs).length = us.length := by
  induction fs with
  | nil => intro us; rfl
  | cons f fs ih =>
    intro us
    rw [dir_slots_cons, ih]
    split
    · rfl
    · rw [List.length_set]

theorem dir_slots_absent (i : Nat) (fs : List (Nat × List (List Char))) :
    ∀ us : List (List Char), (∀ f ∈ fs, f.1 ≠ i + 1) →
      (dir_slots us fs).getD i [] = us.getD i [] := by
  induction fs with
  | nil => intro us _; rfl
  | cons f fs ih =>
    intro us h
    rw [dir_slots_cons, ih _ (fun x hx => h x (List.mem_cons_of_mem _ hx))]
    have hf := h f (List.mem_cons_self _ _)
    split
    · rfl
    · rw [List.getD_eq_getElem?_getD, List.getD_eq_getElem?_getD,
        List.getElem?_set_ne (by omega)]

theorem dir_slots_present (i : Nat) (cs : List (List Char))
    (fs : List (Nat × List (List Char))) :
    ∀ us : List (List Char), i < us.length →
      fs.Pairwise (fun a b => a.1 = b.1 → a.1 = 0) → (i + 1, cs) ∈ fs →
      (dir_slots us fs).getD i [] = cs.flatten := by
  induction fs with
  | nil => intro us _ _ hm; cases hm
  | cons f fs ih =>
    intro us hi hp hm
    rw [List.pairwise_cons] at hp
    rw [dir_slots_cons]
    rcases List.mem_cons.mp hm with heq | hin
    · subst heq
      rw [dir_slots_absent i fs _ (fun x hx hx1 => by
        have := hp.1 x hx hx1.symm
        simp at this)]
      simp only [Nat.add_one_ne_zero, if_false, Nat.add_sub_cancel]
      exact getD_set_self us i _ hi
    · apply ih _ _ hp.2 hin
      split
      · exact hi
      · rw [List.length_set]; exact hi

theorem dir_slots_perm (us : List (List Char)) (fs fs1 : List (Nat × List (List Char)))
    (hperm : fs1.Perm fs) (hp : fs.Pairwise (fun a b => a.1 = b.1 → a.1 = 0)) :
    dir_slots us fs1 = dir_slots us fs := by
  have hsymm : ∀ a b : Nat × List (List Char), (a.1 = b.1 → a.1 = 0) → (b.1 = a.1 → b.1 = 0) := by
    intro a b h hba
    rw [hba]
    exact h hba.symm
  have hp1 : fs1.Pairwise (fun a b => a.1 = b.1 → a.1 = 0) :=
    hperm.symm.pairwise hp (fun {a b} h => hsymm a b h)
  apply List.ext_getElem
  · rw [dir_slots_length, dir_slots_length]
  · intro i h1 h2
    rw [dir_slots_length] at h1
    have e1 := List.getD_eq_getElem (dir_slots us fs1) [] (by rw [dir_slots_length]; exact h1)
    have e2 := List.getD_eq_getElem (dir_slots us fs) [] (by rw [dir_slots_length]; exact h1)
    rw [← e1, ← e2]
    by_cases hex : ∃ cs, (i + 1, cs) ∈ fs
    · obtain ⟨cs, hcs⟩ := hex
      rw [dir_slots_present i cs fs us h1 hp hcs,
        dir_slots_present i cs fs1 us h1 hp1 (hperm.mem_iff.mpr hcs)]
    · have habs : ∀ f ∈ fs, f.1 ≠ i + 1 := by
        intro f hf hf1
        exact hex ⟨f.2, by rw [← hf1]; exact hf⟩
      rw [dir_slots_absent i fs us habs,
        dir_slots_absent i fs1 us (fun f hf => habs f (hperm.mem_iff.mp hf))]


/-- C19: for a directory given as a stream of parser events whose fields with a known
key have pairwise different keys and a string value of at most 99 bytes, delivered in
chunks, the parse ends without an objection and leaves in the slot of each such key
exactly the value of that key; a slot whose key does not occur keeps its contents; every
reordering of the fields gives the same six slots; and a callback for an event that
matches none of the six paths changes nothing at all. -/
theorem directory_slots_hold_values (vhd : per_vhost_data__lws_acme_client)
    (ac : acme_connection) (fields : List (Nat × List (List Char))) (pret : Int)
    (h : vhd.ac = some ac) (hu : ac.urls.length = 6) (hk : ∀ f ∈ fields, f.1 ≤ 6)
    (hv : ∀ f ∈ fields, f.1 ≠ 0 → f.2 ≠ [] ∧ f.2.flatten.length ≤ 99)
    (hd : fields.Pairwise (fun a b => a.1 = b.1 → a.1 = 0)) :
    ∃ v ac1, lejp_parse lejp_user.dir vhd (dir_document fields) pret = some (v, pret) ∧
      v.ac = some ac1 ∧ ac1.urls.length = 6 ∧
      (∀ k cs, k ≠ 0 → (k, cs) ∈ fields → ac1.urls.getD (k - 1) [] = cs.flatten) ∧
      (∀ i, (∀ f ∈ fields, f.1 ≠ i + 1) → ac1.urls.getD i [] = ac.urls.getD i []) ∧
      (∀ fields1, fields1.Perm fields →
        ∃ v1 ac2, lejp_parse lejp_user.dir vhd (dir_document fields1) pret = some (v1, pret) ∧
          v1.ac = some ac2 ∧ ac2.urls = ac1.urls) ∧
      (∀ (s : per_vhost_data__lws_acme_client) (reason : lejp_callbacks) (ctx : lejp_ctx),
        ctx.path_match = 0 → cb_dir s reason ctx = some (s, 0)) := by
  obtain ⟨v, ac1, hp, hv1, hu1⟩ := dir_parse fields vhd ac h hu hk hv
  refine ⟨v, ac1, hp pret, hv1, ?_, ?_, ?_, ?_, cb_dir_unmatched⟩
  · rw [hu1, dir_slots_length, hu]
  · intro k cs hk0 hm
    have hk6 := hk (k, cs) hm
    have hm1 : (k - 1 + 1, cs) ∈ fields := by
      rw [Nat.sub_add_cancel (Nat.pos_of_ne_zero hk0)]
      exact hm
    rw [hu1]
    exact dir_slots_present (k - 1) cs fields ac.urls
      (by rw [hu]; have : k ≤ 6 := hk6; omega) hd hm1
  · intro i hi
    rw [hu1]
    exact dir_slots_absent i fields ac.urls hi
  · intro fields1 hperm
    obtain ⟨v1, ac2, hp1, hv2, hu2⟩ := dir_parse fields1 vhd ac h hu
      (fun f hf => hk f (hperm.mem_iff.mp hf)) (fun f hf => hv f (hperm.mem_iff.mp hf))
    exact ⟨v1, ac2, hp1 pret, hv2, by rw [hu2, hu1, dir_slots_perm ac.urls fields fields1 hperm hd]⟩

/-- Witness for C19: the sample directory, with its six known fields out of order, two
values in two chunks and two unmatched fields. -/
theorem directory_slots_hold_values_witness :
    ∃ v ac1, lejp_parse lejp_user.dir vhd_directory (dir_document fields_sample) 0 =
        some (v, 0) ∧
      v.ac = some ac1 ∧ ac1.urls.length = 6 ∧
      (∀ k cs, k ≠ 0 → (k, cs) ∈ fields_sample → ac1.urls.getD (k - 1) [] = cs.flatten) ∧
      (∀ i, (∀ f ∈ fields_sample, f.1 ≠ i + 1) →
        ac1.urls.getD i [] = ac_directory.urls.getD i []) ∧
      (∀ fields1, fields1.Perm fields_sample →
        ∃ v1 ac2, lejp_parse lejp_user.dir vhd_directory (dir_document fields1) 0 =
            some (v1, 0) ∧
          v1.ac = some ac2 ∧ ac2.urls = ac1.urls) ∧
      (∀ (s : per_vhost_data__lws_acme_client) (reason : lejp_callbacks) (ctx : lejp_ctx),
        ctx.path_match = 0 → cb_dir s reason ctx = some (s, 0)) :=
  directory_slots_hold_values vhd_directory ac_directory fields_sample 0 rfl (List.length_replicate 6 []) (by decide) (by decide) (by decide)

theorem read_rejected (vhd : per_vhost_data__lws_acme_client) (ac : acme_connection)
    (inp : List Nat) (cbs : List lejp_event) (pret : Int) (s1 : per_vhost_data__lws_acme_client)
    (hs : ac.state = ACME_STATE_DIRECTORY) (hj : ac.jctx = some lejp_user.dir)
    (hp : lejp_parse lejp_user.dir vhd cbs pret = some (s1, LEJP_REJECT_CALLBACK)) :
    receive_client_http_read vhd ac inp cbs pret = some (failed s1 []) := by
  simp only [receive_client_http_read, hs, hj, hp]
  rw [if_pos (by decide)]

/-- C20: a string value of a known directory field, delivered in one or more chunks
after its start event: when it has at most 99 bytes the parse goes through and the slot
holds the value, which with its terminating NUL fits the 100 bytes of the slot; when it
has more than 99 bytes, there is a first chunk with which the value would exceed 99
bytes, the callback returns -1 for that chunk and leaves the data as it was, so the
slot holds only the earlier chunks, at most 99 bytes, the parse result is the negative
`LEJP_REJECT_CALLBACK`, and the read that delivered the value ends the session with
return value -1. -/
theorem directory_value_limit (X : Ext) (vhd : per_vhost_data__lws_acme_client)
    (ac : acme_connection) (k : Nat) (cs : List (List Char)) (inp : List Nat) (pret : Int)
    (h : vhd.ac = some ac) (hs : ac.state = ACME_STATE_DIRECTORY)
    (hj : ac.jctx = some lejp_user.dir) (hu : ac.urls.length = 6)
    (hk0 : k ≠ 0) (hk6 : k ≤ 6) (hne : cs ≠ []) :
    (cs.flatten.length ≤ 99 →
      ∃ v ac1, lejp_parse lejp_user.dir vhd (dir_value k cs) pret = some (v, pret) ∧
        v.ac = some ac1 ∧ ac1.urls.getD (k - 1) [] = cs.flatten ∧
        (ac1.urls.getD (k - 1) []).length + 1 ≤ 100) ∧
    (cs.flatten.length > 99 →
      ∃ v ac1 pre c post r, cs = pre ++ c :: post ∧ pre.flatten.length ≤ 99 ∧
        pre.flatten.length + c.length > 99 ∧
        lejp_parse lejp_user.dir vhd (dir_value k cs) pret = some (v, LEJP_REJECT_CALLBACK) ∧
        cb_dir v (if post.isEmpty then LEJPCB_VAL_STR_END else LEJPCB_VAL_STR_CHUNK)
          { path_match := k, buf := c } = some (v, -1) ∧
        v.ac = some ac1 ∧
        ac1.urls = (if pre = [] then ac.urls else ac.urls.set (k - 1) pre.flatten) ∧
        callback_acme_client X vhd
          (LWS_CALLBACK_RECEIVE_CLIENT_HTTP_READ inp (dir_value k cs) pret) = some r ∧
        r.ret = -1 ∧ r.vhd.ac = none) := by
  have hlt : k - 1 < ac.urls.length := by rw [hu]; omega
  constructor
  · intro hlen
    obtain ⟨v, ac1, hp, hv, hu1⟩ := value_accepted vhd ac k cs h hk0 hlt hne hlen
    have hp0 := hp [] pret
    rw [List.append_nil] at hp0
    have hslot : ac1.urls.getD (k - 1) [] = cs.flatten := by
      rw [hu1]
      exact getD_set_self _ _ _ hlt
    refine ⟨v, ac1, hp0, hv, hslot, ?_⟩
    rw [hslot]
    omega
  · intro hlen
    obtain ⟨v, ac1, pre, c, post, hcs, h1, h2, hp, hcb, hv, hu1⟩ :=
      value_rejected vhd ac k cs h hk0 hlt hlen
    have hp0 := hp [] pret
    rw [List.append_nil] at hp0
    refine ⟨v, ac1, pre, c, post, failed v [], hcs, h1, h2, hp0, hcb, hv, hu1, ?_,
      (failed_releases _ _).2, (failed_releases _ _).1⟩
    simp only [callback_acme_client, h]
    exact read_rejected vhd ac inp _ pret v hs hj hp0

/-- Witness for C20: the new-reg field of the sample directory with a value of 120 bytes
in two chunks of 60 bytes. -/
theorem directory_value_limit_witness :
    (chunks_too_long.flatten.length ≤ 99 →
      ∃ v ac1, lejp_parse lejp_user.dir vhd_directory (dir_value 5 chunks_too_long) 0 =
          some (v, 0) ∧
        v.ac = some ac1 ∧ ac1.urls.getD (5 - 1) [] = chunks_too_long.flatten ∧
        (ac1.urls.getD (5 - 1) []).length + 1 ≤ 100) ∧
    (chunks_too_long.flatten.length > 99 →
      ∃ v ac1 pre c post r, chunks_too_long = pre ++ c :: post ∧ pre.flatten.length ≤ 99 ∧
        pre.flatten.length + c.length > 99 ∧
        lejp_parse lejp_user.dir vhd_directory (dir_value 5 chunks_too_long) 0 =
          some (v, LEJP_REJECT_CALLBACK) ∧
        cb_dir v (if post.isEmpty then LEJPCB_VAL_STR_END else LEJPCB_VAL_STR_CHUNK)
          { path_match := 5, buf := c } = some (v, -1) ∧
        v.ac = some ac1 ∧
        ac1.urls = (if pre = [] then ac_directory.urls
          else ac_directory.urls.set (5 - 1) pre.flatten) ∧
        callback_acme_client ext_sample vhd_directory
          (LWS_CALLBACK_RECEIVE_CLIENT_HTTP_READ [] (dir_value 5 chunks_too_long) 0) = some r ∧
        r.ret = -1 ∧ r.vhd.ac = none) :=
  directory_value_limit ext_sample vhd_directory ac_directory 5 chunks_too_long [] 0 rfl rfl rfl
    (List.length_replicate 6 []) (by decide) (by decide) (by decide)


/-- C21, the code at the failing input: a first session of the site obtains the
directory (it is in NEW_REG with the six URLs) and then ends; the next qualifying aging
signal starts a session in DIRECTORY with six empty slots and requests a GET of the
directory URL again. -/
theorem aging_after_directory_starts_in_directory :
    (run ext_sample vhd_site events_directory_known).map
      (fun v => (v.ac.map (fun a => a.state), v.ac.map (fun a => a.urls))) =
      some (some ACME_STATE_NEW_REG, some urls_sample) ∧
    (run ext_sample vhd_site events_first_session).map (fun v => v.ac) = some none ∧
    ((run ext_sample vhd_site events_first_session).bind fun v =>
      (callback_acme_client ext_sample v aging_signal).map fun r =>
        (r.ret, r.vhd.ac.map (fun a => a.state), r.eff)) =
      some (0, some ACME_STATE_DIRECTORY,
        [Effect.client_connect "https://ca/directory".toList "GET".toList]) ∧
    ((run ext_sample vhd_site events_first_session).bind fun v =>
      (callback_acme_client ext_sample v aging_signal).map fun r =>
        r.vhd.ac.map (fun a => a.urls)) = some (some (List.replicate 6 [])) := by
  refine ⟨?_, ?_, ?_, ?_⟩ <;> decide

/-- C22, the code at the failing input: the completion that ends a session in failure
(registration answered with HTTP status 500) and the completion that ends a session in
success (certificate installed) both leave the site without its account key. -/
theorem session_end_destroys_account_key :
    (vhd_new_reg 500).jwk = some [1, 2, 3] ∧
    (callback_acme_client ext_sample (vhd_new_reg 500)
      (LWS_CALLBACK_COMPLETED_CLIENT_HTTP completion_ok)).map
        (fun r => (r.ret, r.vhd.ac, r.vhd.jwk, r.eff)) =
      some (-1, none, none, [Effect.genrsa_destroy, Effect.jwk_destroy]) ∧
    vhd_cert_received.jwk = some [1, 2, 3] ∧
    (callback_acme_client ext_sample vhd_cert_received
      (LWS_CALLBACK_COMPLETED_CLIENT_HTTP completion_ok)).map
        (fun r => (r.ret, r.vhd.ac, r.vhd.jwk)) = some (0, none, none) := by
  refine ⟨?_, ?_, ?_, ?_⟩ <;> decide

/-- C23, the code at the failing input: a qualifying aging signal for a site whose
session is polling its challenge replaces that session by a new one in DIRECTORY and
requests a GET of the directory URL; the temporary vhost of the replaced session is not
destroyed. -/
theorem aging_replaces_live_session :
    (vhd_site_polling.ac.map (fun a => a.state), vhd_site_polling.ac.map (fun a => a.vhost)) =
      (some ACME_STATE_POLLING, some (some 7)) ∧
    (callback_acme_client ext_sample vhd_site_polling aging_signal).map
      (fun r => (r.ret, r.vhd.ac.map (fun a => a.state), r.eff)) =
      some (0, some ACME_STATE_DIRECTORY,
        [Effect.client_connect "https://ca/directory".toList "GET".toList]) ∧
    (callback_acme_client ext_sample vhd_site_polling aging_signal).map
      (fun r => (r.vhd.ac.map (fun a => a.vhost), r.vhd.ac.map (fun a => a.urls))) =
      some (some none, some (List.replicate 6 [])) := by
  refine ⟨?_, ?_, ?_⟩ <;> decide

/-- C24, the code at the failing input: a client connection-error event returns 0 and
leaves the session in place, in its state and with its temporary vhost; and when
the connect call gives no connection at the completion of the directory exchange or of
the registration exchange, the callback returns 0 with the session alive in the next
state. -/
theorem transport_failure_keeps_session :
    (callback_acme_client ext_sample vhd_site_polling
      LWS_CALLBACK_CLIENT_CONNECTION_ERROR).map
        (fun r => (r.ret, r.vhd.ac.map (fun a => a.state), r.vhd.ac.map (fun a => a.vhost),
          r.eff)) = some (0, some ACME_STATE_POLLING, some (some 7), []) ∧
    ((run ext_sample vhd_site events_directory_read).bind fun v =>
      (callback_acme_client ext_sample v
        (LWS_CALLBACK_COMPLETED_CLIENT_HTTP completion_no_connection)).map fun r =>
          (r.ret, r.vhd.ac.map (fun a => a.state), r.eff)) =
      some (0, some ACME_STATE_NEW_REG,
        [Effect.client_connect "https://ca/new-reg".toList "POST".toList]) ∧
    (callback_acme_client ext_sample (vhd_new_reg 201)
      (LWS_CALLBACK_COMPLETED_CLIENT_HTTP completion_no_connection)).map
        (fun r => (r.ret, r.vhd.ac.map (fun a => a.state), r.eff)) =
      some (0, some ACME_STATE_NEW_AUTH,
        [Effect.client_connect "https://ca/new-authz".toList "POST".toList]) := by
  refine ⟨?_, ?_, ?_⟩ <;> decide

/-- C25, the code at the failing input: the session the sample site reaches by its
exchanges up to the first poll is in POLLING; a qualifying aging signal then puts the
site's session in DIRECTORY, an earlier state. -/
theorem aging_reenters_directory :
    (run ext_sample vhd_sample events_to_polling).map (fun v => v.ac.map fun a => a.state) =
      some (some ACME_STATE_POLLING) ∧
    (run ext_sample vhd_sample (events_to_polling ++ [aging_signal])).map
      (fun v => v.ac.map fun a => a.state) = some (some ACME_STATE_DIRECTORY) := by
  refine ⟨?_, ?_⟩ <;> decide

/-- C27, the code at the failing input: a response whose replay-nonce header has 64
characters makes the callback return -1 with the session still in place, in its state
and with its temporary vhost; nothing is destroyed. -/
theorem long_nonce_keeps_session :
    (callback_acme_client ext_sample vhd_site_polling
      (LWS_CALLBACK_ESTABLISHED_CLIENT_HTTP 200 (some (List.replicate 64 'n')) none)).map
        (fun r => (r.ret, r.vhd.ac.map (fun a => a.state), r.vhd.ac.map (fun a => a.vhost),
          r.eff)) = some (-1, some ACME_STATE_POLLING, some (some 7), []) := by
  decide

set_option maxRecDepth 8000 in
/-- C28, the code at the failing input: for an authorization whose tls-sni-01 challenge
has a URI of 256 characters and a token of 64 characters, the parse stores the first 255
and 63 characters, and the completion of the exchange returns 0 with the session alive
in ACCEPT_CHALL. -/
theorem long_token_truncated :
    (run ext_sample vhd_authz (authz_response
      [("tls-sni-01".toList, List.replicate 256 'u', List.replicate 64 't')])).map
      (fun v => (v.ac.map (fun a => a.challenge_uri), v.ac.map (fun a => a.chall_token))) =
      some (some (List.replicate 255 'u'), some (List.replicate 63 't')) ∧
    ((run ext_sample vhd_authz (authz_response
      [("tls-sni-01".toList, List.replicate 256 'u', List.replicate 64 't')])).bind fun v =>
        (callback_acme_client ext_sample v
          (LWS_CALLBACK_COMPLETED_CLIENT_HTTP completion_ok)).map fun r =>
            (r.ret, r.vhd.ac.map (fun a => a.state))) =
      some (0, some ACME_STATE_ACCEPT_CHALL) := by
  refine ⟨?_, ?_⟩ <;> decide

/-- C29, the code at the failing input: after the string value of the new-reg field
(path 5), a number reported under the path of the new-authz field (path 3) is accepted
and appended to the slot of new-reg; the slot of new-authz stays empty. -/
theorem number_value_written_to_other_slot :
    (lejp_parse lejp_user.dir vhd_directory
      (dir_field 5 "https://ca/new-reg" ++
        [{ reason := LEJPCB_VAL_NUM_INT, ctx := { path_match := 3, buf := "42".toList } }])
      0).map (fun p => (p.2, p.1.ac.map fun a => a.urls)) =
      some (0, some [[], [], [], [], "https://ca/new-reg42".toList, []]) := by
  decide


theorem read_cert_chunk (X : Ext) (vhd : per_vhost_data__lws_acme_client)
    (ac : acme_connection) (inp : List Nat) (cbs : List lejp_event) (pret : Int)
    (h : vhd.ac = some ac) (hs : ac.state = ACME_STATE_POLLING_CSR) :
    callback_acme_client X vhd (LWS_CALLBACK_RECEIVE_CLIENT_HTTP_READ inp cbs pret) =
      if ac.cpos + inp.length > 4096 then some (failed vhd [])
      else
        some (done { vhd with ac := some { ac with buf := memcpy_at ac.buf ac.cpos inp, cpos := ac.cpos + inp.length } } 0 []) := by
  simp only [callback_acme_client, h, receive_client_http_read, hs]

theorem established_csr_restarts (X : Ext) (vhd : per_vhost_data__lws_acme_client)
    (ac : acme_connection) (resp : Int) (nonce location : Option (List Char))
    (h : vhd.ac = some ac) (hs : ac.state = ACME_STATE_POLLING_CSR)
    (hn : lws_hdr_total_length nonce < 64) :
    ∃ r, callback_acme_client X vhd
        (LWS_CALLBACK_ESTABLISHED_CLIENT_HTTP resp nonce location) = some r ∧
      ∀ ac1, r.vhd.ac = some ac1 →
        ac1.cpos = 0 ∧ ac1.buf = ac.buf ∧ ac1.state = ACME_STATE_POLLING_CSR := by
  have hcopy : ¬ (lws_hdr_copy ac.replay_nonce 64 nonce).1 < 0 := by
    cases nonce with
    | none => simp [lws_hdr_copy]
    | some n =>
      simp only [lws_hdr_total_length] at hn
      simp only [lws_hdr_copy]
      rw [if_neg (by omega)]
      simp
  have hsw : ∀ a : acme_connection, a.state = ACME_STATE_POLLING_CSR → a.buf = ac.buf →
      ∃ r, established_switch vhd a location = some r ∧
        ∀ ac1, r.vhd.ac = some ac1 →
          ac1.cpos = 0 ∧ ac1.buf = ac.buf ∧ ac1.state = ACME_STATE_POLLING_CSR := by
    intro a ha hb
    simp only [established_switch, ha]
    by_cases h1 : a.resp ≠ 201
    · rw [if_pos h1]
      refine ⟨_, rfl, ?_⟩
      intro ac1 h2
      cases h2
      exact ⟨rfl, hb, rfl⟩
    · rw [if_neg h1]
      by_cases h2 : (lws_hdr_copy a.challenge_uri 256 location).1 < 0
      · rw [if_pos h2]
        refine ⟨_, rfl, ?_⟩
        intro ac1 h3
        rw [(failed_releases _ _).1] at h3
        cases h3
      · rw [if_neg h2]
        refine ⟨_, rfl, ?_⟩
        intro ac1 h3
        cases h3
        exact ⟨rfl, hb, rfl⟩
  simp only [callback_acme_client, h, established_client_http]
  rw [if_neg (fun hh => hcopy hh.2)]
  by_cases h0 : lws_hdr_total_length nonce ≠ 0
  · rw [if_pos h0]
    exact hsw _ hs rfl
  · rw [if_neg h0]
    exact hsw _ hs rfl

/-- The body buffer of a session in POLLING_CSR, with its 4096 bytes: a piece of body is
copied at the current position, and the position advanced by its length, exactly when
position plus length is at most 4096, so the position never passes 4096; otherwise the
callback ends the session with return value -1; the response headers (with a nonce that
fits its field) put the position back to 0 and leave the buffer alone; and after a
final response with status 200 delivered in pieces of at most 4096 bytes in total, the
bytes below the position are the concatenation of these pieces, whatever earlier
responses left in the buffer, and they are the certificate the completion hands to the
host. -/
theorem cert_body_within_buffer (X : Ext) (vhd : per_vhost_data__lws_acme_client)
    (ac : acme_connection) (h : vhd.ac = some ac) (hs : ac.state = ACME_STATE_POLLING_CSR)
    (hbuf : ac.buf.length = 4096)
    (hwf : vhd.fd_updated_cert.off ≤ vhd.fd_updated_cert.data.length) :
    (∀ (inp : List Nat) (cbs : List lejp_event) (pret : Int), ac.cpos + inp.length ≤ 4096 →
      ∃ r ac1, callback_acme_client X vhd
          (LWS_CALLBACK_RECEIVE_CLIENT_HTTP_READ inp cbs pret) = some r ∧
        r.ret = 0 ∧ r.vhd.ac = some ac1 ∧ ac1.state = ACME_STATE_POLLING_CSR ∧
        ac1.cpos = ac.cpos + inp.length ∧ ac1.cpos ≤ 4096 ∧ ac1.buf.length = 4096 ∧
        ac1.buf.take ac1.cpos = ac.buf.take ac.cpos ++ inp) ∧
    (∀ (inp : List Nat) (cbs : List lejp_event) (pret : Int), ac.cpos + inp.length > 4096 →
      ∃ r, callback_acme_client X vhd
          (LWS_CALLBACK_RECEIVE_CLIENT_HTTP_READ inp cbs pret) = some r ∧
        r.ret = -1 ∧ r.vhd.ac = none) ∧
    (∀ (resp : Int) (nonce location : Option (List Char)), lws_hdr_total_length nonce < 64 →
      ∃ r, callback_acme_client X vhd
          (LWS_CALLBACK_ESTABLISHED_CLIENT_HTTP resp nonce location) = some r ∧
        ∀ ac1, r.vhd.ac = some ac1 →
          ac1.cpos = 0 ∧ ac1.buf = ac.buf ∧ ac1.state = ACME_STATE_POLLING_CSR) ∧
    (∀ (nonce location : Option (List Char)) (chunks : List (List Nat)) (o : Completion),
      lws_hdr_total_length nonce < 64 → chunks.flatten.length ≤ 4096 →
      ∃ v ac2 r, run X vhd (LWS_CALLBACK_ESTABLISHED_CLIENT_HTTP 200 nonce location ::
          body_chunks chunks) = some v ∧
        v.ac = some ac2 ∧ ac2.cpos = chunks.flatten.length ∧
        ac2.buf.take ac2.cpos = chunks.flatten ∧
        callback_acme_client X v (LWS_CALLBACK_COMPLETED_CLIENT_HTTP o) = some r ∧
        ∀ cert key, Effect.tls_cert_updated cert key ∈ r.eff → cert = chunks.flatten) := by
  refine ⟨?_, ?_, ?_, ?_⟩
  · intro inp cbs pret hfit
    rw [read_cert_chunk X vhd ac inp cbs pret h hs, if_neg (by omega)]
    refine ⟨_, _, rfl, rfl, rfl, hs, rfl, hfit, ?_, ?_⟩
    · show (memcpy_at ac.buf ac.cpos inp).length = 4096
      rw [memcpy_at_length _ _ _ (by omega), hbuf]
    · show (memcpy_at ac.buf ac.cpos inp).take (ac.cpos + inp.length) = _
      exact memcpy_at_take _ _ _ (by omega)
  · intro inp cbs pret hbig
    rw [read_cert_chunk X vhd ac inp cbs pret h hs, if_pos hbig]
    exact ⟨_, rfl, (failed_releases _ _).2, (failed_releases _ _).1⟩
  · intro resp nonce location hn
    exact established_csr_restarts X vhd ac resp nonce location h hs hn
  · intro nonce location chunks o hn hlen
    obtain ⟨r1, ac1, hr1, h1, hs1, hresp1, hc1, hb1, -, -, hf1, -⟩ :=
      established_cert_response X vhd ac nonce location h hs hn
    obtain ⟨v2, ac2, hv2, h2, hs2, hresp2, hc2, hb2, -, -, -, hf2, -⟩ :=
      read_chunks X chunks r1.vhd ac1 h1 hs1 (by rw [hb1]; exact hbuf) (by rw [hc1]; omega)
    have hder : ac2.buf.take ac2.cpos = chunks.flatten := by
      rw [hb2, hc1]
      simp
    obtain ⟨r3, w, hr3, -⟩ :=
      install_step X v2 ac2 o h2 hs2 (by rw [hresp2, hresp1]) (by rw [hf2, hf1]; exact hwf)
    refine ⟨v2, ac2, r3, ?_, h2, by rw [hc2, hc1, Nat.zero_add], hder, hr3, ?_⟩
    · simp only [run, hr1]
      exact hv2
    · intro cert key hmem
      have hany : r3.eff.any is_cert_updated = true :=
        List.any_eq_true.mpr ⟨_, hmem, rfl⟩
      obtain ⟨a, o1, ha, he, -, -, hi⟩ := callback_cert_updated X v2 _ r3 hr3 hany
      rw [h2] at ha
      cases ha
      rcases install_cert_eff v2 ac2 o1 r3 hi with ⟨-, hno⟩ | ⟨-, tail, heff, htail⟩
      · rw [hno] at hany
        cases hany
      · rw [heff] at hmem
        simp only [List.mem_cons] at hmem
        rcases hmem with hm | hm | hm | hm
        · cases hm
        · cases hm
        · cases hm
          exact hder
        · have : tail.any is_cert_updated = true := List.any_eq_true.mpr ⟨_, hm, rfl⟩
          rw [htail] at this
          cases this

/-- The sample session that has posted its certificate request meets the hypotheses of
the statement on the body buffer. -/
theorem cert_body_within_buffer_witness :
    (∀ (inp : List Nat) (cbs : List lejp_event) (pret : Int), ac_csr.cpos + inp.length ≤ 4096 →
      ∃ r ac1, callback_acme_client ext_sample vhd_csr
          (LWS_CALLBACK_RECEIVE_CLIENT_HTTP_READ inp cbs pret) = some r ∧
        r.ret = 0 ∧ r.vhd.ac = some ac1 ∧ ac1.state = ACME_STATE_POLLING_CSR ∧
        ac1.cpos = ac_csr.cpos + inp.length ∧ ac1.cpos ≤ 4096 ∧ ac1.buf.length = 4096 ∧
        ac1.buf.take ac1.cpos = ac_csr.buf.take ac_csr.cpos ++ inp) ∧
    (∀ (inp : List Nat) (cbs : List lejp_event) (pret : Int), ac_csr.cpos + inp.length > 4096 →
      ∃ r, callback_acme_client ext_sample vhd_csr
          (LWS_CALLBACK_RECEIVE_CLIENT_HTTP_READ inp cbs pret) = some r ∧
        r.ret = -1 ∧ r.vhd.ac = none) ∧
    (∀ (resp : Int) (nonce location : Option (List Char)), lws_hdr_total_length nonce < 64 →
      ∃ r, callback_acme_client ext_sample vhd_csr
          (LWS_CALLBACK_ESTABLISHED_CLIENT_HTTP resp nonce location) = some r ∧
        ∀ ac1, r.vhd.ac = some ac1 →
          ac1.cpos = 0 ∧ ac1.buf = ac_csr.buf ∧ ac1.state = ACME_STATE_POLLING_CSR) ∧
    (∀ (nonce location : Option (List Char)) (chunks : List (List Nat)) (o : Completion),
      lws_hdr_total_length nonce < 64 → chunks.flatten.length ≤ 4096 →
      ∃ v ac2 r, run ext_sample vhd_csr (LWS_CALLBACK_ESTABLISHED_CLIENT_HTTP 200 nonce location ::
          body_chunks chunks) = some v ∧
        v.ac = some ac2 ∧ ac2.cpos = chunks.flatten.length ∧
        ac2.buf.take ac2.cpos = chunks.flatten ∧
        callback_acme_client ext_sample v (LWS_CALLBACK_COMPLETED_CLIENT_HTTP o) = some r ∧
        ∀ cert key, Effect.tls_cert_updated cert key ∈ r.eff → cert = chunks.flatten) :=
  cert_body_within_buffer ext_sample vhd_csr ac_csr rfl rfl (List.length_replicate 4096 0)
    (by decide)


theorem failed_holds (n : List Char) (v : per_vhost_data__lws_acme_client) (eff : List Effect) :
    holds_nonce n (failed v eff) := by
  intro ac1 h1
  rw [(failed_releases v eff).1] at h1
  cases h1

theorem done_holds (n : List Char) (v : per_vhost_data__lws_acme_client) (a : acme_connection)
    (ret : Int) (eff : List Effect) (h : v.ac = some a) (hn : a.replay_nonce = n) :
    holds_nonce n (done v ret eff) := by
  intro ac1 h1
  simp only [done] at h1
  rw [h] at h1
  cases h1
  exact hn

theorem cb_authz_nonce (s : acme_connection) (reason : lejp_callbacks) (ctx : lejp_ctx) :
    (cb_authz s reason ctx).1.replay_nonce = s.replay_nonce := by
  unfold cb_authz
  (simp only []; repeat' split) <;> simp

theorem cb_chac_nonce (s : acme_connection) (reason : lejp_callbacks) (ctx : lejp_ctx) :
    (cb_chac s reason ctx).1.replay_nonce = s.replay_nonce := by
  unfold cb_chac
  (simp only []; repeat' split) <;> simp

theorem cb_dir_nonce (v : per_vhost_data__lws_acme_client) (ac : acme_connection)
    (reason : lejp_callbacks) (ctx : lejp_ctx) (res : per_vhost_data__lws_acme_client × Int)
    (h : v.ac = some ac) (hc : cb_dir v reason ctx = some res) :
    ∃ ac1, res.1.ac = some ac1 ∧ ac1.replay_nonce = ac.replay_nonce := by
  unfold cb_dir at hc
  simp only [h] at hc
  split at hc
  · cases hc; exact ⟨ac, rfl, rfl⟩
  · split at hc
    · cases hc; exact ⟨ac, h, rfl⟩
    · split at hc
      · cases hc; exact ⟨ac, h, rfl⟩
      · split at hc
        · rename_i d ac2 hd hac2
          cases hac2
          cases hc
          exact ⟨_, rfl, rfl⟩
        · cases hc

theorem lejp_callback_nonce (u : lejp_user) (v : per_vhost_data__lws_acme_client)
    (ac : acme_connection) (e : lejp_event) (res : per_vhost_data__lws_acme_client × Int)
    (h : v.ac = some ac) (hc : lejp_callback u v e = some res) :
    ∃ ac1, res.1.ac = some ac1 ∧ ac1.replay_nonce = ac.replay_nonce := by
  cases u with
  | dir => exact cb_dir_nonce v ac e.reason e.ctx res h hc
  | authz =>
    simp only [lejp_callback, h, Option.some.injEq] at hc
    subst hc
    exact ⟨_, rfl, cb_authz_nonce ac e.reason e.ctx⟩
  | chac =>
    simp only [lejp_callback, h, Option.some.injEq] at hc
    subst hc
    exact ⟨_, rfl, cb_chac_nonce ac e.reason e.ctx⟩

theorem lejp_parse_nonce (u : lejp_user) (cbs : List lejp_event) (pret : Int) :
    ∀ (v : per_vhost_data__lws_acme_client) (ac : acme_connection)
      (res : per_vhost_data__lws_acme_client × Int),
      v.ac = some ac → lejp_parse u v cbs pret = some res →
      ∃ ac1, res.1.ac = some ac1 ∧ ac1.replay_nonce = ac.replay_nonce := by
  induction cbs with
  | nil =>
    intro v ac res h hc
    simp only [lejp_parse, Option.some.injEq] at hc
    subst hc
    exact ⟨ac, h, rfl⟩
  | cons e es ih =>
    intro v ac res h hc
    simp only [lejp_parse] at hc
    cases hcb : lejp_callback u v e with
    | none => simp [hcb] at hc
    | some p =>
      obtain ⟨ac1, h1, hs1⟩ := lejp_callback_nonce u v ac e p h hcb
      simp only [hcb] at hc
      split at hc
      · cases hc
        exact ⟨ac1, h1, hs1⟩
      · obtain ⟨ac2, h2, hs2⟩ := ih p.1 ac1 res h1 hc
        exact ⟨ac2, h2, hs2.trans hs1⟩

theorem construct_holds (u : lejp_user) (vhd : per_vhost_data__lws_acme_client)
    (a : acme_connection) (r : Result)
    (hc : ((lejp_construct u vhd a).map fun p => done p.1 0 []) = some r) :
    holds_nonce a.replay_nonce r := by
  cases hl : lejp_construct u vhd a with
  | none => simp [hl] at hc
  | some p =>
    simp only [hl, Option.map_some', Option.some.injEq] at hc
    subst hc
    unfold lejp_construct at hl
    obtain ⟨ac1, h1, hs1⟩ := lejp_callback_nonce u _ _ _ p rfl hl
    exact done_holds _ p.1 ac1 0 [] h1 hs1

theorem established_switch_holds (vhd : per_vhost_data__lws_acme_client)
    (a : acme_connection) (location : Option (List Char)) (r : Result)
    (hc : established_switch vhd a location = some r) : holds_nonce a.replay_nonce r := by
  unfold established_switch at hc
  cases hst : a.state <;> simp only [hst] at hc
  case ACME_STATE_NEW_REG => cases hc; exact done_holds _ _ a _ _ rfl rfl
  case ACME_STATE_FINISHED => cases hc; exact done_holds _ _ a _ _ rfl rfl
  case ACME_STATE_POLLING_CSR =>
    repeat' split at hc
    all_goals first
      | (cases hc; exact failed_holds _ _ _)
      | (cases hc; exact done_holds _ _ _ _ _ rfl rfl)
  all_goals exact construct_holds _ vhd a r hc

theorem established_holds (X : Ext) (vhd : per_vhost_data__lws_acme_client)
    (ac : acme_connection) (resp : Int) (n : List Char) (location : Option (List Char))
    (r : Result) (h : vhd.ac = some ac) (hne : n ≠ []) (hlen : n.length < 64)
    (hc : callback_acme_client X vhd
      (LWS_CALLBACK_ESTABLISHED_CLIENT_HTTP resp (some n) location) = some r) :
    holds_nonce n r := by
  have h0 : lws_hdr_total_length (some n) ≠ 0 := by
    simp only [lws_hdr_total_length]
    exact fun hz => hne (List.length_eq_zero.mp hz)
  have hcopy : lws_hdr_copy ac.replay_nonce 64 (some n) = ((n.length : Int), n) := by
    simp only [lws_hdr_copy]
    rw [if_neg (by omega)]
  simp only [callback_acme_client, h, established_client_http, hcopy] at hc
  rw [if_neg (fun hh => absurd hh.2 (by simp)), if_pos h0] at hc
  exact established_switch_holds vhd _ location r hc

theorem read_holds (vhd : per_vhost_data__lws_acme_client) (ac : acme_connection)
    (inp : List Nat) (cbs : List lejp_event) (pret : Int) (r : Result) (h : vhd.ac = some ac)
    (hc : receive_client_http_read vhd ac inp cbs pret = some r) :
    holds_nonce ac.replay_nonce r := by
  have hjson : (match ac.jctx with
      | none => none
      | some u =>
        match lejp_parse u vhd cbs pret with
        | none => none
        | some (vhd1, m) =>
          if signed_char m < 0 ∧ signed_char m ≠ LEJP_CONTINUE then some (failed vhd1 [])
          else some (done vhd1 0 [])) = some r → holds_nonce ac.replay_nonce r := by
    intro hj
    cases hu : ac.jctx with
    | none => simp [hu] at hj
    | some u =>
      simp only [hu] at hj
      cases hp : lejp_parse u vhd cbs pret with
      | none => simp [hp] at hj
      | some p =>
        obtain ⟨ac1, h1, hs1⟩ := lejp_parse_nonce u cbs pret vhd ac p h hp
        simp only [hp] at hj
        by_cases hm : signed_char p.2 < 0 ∧ signed_char p.2 ≠ LEJP_CONTINUE
        · rw [if_pos hm] at hj
          cases hj
          exact failed_holds _ _ _
        · rw [if_neg hm] at hj
          cases hj
          exact done_holds _ _ ac1 _ _ h1 hs1
  unfold receive_client_http_read at hc
  cases hst : ac.state <;> simp only [hst] at hc
  case ACME_STATE_NEW_REG => cases hc; exact done_holds _ _ ac _ _ h rfl
  case ACME_STATE_FINISHED => cases hc; exact done_holds _ _ ac _ _ h rfl
  case ACME_STATE_POLLING_CSR =>
    split at hc
    · cases hc; exact failed_holds _ _ _
    · cases hc; exact done_holds _ _ _ _ _ rfl rfl
  all_goals exact hjson hc

theorem pkt_add_hdrs_holds (X : Ext) (vhd : per_vhost_data__lws_acme_client)
    (a : acme_connection) (payload : List Char) (o : Handshake) :
    holds_nonce a.replay_nonce (pkt_add_hdrs X vhd a payload o) := by
  unfold pkt_add_hdrs
  simp only []
  repeat' split
  all_goals first
    | exact failed_holds _ _ _
    | exact done_holds _ _ _ _ _ rfl rfl

theorem append_holds (X : Ext) (vhd : per_vhost_data__lws_acme_client) (ac : acme_connection)
    (o : Handshake) (h : vhd.ac = some ac) :
    holds_nonce ac.replay_nonce (client_append_handshake_header X vhd ac o) := by
  unfold client_append_handshake_header
  simp only []
  repeat' split
  all_goals first
    | exact failed_holds _ _ _
    | exact done_holds _ _ ac _ _ h rfl
    | exact pkt_add_hdrs_holds X _ ac _ o
    | exact pkt_add_hdrs_holds X _ { ac with alloc_privkey_pem := _, len_privkey_pem := _ } _ o

theorem writeable_holds (X : Ext) (vhd : per_vhost_data__lws_acme_client)
    (ac : acme_connection) (wrote : Int) (h : vhd.ac = some ac) :
    holds_nonce ac.replay_nonce (client_http_writeable X vhd ac wrote) := by
  unfold client_http_writeable
  simp only []
  repeat' split
  all_goals first
    | exact done_holds _ _ ac _ _ h rfl
    | exact done_holds _ _ _ _ _ rfl rfl

theorem poll_again_holds (vhd : per_vhost_data__lws_acme_client) (ac : acme_connection)
    (o : Completion) : holds_nonce ac.replay_nonce (poll_again vhd ac o) := by
  unfold poll_again
  simp only []
  repeat' split
  all_goals first
    | exact failed_holds _ _ _
    | exact done_holds _ _ _ _ _ rfl rfl

theorem new_auth_holds (X : Ext) (vhd : per_vhost_data__lws_acme_client) (ac : acme_connection)
    (o : Completion) (r : Result) (h : vhd.ac = some ac)
    (hc : completed_new_auth X vhd ac o = some r) : holds_nonce ac.replay_nonce r := by
  unfold completed_new_auth at hc
  simp only [] at hc
  repeat' split at hc
  all_goals first
    | (cases hc; exact failed_holds _ _ _)
    | (cases hc; exact done_holds _ _ ac _ _ h rfl)
    | (cases hc; exact done_holds _ _ _ _ _ rfl (challenge_sans_fields X vhd ac _).2.2.1)
    | cases hc

theorem completed_holds (X : Ext) (vhd : per_vhost_data__lws_acme_client)
    (ac : acme_connection) (o : Completion) (r : Result) (h : vhd.ac = some ac)
    (hc : completed_client_http X vhd ac o = some r) : holds_nonce ac.replay_nonce r := by
  unfold completed_client_http at hc
  cases hst : ac.state <;> simp only [hst] at hc
  case ACME_STATE_NEW_AUTH => exact new_auth_holds X vhd ac o r h hc
  case ACME_STATE_ACCEPT_CHALL => cases hc; exact poll_again_holds _ _ _
  case ACME_STATE_POLLING_CSR =>
    by_cases h1 : ac.resp < 200 ∨ ac.resp > 202
    · rw [if_pos h1] at hc
      cases hc
      exact failed_holds _ _ _
    · rw [if_neg h1] at hc
      by_cases h2 : ac.resp = 200
      · rw [if_pos h2] at hc
        intro ac1 h3
        rw [(install_cert_ends vhd ac o r hc).1] at h3
        cases h3
      · rw [if_neg h2] at hc
        repeat' split at hc
        all_goals first
          | (cases hc; exact failed_holds _ _ _)
          | (cases hc; exact done_holds _ _ _ _ _ rfl rfl)
  all_goals
    repeat' split at hc
    all_goals first
      | (cases hc; exact failed_holds _ _ _)
      | (cases hc; exact poll_again_holds _ _ _)
      | (cases hc; exact done_holds _ _ ac _ _ h rfl)
      | (cases hc; exact done_holds _ _ _ _ _ rfl rfl)
      | cases hc

theorem callback_holds (X : Ext) (vhd : per_vhost_data__lws_acme_client)
    (ac : acme_connection) (e : Event) (r : Result) (h : vhd.ac = some ac)
    (h1 : is_response_headers e = false) (h2 : is_aging e = false)
    (hc : callback_acme_client X vhd e = some r) : holds_nonce ac.replay_nonce r := by
  cases e <;> simp only [callback_acme_client, h] at hc
  case LWS_CALLBACK_PROTOCOL_DESTROY =>
    cases hc
    intro ac1 h3
    simp only [done] at h3
    rw [finished_ac] at h3
    cases h3
  case LWS_CALLBACK_VHOST_CERT_AGING => cases h2
  case LWS_CALLBACK_ESTABLISHED_CLIENT_HTTP => cases h1
  case LWS_CALLBACK_CLIENT_APPEND_HANDSHAKE_HEADER o =>
    cases hc; exact append_holds X vhd ac o h
  case LWS_CALLBACK_CLIENT_HTTP_WRITEABLE w =>
    cases hc; exact writeable_holds X vhd ac w h
  case LWS_CALLBACK_RECEIVE_CLIENT_HTTP_READ inp cbs pret =>
    exact read_holds vhd ac inp cbs pret r h hc
  case LWS_CALLBACK_COMPLETED_CLIENT_HTTP o =>
    exact completed_holds X vhd ac o r h hc
  all_goals first
    | (cases hc; exact done_holds _ _ ac _ _ h rfl)
    | (split at hc <;> cases hc <;> exact done_holds _ _ ac _ _ h rfl)

theorem run_holds (X : Ext) (es : List Event) :
    ∀ (vhd v : per_vhost_data__lws_acme_client) (n : List Char),
      (∀ a, vhd.ac = some a → a.replay_nonce = n) →
      (∀ e ∈ es, is_response_headers e = false ∧ is_aging e = false) →
      run X vhd es = some v → ∀ a, v.ac = some a → a.replay_nonce = n := by
  induction es with
  | nil =>
    intro vhd v n hn _ hr
    simp only [run, Option.some.injEq] at hr
    subst hr
    exact hn
  | cons e es ih =>
    intro vhd v n hn hes hr
    simp only [run] at hr
    cases hc : callback_acme_client X vhd e with
    | none => simp [hc] at hr
    | some r =>
      simp only [hc] at hr
      obtain ⟨he1, he2⟩ := hes e (List.mem_cons_self _ _)
      refine ih r.vhd v n ?_ (fun x hx => hes x (List.mem_cons_of_mem _ hx)) hr
      cases hac : vhd.ac with
      | none =>
        intro a ha
        have hst : starts_session vhd e = false := by
          cases e <;> first | rfl | cases he2
        rw [callback_without_session X vhd e r hac hst hc] at ha
        cases ha
      | some a0 =>
        have := callback_holds X vhd a0 e r hac he1 he2 hc
        rw [hn a0 hac] at this
        exact this

theorem pkt_add_hdrs_signs (X : Ext) (vhd : per_vhost_data__lws_acme_client)
    (a : acme_connection) (payload : List Char) (o : Handshake) (p n : List Char)
    (hm : Effect.jws_create_packet p n ∈ (pkt_add_hdrs X vhd a payload o).eff) :
    n = a.replay_nonce := by
  have hfin : ∀ v : per_vhost_data__lws_acme_client,
      Effect.jws_create_packet p n ∉ (lws_acme_finished v).2 := by
    intro v
    unfold lws_acme_finished
    cases h1 : v.ac with
    | none => simp [h1]
    | some a1 => cases h2 : a1.vhost <;> simp [h1, h2]
  unfold pkt_add_hdrs at hm
  simp only [] at hm
  repeat' split at hm
  all_goals
    simp only [failed, done, List.mem_append, List.mem_cons, List.mem_singleton,
      List.not_mem_nil, or_false, Effect.jws_create_packet.injEq, reduceCtorEq, false_or,
      or_false] at hm
  all_goals first
    | exact hm.2
    | (rcases hm with hm | hm
       · exact hm.2
       · exact absurd hm (hfin _))

theorem append_signs (X : Ext) (v : per_vhost_data__lws_acme_client) (a : acme_connection)
    (k : Handshake) (r : Result) (p n : List Char) (h : v.ac = some a)
    (hc : callback_acme_client X v (LWS_CALLBACK_CLIENT_APPEND_HANDSHAKE_HEADER k) = some r)
    (hm : Effect.jws_create_packet p n ∈ r.eff) : n = a.replay_nonce := by
  have hfin : ∀ v : per_vhost_data__lws_acme_client,
      Effect.jws_create_packet p n ∉ (lws_acme_finished v).2 := by
    intro v
    unfold lws_acme_finished
    cases h1 : v.ac with
    | none => simp [h1]
    | some a1 => cases h2 : a1.vhost <;> simp [h1, h2]
  simp only [callback_acme_client, h, Option.some.injEq] at hc
  subst hc
  unfold client_append_handshake_header at hm
  simp only [] at hm
  repeat' split at hm
  all_goals first
    | (have h3 := pkt_add_hdrs_signs X _ _ _ _ p n hm; exact h3)
    | (simp only [done, List.not_mem_nil] at hm)
    | (simp only [failed, List.nil_append] at hm; exact absurd hm (hfin _))


/-- C26, amended: when a response delivered a replay-nonce header with a value of 1 to
63 bytes and the session then builds a signed request, before the headers of another
response and without an aging signal in between, every nonce passed to the signing step
is the value of that header. -/
theorem signing_uses_latest_nonce (X : Ext) (vhd : per_vhost_data__lws_acme_client)
    (ac : acme_connection) (resp : Int) (n : List Char) (location : Option (List Char))
    (es : List Event) (v : per_vhost_data__lws_acme_client) (k : Handshake) (r : Result)
    (h : vhd.ac = some ac) (hne : n ≠ []) (hlen : n.length < 64)
    (hes : ∀ e ∈ es, is_response_headers e = false ∧ is_aging e = false)
    (hrun : run X vhd (LWS_CALLBACK_ESTABLISHED_CLIENT_HTTP resp (some n) location :: es) =
      some v)
    (hc : callback_acme_client X v (LWS_CALLBACK_CLIENT_APPEND_HANDSHAKE_HEADER k) = some r) :
    ∀ p m, Effect.jws_create_packet p m ∈ r.eff → m = n := by
  intro p m hm
  simp only [run] at hrun
  cases h1 : callback_acme_client X vhd
      (LWS_CALLBACK_ESTABLISHED_CLIENT_HTTP resp (some n) location) with
  | none => simp [h1] at hrun
  | some r1 =>
    simp only [h1] at hrun
    have hn1 := established_holds X vhd ac resp n location r1 h hne hlen h1
    have hn2 := run_holds X es r1.vhd v n hn1 hes hrun
    cases hv : v.ac with
    | none => simp [callback_acme_client, hv] at hc
    | some a =>
      rw [append_signs X v a k r p m hv hc hm]
      exact hn2 a hv

/-- Witness for C26: the sample session receives the directory response with the nonce
"nonce0", its body and completion, and builds the registration request, which is signed
with "nonce0". -/
theorem signing_uses_latest_nonce_witness :
    signed_nonces result_signed.eff = ["nonce0".toList] ∧
      ∀ p m, Effect.jws_create_packet p m ∈ result_signed.eff → m = "nonce0".toList := by
  have hsome : (run ext_sample vhd_directory
      (LWS_CALLBACK_ESTABLISHED_CLIENT_HTTP 200 (some "nonce0".toList) none ::
        events_after_response)).isSome = true := by decide
  have hrun : run ext_sample vhd_directory
      (LWS_CALLBACK_ESTABLISHED_CLIENT_HTTP 200 (some "nonce0".toList) none ::
        events_after_response) = some vhd_after_response := by
    unfold vhd_after_response
    cases h : run ext_sample vhd_directory
        (LWS_CALLBACK_ESTABLISHED_CLIENT_HTTP 200 (some "nonce0".toList) none ::
          events_after_response) with
    | none => rw [h] at hsome; cases hsome
    | some v => rfl
  have hsome2 : (callback_acme_client ext_sample vhd_after_response
      (LWS_CALLBACK_CLIENT_APPEND_HANDSHAKE_HEADER handshake_ok)).isSome = true := by decide
  have hc : callback_acme_client ext_sample vhd_after_response
      (LWS_CALLBACK_CLIENT_APPEND_HANDSHAKE_HEADER handshake_ok) = some result_signed := by
    unfold result_signed
    cases h : callback_acme_client ext_sample vhd_after_response
        (LWS_CALLBACK_CLIENT_APPEND_HANDSHAKE_HEADER handshake_ok) with
    | none => rw [h] at hsome2; cases hsome2
    | some v => rfl
  exact ⟨by decide, signing_uses_latest_nonce ext_sample vhd_directory ac_directory 200
    "nonce0".toList none events_after_response vhd_after_response handshake_ok result_signed
    rfl (by decide) (by decide) (by decide) hrun hc⟩


/-- C26, as stated, fails: the sample session receives the directory response with the
nonce "nonce0" and signs its registration request with it; the registration response
then carries a replay-nonce header that is present and empty, which is shorter than 64
bytes; the next signed request, for the authorization, is signed with "nonce0", not with
the empty value of the header of the most recent response. -/
theorem empty_nonce_header_keeps_old_nonce :
    ((run ext_sample vhd_directory
      (LWS_CALLBACK_ESTABLISHED_CLIENT_HTTP 200 (some "nonce0".toList) none ::
        events_after_response ++
        [LWS_CALLBACK_CLIENT_APPEND_HANDSHAKE_HEADER handshake_ok,
         LWS_CALLBACK_ESTABLISHED_CLIENT_HTTP 201 (some []) none,
         LWS_CALLBACK_COMPLETED_CLIENT_HTTP completion_ok])).bind fun v =>
      (callback_acme_client ext_sample v
        (LWS_CALLBACK_CLIENT_APPEND_HANDSHAKE_HEADER handshake_ok)).map fun r =>
          (v.ac.map fun a => (a.state, a.resp), signed_nonces r.eff)) =
      some (some (ACME_STATE_NEW_AUTH, 201), ["nonce0".toList]) := by
  decide

/-- C30, the code at the failing input: the session `ac_cert_received` waits for its
certificate with the position 3 left by an earlier response. The headers of the next
response carry a replay-nonce header of 64 bytes: the handler returns -1 before it
reaches the restart of the position, the session is kept in the state POLLING_CSR and
its position is still 3, with the three old bytes in the buffer. With a header of 63
bytes the position restarts at 0. -/
theorem long_nonce_response_keeps_position :
    (callback_acme_client ext_sample vhd_cert_received
      (LWS_CALLBACK_ESTABLISHED_CLIENT_HTTP 200 (some (List.replicate 64 'n')) none)).map
        (fun r => (r.ret, r.vhd.ac.map fun a => (a.state, a.cpos, a.buf.take 3))) =
      some (-1, some (ACME_STATE_POLLING_CSR, 3, [48, 130, 1])) ∧
    (callback_acme_client ext_sample vhd_cert_received
      (LWS_CALLBACK_ESTABLISHED_CLIENT_HTTP 200 (some (List.replicate 63 'n')) none)).map
        (fun r => (r.ret, r.vhd.ac.map fun a => (a.state, a.cpos))) =
      some (0, some (ACME_STATE_POLLING_CSR, 0)) := by
  refine ⟨?_, ?_⟩ <;> decide

theorem written_cons (wr : List (Option Int)) (i : Nat) (c : List Char) (cs : List (List Char)) :
    written wr i (c :: cs) =
      if (wr.getD i none).getD (c.length : Int) = (c.length : Int) then
        c ++ written wr (i + 1) cs
      else c.take ((wr.getD i none).getD (c.length : Int)).toNat := rfl

theorem written_append (wr : List (Option Int)) (a b : List (List Char)) :
    ∀ i, written wr i (a ++ b) =
      if writes_complete wr i (a.map List.length) = true then
        a.flatten ++ written wr (i + a.length) b
      else written wr i a := by
  induction a with
  | nil => intro i; simp [writes_complete]
  | cons c cs ih =>
    intro i
    rw [List.cons_append, written_cons, written_cons, List.map_cons, writes_complete_cons, ih]
    by_cases h : (wr.getD i none).getD (c.length : Int) = (c.length : Int)
    · rw [if_pos h, if_pos h, decide_eq_true h, Bool.true_and]
      by_cases h2 : writes_complete wr (i + 1) (cs.map List.length) = true
      · rw [if_pos h2, if_pos h2, List.flatten_cons, List.append_assoc, List.length_cons]
        rw [show i + 1 + cs.length = i + (cs.length + 1) by omega]
      · rw [if_neg h2, if_neg h2]
    · rw [if_neg h, if_neg h, decide_eq_false h, Bool.false_and, if_neg (by decide)]

theorem written_complete (wr : List (Option Int)) (cs : List (List Char)) (i : Nat)
    (h : writes_complete wr i (cs.map List.length) = true) : written wr i cs = cs.flatten := by
  have := written_append wr cs [] i
  rw [List.append_nil, if_pos h] at this
  rw [this]
  simp [written]

theorem written_initial (wr : List (Option Int)) (cs : List (List Char)) :
    ∀ i, written wr i cs <+: cs.flatten := by
  induction cs with
  | nil => intro i; exact List.prefix_refl _
  | cons c cs ih =>
    intro i
    rw [written_cons, List.flatten_cons]
    split
    · exact (List.prefix_append_right_inj _).mpr (ih _)
    · exact (List.take_prefix _ _).trans (List.prefix_append _ _)

theorem intersperse_cons_cons (s x y : List Char) (l : List (List Char)) :
    List.intersperse s (x :: y :: l) = x :: s :: List.intersperse s (y :: l) := rfl

theorem intersperse_single (s x : List Char) : List.intersperse s [x] = [x] := rfl

theorem pem_loop_written (wr : List (Option Int)) (fuel : Nat) :
    ∀ (f : File) (i : Nat) (p : List Char), f.off ≤ f.data.length → p.length ≤ fuel →
      ∃ l, pem_loop wr fuel f i p = some l ∧
        l.f = file_put f (written wr i (List.intersperse [nl] (pem_lines fuel p))) ∧
        l.ok = writes_complete wr i ((List.intersperse [nl] (pem_lines fuel p)).map List.length) ∧
        (l.ok = true → l.idx = i + (List.intersperse [nl] (pem_lines fuel p)).length) := by
  induction fuel with
  | zero =>
    intro f i p hf hp
    have hp0 : p.length = 0 := by omega
    exact ⟨⟨f, i, true⟩, by simp [pem_loop, hp0], (file_put_nil f hf).symm, rfl, fun _ => rfl⟩
  | succ n ih =>
    intro f i p hf hp
    by_cases hp0 : p.length = 0
    · refine ⟨⟨f, i, true⟩, by simp [pem_loop, hp0], ?_, ?_, ?_⟩
      · rw [pem_lines_nil _ _ hp0]; exact (file_put_nil f hf).symm
      · rw [pem_lines_nil _ _ hp0]; rfl
      · intro _; rw [pem_lines_nil _ _ hp0]; rfl
    · rw [pem_loop_succ, if_neg hp0, pem_lines_ne_nil n p hp0, take_min65, drop_min65,
        ← length_take65]
      by_cases hr : (wr.getD i none).getD (((p.take 65).length : Nat) : Int) ≠
          (((p.take 65).length : Nat) : Int)
      · rw [if_pos hr]
        have hhead : ∃ tl, List.intersperse [nl] (p.take 65 :: pem_lines n (p.drop 65)) =
            p.take 65 :: tl := by
          cases pem_lines n (p.drop 65) with
          | nil => exact ⟨_, rfl⟩
          | cons y ys => exact ⟨_, rfl⟩
        obtain ⟨tl, htl⟩ := hhead
        rw [htl, written_cons, if_neg hr, List.map_cons, writes_complete_cons,
          decide_eq_false hr]
        exact ⟨_, rfl, rfl, rfl, fun hok => by cases hok⟩
      · rw [if_neg hr]
        have hr' := not_not.mp hr
        rw [hr', Int.toNat_ofNat, List.take_length]
        by_cases hrest : (p.drop 65).length ≠ 0
        · rw [if_pos hrest]
          have hlines : pem_lines n (p.drop 65) =
              (p.drop 65).take 65 :: pem_lines (n - 1) ((p.drop 65).drop 65) := by
            have hn : n = (n - 1) + 1 := by
              have : (p.drop 65).length ≤ n := by rw [List.length_drop]; omega
              omega
            rw [hn]
            exact pem_lines_ne_nil (n - 1) (p.drop 65) hrest
          have hcut : List.intersperse [nl] (p.take 65 :: pem_lines n (p.drop 65)) =
              p.take 65 :: [nl] :: List.intersperse [nl] (pem_lines n (p.drop 65)) := by
            rw [hlines]; rfl
          rw [hcut, written_cons, if_pos hr', written_cons, List.map_cons, List.map_cons,
            writes_complete_cons, writes_complete_cons, decide_eq_true hr', Bool.true_and]
          by_cases hr2 : (wr.getD (i + 1) none).getD ((1 : Nat) : Int) ≠ 1
          · rw [if_pos hr2]
            have hr2b : ¬ (wr.getD (i + 1) none).getD (([nl].length : Nat) : Int) =
                (([nl].length : Nat) : Int) := hr2
            rw [if_neg hr2b, decide_eq_false hr2b]
            refine ⟨_, rfl, ?_, rfl, fun hok => by cases hok⟩
            exact file_put_put f _ _ hf
          · rw [if_neg hr2]
            have hr2' := not_not.mp hr2
            have hr2b : (wr.getD (i + 1) none).getD (([nl].length : Nat) : Int) =
                (([nl].length : Nat) : Int) := hr2'
            rw [if_pos hr2b, decide_eq_true hr2b, Bool.true_and, hr2']
            have hwf : (file_put (file_put f (p.take 65)) (([nl].take 1).take (1 : Int).toNat)).off ≤
                (file_put (file_put f (p.take 65)) (([nl].take 1).take (1 : Int).toNat)).data.length :=
              file_put_wf _ _ (file_put_wf _ _ hf)
            obtain ⟨l, hl, hlf, hok, hidx⟩ := ih _ (i + 2) (p.drop 65) hwf
              (by rw [List.length_drop]; omega)
            refine ⟨l, hl, ?_, hok, ?_⟩
            · rw [hlf, file_put_put f _ _ hf, file_put_put f _ _ hf]
              congr 1
              simp
            · intro h1
              rw [hidx h1]
              simp only [List.length_cons]
              omega
        · rw [if_neg hrest]
          have hrest' : (p.drop 65).length = 0 := not_not.mp hrest
          obtain ⟨l, hl, hlf, hok, hidx⟩ := ih (file_put f (p.take 65)) (i + 1)
            (p.drop 65) (file_put_wf _ _ hf) (by omega)
          rw [pem_lines_nil n _ hrest'] at hlf hok hidx ⊢
          rw [intersperse_single, written_cons, if_pos hr', List.map_cons, writes_complete_cons,
            decide_eq_true hr', Bool.true_and]
          refine ⟨l, hl, ?_, hok, ?_⟩
          · rw [hlf]
            simp only [List.intersperse, written, List.append_nil]
            exact file_put_nil _ (file_put_wf _ _ hf)
          · intro h1
            rw [hidx h1]
            simp

theorem cert_written_eq (ac : acme_connection) (o : Completion) :
    cert_written ac o =
      if (o.wr.getD 0 none).getD ((28 : Nat) : Int) = ((28 : Nat) : Int) then
        if o.malloc_ok = true then
          pem_begin ++
            (if writes_complete o.wr 1 ((List.intersperse [nl]
                (pem_lines (b64_encode (ac.buf.take ac.cpos)).length
                  (b64_encode (ac.buf.take ac.cpos)))).map List.length) = true then
              (List.intersperse [nl] (pem_lines (b64_encode (ac.buf.take ac.cpos)).length
                (b64_encode (ac.buf.take ac.cpos)))).flatten ++
              (if (o.wr.getD (1 + (List.intersperse [nl]
                  (pem_lines (b64_encode (ac.buf.take ac.cpos)).length
                    (b64_encode (ac.buf.take ac.cpos)))).length) none).getD ((27 : Nat) : Int) =
                  ((27 : Nat) : Int) then pem_end
               else pem_end.take ((o.wr.getD (1 + (List.intersperse [nl]
                  (pem_lines (b64_encode (ac.buf.take ac.cpos)).length
                    (b64_encode (ac.buf.take ac.cpos)))).length) none).getD
                      ((27 : Nat) : Int)).toNat)
            else written o.wr 1 (List.intersperse [nl]
              (pem_lines (b64_encode (ac.buf.take ac.cpos)).length
                (b64_encode (ac.buf.take ac.cpos)))))
        else pem_begin
      else pem_begin.take ((o.wr.getD 0 none).getD ((28 : Nat) : Int)).toNat := by
  have e28 : pem_begin.length = 28 := by decide
  have e27 : pem_end.length = 27 := by decide
  have hc : cert_chunks ac = pem_begin :: (List.intersperse [nl]
      (pem_lines (b64_encode (ac.buf.take ac.cpos)).length
        (b64_encode (ac.buf.take ac.cpos))) ++ [pem_end]) := rfl
  have hb : ["-----BEGIN CERTIFICATE-----\n".toList] = [pem_begin] := rfl
  unfold cert_written
  rw [hc, hb]
  cases hm : o.malloc_ok
  · rw [if_neg Bool.false_ne_true, written_cons, e28]
    by_cases h : (o.wr.getD 0 none).getD ((28 : Nat) : Int) = ((28 : Nat) : Int)
    · rw [if_pos h, if_pos h, if_neg Bool.false_ne_true]
      simp only [written, List.append_nil]
    · rw [if_neg h, if_neg h]
  · rw [if_pos rfl, written_cons, e28, written_append, written_cons, e27]
    simp only [written, List.append_nil, Nat.add_comm, if_true]

theorem cert_complete_eq (ac : acme_connection) (o : Completion) :
    cert_complete ac o =
      (o.malloc_ok && (decide ((o.wr.getD 0 none).getD ((28 : Nat) : Int) = ((28 : Nat) : Int)) &&
        (writes_complete o.wr 1 ((List.intersperse [nl]
          (pem_lines (b64_encode (ac.buf.take ac.cpos)).length
            (b64_encode (ac.buf.take ac.cpos)))).map List.length) &&
          decide ((o.wr.getD (1 + (List.intersperse [nl]
            (pem_lines (b64_encode (ac.buf.take ac.cpos)).length
              (b64_encode (ac.buf.take ac.cpos)))).length) none).getD ((27 : Nat) : Int) =
                ((27 : Nat) : Int))))) := by
  have e28 : pem_begin.length = 28 := by decide
  have e27 : pem_end.length = 27 := by decide
  have hc : cert_chunks ac = pem_begin :: (List.intersperse [nl]
      (pem_lines (b64_encode (ac.buf.take ac.cpos)).length
        (b64_encode (ac.buf.take ac.cpos))) ++ [pem_end]) := rfl
  unfold cert_complete
  rw [hc, List.map_cons, List.map_append, writes_complete_cons, writes_complete_append,
    List.map_cons, List.map_nil, writes_complete_cons, e28, e27, List.length_map]
  simp only [writes_complete, Bool.and_true, Nat.add_comm]

theorem cert_chunks_length (ac : acme_connection) :
    (cert_chunks ac).length = 1 + (List.intersperse [nl]
      (pem_lines (b64_encode (ac.buf.take ac.cpos)).length
        (b64_encode (ac.buf.take ac.cpos)))).length + 1 := by
  have hc : cert_chunks ac = pem_begin :: (List.intersperse [nl]
      (pem_lines (b64_encode (ac.buf.take ac.cpos)).length
        (b64_encode (ac.buf.take ac.cpos))) ++ [pem_end]) := rfl
  rw [hc]
  simp only [List.length_cons, List.length_append, List.length_nil]
  omega

/-- The files after the certificate-install step, for every outcome of its writes: each
file holds exactly what its writes put in it. -/
theorem install_cert_written (vhd : per_vhost_data__lws_acme_client) (ac : acme_connection)
    (o : Completion) (hwf : vhd.fd_updated_cert.off ≤ vhd.fd_updated_cert.data.length) :
    ∃ r, install_cert vhd ac o = some r ∧
      r.vhd.fd_updated_cert.data = (file_put vhd.fd_updated_cert (cert_written ac o)).data ∧
      r.vhd.fd_updated_key =
        (if cert_complete ac o = true then file_put vhd.fd_updated_key (key_written ac o)
         else vhd.fd_updated_key) ∧
      (r.ret = 0 ↔ (cert_complete ac o = true ∧
        (o.wr.getD (cert_chunks ac).length none).getD (ac.len_privkey_pem : Int) =
          (ac.len_privkey_pem : Int))) := by
  have hfr : ∀ (v : per_vhost_data__lws_acme_client) (e : List Effect),
      (failed v e).ret ≠ 0 := by
    intro v e
    rw [(failed_releases v e).2]
    decide
  rw [cert_written_eq, cert_complete_eq]
  unfold key_written
  rw [cert_chunks_length]
  unfold install_cert
  simp only [sys_write_eq, pem_begin_take, pem_end_take]
  by_cases h0 : (o.wr.getD 0 none).getD ((28 : Nat) : Int) ≠ 28
  · have h0b : ¬ (o.wr.getD 0 none).getD ((28 : Nat) : Int) = ((28 : Nat) : Int) := h0
    rw [if_pos h0, if_neg h0b, decide_eq_false h0b, Bool.false_and, Bool.and_false,
      if_neg Bool.false_ne_true]
    refine ⟨_, rfl, ?_, (failed_files _ _).2, ?_⟩
    · rw [(failed_files _ _).1]
    · exact ⟨fun h => absurd h (hfr _ _), fun h => absurd h.1 Bool.false_ne_true⟩
  · rw [if_neg h0]
    have h0' : (o.wr.getD 0 none).getD ((28 : Nat) : Int) = ((28 : Nat) : Int) := not_not.mp h0
    rw [if_pos h0', decide_eq_true h0', Bool.true_and, h0']
    have e28 : List.take (Int.toNat ((28 : Nat) : Int)) pem_begin = pem_begin := by decide
    rw [e28]
    by_cases hm : o.malloc_ok = false
    · rw [if_pos hm, hm, if_neg Bool.false_ne_true, Bool.false_and, if_neg Bool.false_ne_true]
      refine ⟨_, rfl, ?_, (failed_files _ _).2, ?_⟩
      · rw [(failed_files _ _).1]
      · exact ⟨fun h => absurd h (hfr _ _), fun h => absurd h.1 Bool.false_ne_true⟩
    · rw [if_neg hm]
      have hm' : o.malloc_ok = true := by
        cases h : o.malloc_ok
        · exact absurd h hm
        · rfl
      rw [hm', if_pos rfl, Bool.true_and]
      rw [b64_fits (ac.buf.take ac.cpos) ac.cpos (by rw [List.length_take]; omega)]
      simp only []
      obtain ⟨l, hl, hlf, hok, hidx⟩ := pem_loop_written o.wr
        (b64_encode (ac.buf.take ac.cpos)).length (file_put vhd.fd_updated_cert pem_begin) 1
        (b64_encode (ac.buf.take ac.cpos)) (file_put_wf _ _ hwf) (le_refl _)
      rw [hl]
      simp only []
      rw [← hok]
      by_cases hlok : l.ok = false
      · rw [if_pos hlok, hlok, if_neg Bool.false_ne_true, Bool.false_and,
          if_neg Bool.false_ne_true]
        refine ⟨_, rfl, ?_, (failed_files _ _).2, ?_⟩
        · rw [(failed_files _ _).1, hlf, file_put_put _ _ _ hwf]
        · exact ⟨fun h => absurd h (hfr _ _), fun h => absurd h.1 Bool.false_ne_true⟩
      · rw [if_neg hlok]
        have hlok' : l.ok = true := by
          cases h : l.ok
          · exact absurd h hlok
          · rfl
        rw [hlok', if_pos rfl, Bool.true_and, ← hidx hlok']
        have hfull : written o.wr 1 (List.intersperse [nl]
            (pem_lines (b64_encode (ac.buf.take ac.cpos)).length
              (b64_encode (ac.buf.take ac.cpos)))) =
            (List.intersperse [nl] (pem_lines (b64_encode (ac.buf.take ac.cpos)).length
              (b64_encode (ac.buf.take ac.cpos)))).flatten :=
          written_complete _ _ _ (by rw [← hok]; exact hlok')
        rw [hfull] at hlf
        by_cases h2 : (o.wr.getD l.idx none).getD ((27 : Nat) : Int) ≠ 27
        · rw [if_pos h2]
          have h2b : ¬ (o.wr.getD l.idx none).getD ((27 : Nat) : Int) = ((27 : Nat) : Int) := h2
          rw [if_neg h2b, decide_eq_false h2b, if_neg Bool.false_ne_true]
          refine ⟨_, rfl, ?_, (failed_files _ _).2, ?_⟩
          · rw [(failed_files _ _).1, hlf, file_put_put _ _ _ hwf, file_put_put _ _ _ hwf,
              List.append_assoc]
          · exact ⟨fun h => absurd h (hfr _ _), fun h => absurd h.1 Bool.false_ne_true⟩
        · rw [if_neg h2]
          have h2' : (o.wr.getD l.idx none).getD ((27 : Nat) : Int) = ((27 : Nat) : Int) :=
            not_not.mp h2
          rw [if_pos h2', decide_eq_true h2', if_pos rfl, h2']
          have e27 : List.take (Int.toNat ((27 : Nat) : Int)) pem_end = pem_end := by decide
          rw [e27]
          have hcert : (file_put l.f pem_end).data = (file_put vhd.fd_updated_cert
              (pem_begin ++ ((List.intersperse [nl]
                (pem_lines (b64_encode (ac.buf.take ac.cpos)).length
                  (b64_encode (ac.buf.take ac.cpos)))).flatten ++ pem_end))).data := by
            rw [hlf, file_put_put _ _ _ hwf, file_put_put _ _ _ hwf, List.append_assoc]
          by_cases h3 : (o.wr.getD (l.idx + 1) none).getD (ac.len_privkey_pem : Int) ≠
              (ac.len_privkey_pem : Int)
          · rw [if_pos h3]
            refine ⟨_, rfl, ?_, (failed_files _ _).2, ?_⟩
            · rw [(failed_files _ _).1, ← hcert]
              rfl
            · exact ⟨fun h => absurd h (hfr _ _), fun h => absurd h.2 h3⟩
          · rw [if_neg h3]
            refine ⟨_, rfl, ?_, ?_, ?_⟩
            · simp only [done]
              rw [(finished_files _).1, ← hcert]
              rfl
            · simp only [done]
              rw [(finished_files _).2]
            · exact ⟨fun _ => ⟨rfl, not_not.mp h3⟩, fun _ => rfl⟩

theorem cert_chunks_flatten (ac : acme_connection) :
    (cert_chunks ac).flatten = "-----BEGIN CERTIFICATE-----\n".toList ++
      pem_body (b64_encode (ac.buf.take ac.cpos)) ++ "\n-----END CERTIFICATE-----\n".toList := by
  unfold cert_chunks pem_body List.intercalate
  rw [List.flatten_append, List.flatten_cons]
  simp only [List.flatten_cons, List.flatten_nil, List.append_nil, List.append_assoc]
  rfl

theorem cert_written_initial (ac : acme_connection) (o : Completion) :
    cert_written ac o <+: (cert_chunks ac).flatten := by
  unfold cert_written
  cases o.malloc_ok
  · rw [if_neg Bool.false_ne_true]
    refine (written_initial _ _ _).trans ?_
    unfold cert_chunks
    simp only [List.flatten_append, List.flatten_cons, List.flatten_nil, List.append_nil,
      List.append_assoc]
    exact List.prefix_append _ _
  · rw [if_pos rfl]
    exact written_initial _ _ _

theorem cert_written_complete (ac : acme_connection) (o : Completion)
    (h : cert_complete ac o = true) : cert_written ac o = (cert_chunks ac).flatten := by
  unfold cert_complete at h
  rw [Bool.and_eq_true] at h
  unfold cert_written
  rw [h.1, if_pos rfl]
  exact written_complete _ _ _ h.2

theorem cert_written_keeps (ac : acme_connection) (o : Completion) (a b : List (List Char))
    (hm : o.malloc_ok = true) (hab : cert_chunks ac = a ++ b)
    (h : writes_complete o.wr 0 (a.map List.length) = true) :
    cert_written ac o = a.flatten ++ written o.wr a.length b := by
  unfold cert_written
  rw [hm, if_pos rfl, hab, written_append, if_pos h, Nat.zero_add]

/-- C10, amended: for every outcome of the allocation and of each write of the
certificate-install step, the certificate update file holds, at its offset, exactly
the bytes its writes put there, the writes being made with the BEGIN line, the lines
of the base64 text with a line break between two lines, and the END line, in this
order, up to and including the first write that does not return its count (only the
write of the BEGIN line when the allocation fails); so the file holds a beginning of
its complete contents, the chunks of the writes made before the incomplete one stay in
it, and it holds its complete contents when the allocation succeeds and each of its
writes is complete. The key update file is written only when the certificate file is
complete, and then holds at its offset the bytes the write of the key accepted;
otherwise it is unchanged. The callback returns 0 exactly when moreover the write of
the key returns its count: then the certificate file is rewound, the key file holds the
whole key and the host is told; otherwise it returns -1 and the host is not told. In
either case the session is released. -/
theorem install_outcomes (X : Ext) (vhd : per_vhost_data__lws_acme_client)
    (ac : acme_connection) (o : Completion) (h : vhd.ac = some ac)
    (hs : ac.state = ACME_STATE_POLLING_CSR) (hr : ac.resp = 200)
    (hwf : vhd.fd_updated_cert.off ≤ vhd.fd_updated_cert.data.length) :
    ∃ r, callback_acme_client X vhd (LWS_CALLBACK_COMPLETED_CLIENT_HTTP o) = some r ∧
      r.vhd.ac = none ∧
      r.vhd.fd_updated_cert.data = (file_put vhd.fd_updated_cert (cert_written ac o)).data ∧
      cert_written ac o <+: (cert_chunks ac).flatten ∧
      (∀ a b, o.malloc_ok = true → cert_chunks ac = a ++ b →
        writes_complete o.wr 0 (a.map List.length) = true →
        cert_written ac o = a.flatten ++ written o.wr a.length b) ∧
      (cert_complete ac o = true → cert_written ac o = (cert_chunks ac).flatten) ∧
      (cert_chunks ac).flatten = "-----BEGIN CERTIFICATE-----\n".toList ++
        pem_body (b64_encode (ac.buf.take ac.cpos)) ++ "\n-----END CERTIFICATE-----\n".toList ∧
      r.vhd.fd_updated_key =
        (if cert_complete ac o = true then file_put vhd.fd_updated_key (key_written ac o)
         else vhd.fd_updated_key) ∧
      (r.ret = 0 ↔ (cert_complete ac o = true ∧
        (o.wr.getD (cert_chunks ac).length none).getD (ac.len_privkey_pem : Int) =
          (ac.len_privkey_pem : Int))) ∧
      (r.ret = 0 →
        r.vhd.fd_updated_cert.off = 0 ∧
        r.vhd.fd_updated_key = file_put vhd.fd_updated_key
          ((ac.alloc_privkey_pem.getD []).take ac.len_privkey_pem) ∧
        Effect.tls_cert_updated (ac.buf.take ac.cpos) (ac.alloc_privkey_pem.getD []) ∈ r.eff) ∧
      (r.ret ≠ 0 → r.ret = -1 ∧
        ∀ cert key, Effect.tls_cert_updated cert key ∉ r.eff) ∧
      (((∀ j, o.wr.getD j none = none) ∧ o.malloc_ok = true) → r.ret = 0) := by
  obtain ⟨r, w, hcb, hac, -, -, -, hret0, hretn, hall⟩ := install_step X vhd ac o h hs hr hwf
  obtain ⟨r1, hi, hdata, hkey, hiff⟩ := install_cert_written vhd ac o hwf
  have hc : callback_acme_client X vhd (LWS_CALLBACK_COMPLETED_CLIENT_HTTP o) =
      install_cert vhd ac o := by
    rw [callback_completed X vhd ac o h]
    simp [completed_client_http, hs, hr]
  rw [hc, hi] at hcb
  cases hcb
  exact ⟨r, by rw [hc, hi], hac, hdata, cert_written_initial ac o,
    fun a b hm hab hw => cert_written_keeps ac o a b hm hab hw,
    cert_written_complete ac o, cert_chunks_flatten ac, hkey, hiff,
    fun h0 => (hret0 h0).2, hretn, hall⟩


/-- Witness for C10: the sample session that received a certificate of three bytes, the
write of the key failing; and, evaluated, the same session when the write of the line
of base64 text accepts two bytes only: the certificate update file then holds the BEGIN
line and these two bytes, the key update file is unchanged and the callback returns
-1. -/
theorem install_outcomes_witness :
    (∃ r, callback_acme_client ext_sample vhd_cert_received
        (LWS_CALLBACK_COMPLETED_CLIENT_HTTP completion_key_write_fails) = some r ∧
      r.vhd.ac = none ∧
      r.vhd.fd_updated_cert.data = (file_put vhd_cert_received.fd_updated_cert
        (cert_written ac_cert_received completion_key_write_fails)).data ∧
      cert_written ac_cert_received completion_key_write_fails <+:
        (cert_chunks ac_cert_received).flatten ∧
      (∀ a b, completion_key_write_fails.malloc_ok = true → cert_chunks ac_cert_received = a ++ b →
        writes_complete completion_key_write_fails.wr 0 (a.map List.length) = true →
        cert_written ac_cert_received completion_key_write_fails =
          a.flatten ++ written completion_key_write_fails.wr a.length b) ∧
      (cert_complete ac_cert_received completion_key_write_fails = true →
        cert_written ac_cert_received completion_key_write_fails =
          (cert_chunks ac_cert_received).flatten) ∧
      (cert_chunks ac_cert_received).flatten = "-----BEGIN CERTIFICATE-----\n".toList ++
        pem_body (b64_encode (ac_cert_received.buf.take ac_cert_received.cpos)) ++
          "\n-----END CERTIFICATE-----\n".toList ∧
      r.vhd.fd_updated_key =
        (if cert_complete ac_cert_received completion_key_write_fails = true then
          file_put vhd_cert_received.fd_updated_key
            (key_written ac_cert_received completion_key_write_fails)
         else vhd_cert_received.fd_updated_key) ∧
      (r.ret = 0 ↔ (cert_complete ac_cert_received completion_key_write_fails = true ∧
        (completion_key_write_fails.wr.getD (cert_chunks ac_cert_received).length none).getD
          (ac_cert_received.len_privkey_pem : Int) = (ac_cert_received.len_privkey_pem : Int))) ∧
      (r.ret = 0 →
        r.vhd.fd_updated_cert.off = 0 ∧
        r.vhd.fd_updated_key = file_put vhd_cert_received.fd_updated_key
          ((ac_cert_received.alloc_privkey_pem.getD []).take ac_cert_received.len_privkey_pem) ∧
        Effect.tls_cert_updated (ac_cert_received.buf.take ac_cert_received.cpos)
          (ac_cert_received.alloc_privkey_pem.getD []) ∈ r.eff) ∧
      (r.ret ≠ 0 → r.ret = -1 ∧
        ∀ cert key, Effect.tls_cert_updated cert key ∉ r.eff) ∧
      (((∀ j, completion_key_write_fails.wr.getD j none = none) ∧
        completion_key_write_fails.malloc_ok = true) → r.ret = 0)) ∧
    cert_chunks ac_cert_received = ["-----BEGIN CERTIFICATE-----\n".toList, "MIIB".toList,
      "\n-----END CERTIFICATE-----\n".toList] ∧
    cert_written ac_cert_received completion_key_write_fails =
      "-----BEGIN CERTIFICATE-----\nMIIB\n-----END CERTIFICATE-----\n".toList ∧
    cert_complete ac_cert_received completion_key_write_fails = true ∧
    key_written ac_cert_received completion_key_write_fails = [] ∧
    cert_written ac_cert_received completion_short_write =
      "-----BEGIN CERTIFICATE-----\nMI".toList ∧
    (callback_acme_client ext_sample vhd_cert_received
        (LWS_CALLBACK_COMPLETED_CLIENT_HTTP completion_short_write)).map
      (fun r => (r.ret, r.vhd.fd_updated_cert.data,
        decide (r.vhd.fd_updated_key = vhd_cert_received.fd_updated_key))) =
      some (-1, "-----BEGIN CERTIFICATE-----\nMI".toList, true) :=
  ⟨install_outcomes ext_sample vhd_cert_received ac_cert_received completion_key_write_fails
    rfl rfl rfl (by decide), by decide, by decide, by decide, by decide, by decide, by decide⟩

/-- The per-site data at the end of `run_effects` is the one `run` gives. -/
theorem run_effects_fst (X : Ext) (es : List Event) :
    ∀ vhd, (run_effects X vhd es).map Prod.fst = run X vhd es := by
  induction es with
  | nil => intro vhd; rfl
  | cons e es ih =>
    intro vhd
    simp only [run_effects, run]
    cases callback_acme_client X vhd e with
    | none => rfl
    | some r =>
      simp only [Option.map_map]
      exact ih r.vhd

theorem run_effects_append (X : Ext) (a b : List Event) :
    ∀ vhd, run_effects X vhd (a ++ b) =
      (run_effects X vhd a).bind fun p =>
        (run_effects X p.1 b).map fun q => (q.1, p.2 ++ q.2) := by
  induction a with
  | nil =>
    intro vhd
    simp only [List.nil_append, run_effects, Option.some_bind, List.nil_append]
    cases run_effects X vhd b <;> rfl
  | cons e es ih =>
    intro vhd
    show run_effects X vhd (e :: (es ++ b)) = _
    simp only [run_effects]
    cases callback_acme_client X vhd e with
    | none => rfl
    | some r =>
      simp only [ih r.vhd]
      cases run_effects X r.vhd es with
      | none => rfl
      | some p =>
        simp only [Option.some_bind, Option.map_some']
        cases run_effects X p.1 b with
        | none => rfl
        | some q => simp [List.append_assoc]

theorem count_gets_append (a b : List Effect) :
    count_gets (a ++ b) = count_gets a + count_gets b := by
  unfold count_gets
  exact List.countP_append _ _ _

/-- One pending response while polling, with the GET exchanges it requests: none when the
retry counter stands at 10 and the session is released, one otherwise. -/
theorem pending_response_gets (X : Ext) (vhd : per_vhost_data__lws_acme_client)
    (ac : acme_connection) (h : vhd.ac = some ac) (hs : ac.state = ACME_STATE_POLLING) :
    ∃ v eff, run_effects X vhd pending_response = some (v, eff) ∧
      (ac.goes_around = 10 → v.ac = none ∧ count_gets eff = 0) ∧
      (ac.goes_around ≠ 10 → count_gets eff = 1 ∧
        ∃ ac1, v.ac = some ac1 ∧ ac1.state = ACME_STATE_POLLING ∧
          ac1.goes_around = ac.goes_around + 1) := by
  obtain ⟨r1, ac1, hr1, h1, hs1, hg1, hresp1, hj1⟩ := established_polling X vhd ac 202 h hs
  obtain ⟨r2, ac2, hr2, h2, hs2, hg2, hresp2, hst2⟩ :=
    challenge_body_polling X r1.vhd ac1 "pending" h1 hs1 hj1
  have he1 : count_gets r1.eff = 0 := by
    have hc := hr1
    simp only [callback_acme_client, h] at hc
    exact (established_keeps vhd ac _ _ _ r1 hc).1
  have he2 : count_gets r2.eff = 0 := by
    have hc := hr2
    simp only [callback_acme_client, challenge_body, h1] at hc
    exact (read_keeps r1.vhd ac1 _ _ _ r2 h1 hc).1
  have hp : strncpy "pending".toList 15 ≠ "invalid".toList ∧
      strncpy "pending".toList 15 ≠ "valid".toList := by decide
  have hc : callback_acme_client X r2.vhd (LWS_CALLBACK_COMPLETED_CLIENT_HTTP completion_ok) =
      some (poll_again r2.vhd ac2 completion_ok) := by
    rw [callback_completed X _ _ completion_ok h2]
    simp only [completed_client_http, hs2, hst2, hresp2, hresp1, hp.1, hp.2, ne_eq,
      not_false_eq_true, and_self, if_true]
  refine ⟨(poll_again r2.vhd ac2 completion_ok).vhd,
    r1.eff ++ (r2.eff ++ ((poll_again r2.vhd ac2 completion_ok).eff ++ [])), ?_, ?_, ?_⟩
  · simp only [pending_response, run_effects, hr1, hr2, hc, Option.map_some']
  · intro hg
    have : ac2.goes_around = 10 := by rw [hg2, hg1, hg]
    rw [count_gets_append, count_gets_append, count_gets_append, he1, he2]
    simp only [poll_again, this, if_true]
    refine ⟨(failed_releases _ _).1, ?_⟩
    rw [failed_gets]
    rfl
  · intro hg
    have : ac2.goes_around ≠ 10 := by rw [hg2, hg1]; exact hg
    rw [count_gets_append, count_gets_append, count_gets_append, he1, he2]
    simp only [poll_again, this, if_false, completion_ok, if_true]
    refine ⟨?_, _, rfl, rfl, by simp [hg2, hg1]⟩
    simp [done, count_gets, is_get, lws_acme_client_connect]

/-- While the retry counter stays at 10 or below, `k` pending responses leave the
session polling with the counter `k` higher, and `k` GET exchanges are requested. -/
theorem pending_responses_gets (X : Ext) (k : Nat) :
    ∀ (vhd : per_vhost_data__lws_acme_client) (ac : acme_connection), vhd.ac = some ac →
      ac.state = ACME_STATE_POLLING → ac.goes_around + k ≤ 10 →
      ∃ v eff ac1, run_effects X vhd (pending_responses k) = some (v, eff) ∧
        v.ac = some ac1 ∧ ac1.state = ACME_STATE_POLLING ∧
        ac1.goes_around = ac.goes_around + k ∧ count_gets eff = k := by
  induction k with
  | zero =>
    intro vhd ac h hs _
    exact ⟨vhd, [], ac, rfl, h, hs, by simp, rfl⟩
  | succ n ih =>
    intro vhd ac h hs hk
    obtain ⟨v, eff, hv, -, hstep⟩ := pending_response_gets X vhd ac h hs
    obtain ⟨hcount, ac1, h1, hs1, hg1⟩ := hstep (by omega)
    obtain ⟨v2, eff2, ac2, hv2, h2, hs2, hg2, hc2⟩ :=
      ih v ac1 h1 hs1 (by rw [hg1]; push_cast at hk ⊢; omega)
    refine ⟨v2, eff ++ eff2, ac2, ?_, h2, hs2, ?_, ?_⟩
    · rw [pending_responses, run_effects_append, hv]
      simp only [Option.some_bind, hv2, Option.map_some']
    · rw [hg2, hg1]; push_cast; omega
    · rw [count_gets_append, hcount, hc2]; omega

/-- Pending responses after the completion of the challenge acceptance, with the GET
exchanges requested: nine keep the session polling, the tenth releases it without a
further GET. -/
theorem accept_then_pending_gets (X : Ext) (vhd : per_vhost_data__lws_acme_client)
    (ac : acme_connection) (h : vhd.ac = some ac) (hs : ac.state = ACME_STATE_ACCEPT_CHALL)
    (hg : ac.goes_around = 0) :
    (∀ k, k ≤ 9 → ∃ v eff ac1,
      run_effects X vhd
        (LWS_CALLBACK_COMPLETED_CLIENT_HTTP completion_ok :: pending_responses k) =
          some (v, eff) ∧
      v.ac = some ac1 ∧ ac1.state = ACME_STATE_POLLING ∧ ac1.goes_around = k + 1 ∧
      count_gets eff = k + 1) ∧
    ∃ v eff, run_effects X vhd
        (LWS_CALLBACK_COMPLETED_CLIENT_HTTP completion_ok :: pending_responses 10) =
          some (v, eff) ∧ v.ac = none ∧ count_gets eff = 10 := by
  have hstart : ∃ r ac1, callback_acme_client X vhd
      (LWS_CALLBACK_COMPLETED_CLIENT_HTTP completion_ok) = some r ∧
      r.vhd.ac = some ac1 ∧ ac1.state = ACME_STATE_POLLING ∧ ac1.goes_around = 1 ∧
      count_gets r.eff = 1 := by
    rw [callback_completed X vhd ac _ h]
    refine ⟨_, _, by simp only [completed_client_http, hs, poll_again, hg]; rfl, rfl, rfl, ?_, ?_⟩
    · simp [hg]
    · simp [done, count_gets, is_get, lws_acme_client_connect, completion_ok]
  obtain ⟨r, ac1, hr, h1, hs1, hg1, hc1⟩ := hstart
  have hk : ∀ k, k ≤ 9 → ∃ v eff ac2,
      run_effects X vhd
        (LWS_CALLBACK_COMPLETED_CLIENT_HTTP completion_ok :: pending_responses k) =
          some (v, eff) ∧
      v.ac = some ac2 ∧ ac2.state = ACME_STATE_POLLING ∧ ac2.goes_around = k + 1 ∧
      count_gets eff = k + 1 := by
    intro k hk
    obtain ⟨v, eff, ac2, hv, h2, hs2, hg2, hc2⟩ :=
      pending_responses_gets X k r.vhd ac1 h1 hs1 (by rw [hg1]; omega)
    refine ⟨v, r.eff ++ eff, ac2, ?_, h2, hs2, ?_, ?_⟩
    · simp only [run_effects, hr, hv, Option.map_some']
    · rw [hg2, hg1]; omega
    · rw [count_gets_append, hc1, hc2]; omega
  refine ⟨hk, ?_⟩
  obtain ⟨v, eff, ac2, hv, h2, hs2, hg2, hc2⟩ := hk 9 (le_refl 9)
  obtain ⟨v3, eff3, hv3, hfail, -⟩ := pending_response_gets X v ac2 h2 hs2
  obtain ⟨hnone, hc3⟩ := hfail (by rw [hg2]; norm_num)
  refine ⟨v3, eff ++ eff3, ?_, hnone, by rw [count_gets_append, hc2, hc3]⟩
  have hrun : run_effects X vhd
      ((LWS_CALLBACK_COMPLETED_CLIENT_HTTP completion_ok :: pending_responses 9) ++
        pending_response) = some (v3, eff ++ eff3) := by
    rw [run_effects_append, hv]
    simp only [Option.some_bind, hv3, Option.map_some']
  rw [pending_responses_succ 9]
  exact hrun

/-- C5, amended: from the completion of the challenge acceptance with retry counter 0,
when every challenge poll is answered with HTTP status 202 and status "pending", the
session is still polling after each of the first nine pending responses, with the retry
counter one above the number of responses and one GET requested for the acceptance and
for each response; on the tenth pending response the session is released and no GET is
requested, so ten GETs were made in all and an eleventh is not attempted. -/
theorem pending_polls_fail_on_tenth (X : Ext) (vhd : per_vhost_data__lws_acme_client)
    (ac : acme_connection) (h : vhd.ac = some ac) (hs : ac.state = ACME_STATE_ACCEPT_CHALL)
    (hg : ac.goes_around = 0) :
    (∀ k, k ≤ 9 → ∃ v eff ac1,
      run_effects X vhd
        (LWS_CALLBACK_COMPLETED_CLIENT_HTTP completion_ok :: pending_responses k) =
          some (v, eff) ∧
      run X vhd (LWS_CALLBACK_COMPLETED_CLIENT_HTTP completion_ok :: pending_responses k) =
        some v ∧
      v.ac = some ac1 ∧ ac1.state = ACME_STATE_POLLING ∧ ac1.goes_around = k + 1 ∧
      count_gets eff = k + 1) ∧
    ∃ v eff, run_effects X vhd
        (LWS_CALLBACK_COMPLETED_CLIENT_HTTP completion_ok :: pending_responses 10) =
          some (v, eff) ∧
      run X vhd (LWS_CALLBACK_COMPLETED_CLIENT_HTTP completion_ok :: pending_responses 10) =
        some v ∧
      v.ac = none ∧ count_gets eff = 10 := by
  obtain ⟨h9, v, eff, hv, hnone, hc⟩ := accept_then_pending_gets X vhd ac h hs hg
  refine ⟨?_, v, eff, hv, ?_, hnone, hc⟩
  · intro k hk
    obtain ⟨v1, eff1, ac1, hv1, hrest⟩ := h9 k hk
    refine ⟨v1, eff1, ac1, hv1, ?_, hrest⟩
    rw [← run_effects_fst, hv1]
    rfl
  · rw [← run_effects_fst, hv]
    rfl

/-- Witness for C5: the sample session whose challenge acceptance was just sent; the
effects of the completion and ten pending responses hold ten GET requests, all for the
challenge URL. -/
theorem pending_polls_fail_on_tenth_witness :
    ((∀ k, k ≤ 9 → ∃ v eff ac1,
      run_effects ext_sample vhd_accept_chall
        (LWS_CALLBACK_COMPLETED_CLIENT_HTTP completion_ok :: pending_responses k) =
          some (v, eff) ∧
      run ext_sample vhd_accept_chall
        (LWS_CALLBACK_COMPLETED_CLIENT_HTTP completion_ok :: pending_responses k) = some v ∧
      v.ac = some ac1 ∧ ac1.state = ACME_STATE_POLLING ∧ ac1.goes_around = k + 1 ∧
      count_gets eff = k + 1) ∧
    ∃ v eff, run_effects ext_sample vhd_accept_chall
        (LWS_CALLBACK_COMPLETED_CLIENT_HTTP completion_ok :: pending_responses 10) =
          some (v, eff) ∧
      run ext_sample vhd_accept_chall
        (LWS_CALLBACK_COMPLETED_CLIENT_HTTP completion_ok :: pending_responses 10) = some v ∧
      v.ac = none ∧ count_gets eff = 10) ∧
    (run_effects ext_sample vhd_accept_chall
        (LWS_CALLBACK_COMPLETED_CLIENT_HTTP completion_ok :: pending_responses 10)).map
      (fun p => (p.1.ac, p.2.filter is_get)) =
      some (none, List.replicate 10
        (lws_acme_client_connect "https://ca/challenge/1".toList "GET")) :=
  ⟨pending_polls_fail_on_tenth ext_sample vhd_accept_chall (ac_sample ACME_STATE_ACCEPT_CHALL)
    rfl rfl rfl, by decide⟩

end AcmeClient
